import Mathlib

/-!
Verification development for the aranet4-prom-collector repository.

The Go code is shallowly embedded: wall-clock instants are integers
(seconds; the Go zero `time.Time` is the integer 0, `After` is `>`),
`float64` sensor values are rationals, the Prometheus backend is an
explicit oracle (query results and write outcomes are inputs), and the
mutable `Syncer` / `collector` state is threaded explicitly.
-/

namespace Aranet4

/-- Instants model Go `time.Time`: an integer number of seconds; the zero
value of `time.Time` is `0`, and `t.After u` is `t > u`. -/
abbrev Instant := Int

/-- One hour, in seconds (`time.Hour`). -/
def hourSeconds : Int := 3600

/-- The lookback window used by `lastTime`: `30 * 24 * time.Hour`. -/
def lookbackSeconds : Int := 30 * 24 * 3600

/-- Error taxonomy of the sync engine, one constructor per distinct error
return of `lastTime` / `ReportMetric` (named as in the spec's taxonomy). -/
inductive SyncError where
  | invalidTimestamp
  | timestampTooFarFuture
  | backendQueryFailed
  | ambiguousSeries
  | writeFailed
  deriving DecidableEq, Repr

/-- Result of the instant query issued by `lastTime`, as seen by the code:
a transport failure, a nil value, a non-vector value, or a vector whose
samples carry last-written timestamps (the float-to-time conversion of
`vec[0].Value` is modelled as returning the instant directly). -/
inductive QueryResult where
  | failure
  | nilValue
  | nonVector
  | vector (samples : List Instant)
  deriving DecidableEq, Repr

/-- Record of one instant query issued to the backend
(`api.Query(ctx, "timestamp(selector)", time.Now(), WithLookbackDelta(30*24*h))`). -/
structure QueryEffect where
  metric : String
  evalAt : Instant
  lookback : Int
  deriving DecidableEq, Repr

/-- Record of one remote-write request issued to the backend. -/
structure WriteEffect where
  metric : String
  ts : Instant
  value : ℚ
  deriving DecidableEq, Repr

/-- The `metricWrites` counter vector, one counter per status label. -/
structure Counters where
  success : Nat
  skipped : Nat
  errors : Nat
  deriving DecidableEq, Repr

/-- State of `promsync.Syncer` relevant to the claims: the `DryRun` flag,
the `lastTimes` map (as an association list) and the outcome counters. -/
structure SyncerState where
  dryRun : Bool
  lastTimes : List (String × Instant)
  writes : Counters
  deriving DecidableEq, Repr

/-- Map lookup for `lastTimes` (`last, ok := s.lastTimes[metric]`). -/
def lookupTime : List (String × Instant) → String → Option Instant
  | [], _ => none
  | (k, v) :: rest, m => if k = m then some v else lookupTime rest m

/-- Map update for `lastTimes` (`s.lastTimes[metric] = v`). -/
def setTime : List (String × Instant) → String → Instant → List (String × Instant)
  | [], m, v => [(m, v)]
  | (k, w) :: rest, m, v =>
    if k = m then (k, v) :: rest else (k, w) :: setTime rest m v

def incSuccess (c : Counters) : Counters := { c with success := c.success + 1 }

def incSkipped (c : Counters) : Counters := { c with skipped := c.skipped + 1 }

def incErrors (c : Counters) : Counters := { c with errors := c.errors + 1 }

/-- Result of `lastTime`: the resolved instant or an error. -/
inductive TimeResult where
  | ok (t : Instant)
  | err (e : SyncError)
  deriving DecidableEq, Repr

/-- Embedding of `Syncer.lastTime`: use the cached entry if present
(no network call); otherwise issue the instant query at `now` with the
30-day lookback.  An empty vector resolves to the zero instant (and is
not cached); a single sample is cached in `lastTimes` and returned; more
than one sample is an error; a transport failure, nil value or non-vector
value is an error. -/
def lastTime (s : SyncerState) (metric : String) (now : Instant) (q : QueryResult) :
    TimeResult × SyncerState × List QueryEffect :=
  match lookupTime s.lastTimes metric with
  | some last => (.ok last, s, [])
  | none =>
    let eff := [⟨metric, now, lookbackSeconds⟩]
    match q with
    | .failure => (.err .backendQueryFailed, s, eff)
    | .nilValue => (.err .backendQueryFailed, s, eff)
    | .nonVector => (.err .backendQueryFailed, s, eff)
    | .vector [] => (.ok 0, s, eff)
    | .vector [v] => (.ok v, { s with lastTimes := setTime s.lastTimes metric v }, eff)
    | .vector (_ :: _ :: _) => (.err .ambiguousSeries, s, eff)

/-- Call outcome of `ReportMetric`, one constructor per return path of the
Go function: an error return, the early `nil` return on the duplicate
skip, and the final `nil` return (real or dry-run write). -/
inductive ReportResult where
  | failed (e : SyncError)
  | skipped
  | success
  deriving DecidableEq, Repr

/-- Full observable output of one `ReportMetric` call: the result, the
new syncer state, and the backend queries and write attempts issued. -/
structure ReportOut where
  result : ReportResult
  state : SyncerState
  queries : List QueryEffect
  writeAttempts : List WriteEffect
  deriving Repr

/-- Embedding of `Syncer.ReportMetric`.  `now` is the wall clock
(`time.Now()`), `q` is the backend's response to the instant query should
one be issued, and `writeOk` is the backend's response to the write
request should one be issued. -/
def ReportMetric (s : SyncerState) (name : String) (ts : Instant) (value : ℚ)
    (now : Instant) (q : QueryResult) (writeOk : Bool) : ReportOut :=
  if ts = 0 then
    { result := .failed .invalidTimestamp
      state := { s with writes := incErrors s.writes }
      queries := [], writeAttempts := [] }
  else if ts > now + hourSeconds then
    { result := .failed .timestampTooFarFuture
      state := { s with writes := incErrors s.writes }
      queries := [], writeAttempts := [] }
  else
    match lastTime s name now q with
    | (.err e, s1, qs) =>
      { result := .failed e
        state := { s1 with writes := incErrors s1.writes }
        queries := qs, writeAttempts := [] }
    | (.ok last, s1, qs) =>
      if ¬ ts > last then
        { result := .skipped
          state := { s1 with writes := incSkipped s1.writes }
          queries := qs, writeAttempts := [] }
      else
        if s1.dryRun then
          let s2 := { s1 with writes := incSkipped s1.writes }
          { result := .success
            state := { s2 with writes := incSuccess s2.writes
                               lastTimes := setTime s2.lastTimes name ts }
            queries := qs, writeAttempts := [] }
        else
          if writeOk then
            { result := .success
              state := { s1 with writes := incSuccess s1.writes
                                 lastTimes := setTime s1.lastTimes name ts }
              queries := qs, writeAttempts := [⟨name, ts, value⟩] }
          else
            { result := .failed .writeFailed
              state := { s1 with writes := incErrors s1.writes }
              queries := qs, writeAttempts := [⟨name, ts, value⟩] }

/-- Embedding of `aranet4.Data`: the reading timestamp, the CO2 reading
(`int` in Go), humidity, pressure and temperature (`float64`, modelled as
rationals), and the battery level (`int`). -/
structure Data where
  time : Instant
  co2 : Int
  h : ℚ
  p : ℚ
  t : ℚ
  battery : Int
  deriving DecidableEq, Repr

instance : Inhabited Data := ⟨⟨0, 0, 0, 0, 0, 0⟩⟩

/-- The comparison passed to `slices.SortFunc` in `refresh`:
`a.Time.Compare(b.Time)`. -/
def dataCmp (x y : Data) : Int :=
  if x.time < y.time then -1 else if y.time < x.time then 1 else 0

/-- The validity filter applied by the reporting loop of `refresh`: a
reading is kept unless its timestamp is zero, its CO2 is `<= 0`, or its
pressure is `<= 0`. -/
def keepData (d : Data) : Bool :=
  if d.time = 0 then false
  else if d.co2 ≤ 0 then false
  else if d.p ≤ 0 then false
  else true

section GoSort

/-!
Faithful embedding of Go's `slices.SortFunc` (the generated
`zsortanyfunc.go` pattern-defeating quicksort), which `refresh` uses to
order readings by timestamp.  The in-place slice is an `Array`, `for`
loops become recursion (with explicit fuel where the Go loop's
termination is not structural; all call sites pass ample fuel), and
`uint64` arithmetic is carried out on `Nat` modulo `2 ^ 64`.
-/

variable {α : Type} [Inhabited α] (cmp : α → α → Int)

/-- Read `data[i]` (all source accesses are in bounds). -/
def agetD (d : Array α) (i : Nat) : α := d.getD i default

/-- Swap `data[i]` and `data[j]` (all source accesses are in bounds). -/
def aswap (d : Array α) (i j : Nat) : Array α :=
  if h1 : i < d.size then
    if h2 : j < d.size then d.swap ⟨i, h1⟩ ⟨j, h2⟩ else d
  else d

/-- Inner loop of `insertionSortCmpFunc`: sink `data[j]` left while it
compares below its predecessor and `j > a` (fuel-indexed so the kernel
can evaluate it; each loop runs at most `j` times and call sites pass
more). -/
def insInner (d : Array α) (a j : Nat) : Nat → Array α
  | 0 => d
  | fuel + 1 =>
    if a < j ∧ cmp (agetD d j) (agetD d (j - 1)) < 0 then
      insInner (aswap d j (j - 1)) a (j - 1) fuel
    else d

/-- Outer loop of `insertionSortCmpFunc`, `i` from `a+1` to `b-1`. -/
def insOuter (d : Array α) (a b i : Nat) : Nat → Array α
  | 0 => d
  | fuel + 1 =>
    if i < b then insOuter (insInner cmp d a i (i + 1)) a b (i + 1) fuel else d

/-- Embedding of `insertionSortCmpFunc(data, a, b, cmp)`. -/
def insertionSortCmp (d : Array α) (a b : Nat) : Array α :=
  insOuter cmp d a b (a + 1) (b + 1)

/-- Embedding of `siftDownCmpFunc(data, lo, hi, first, cmp)`; the root
index strictly increases so fuel `hi + 1` is ample at every call site. -/
def siftDownCmp (d : Array α) (root hi first fuel : Nat) : Array α :=
  match fuel with
  | 0 => d
  | fuel + 1 =>
    let child := 2 * root + 1
    if child ≥ hi then d
    else
      let child :=
        if child + 1 < hi ∧ cmp (agetD d (first + child)) (agetD d (first + child + 1)) < 0
        then child + 1 else child
      if ¬ cmp (agetD d (first + root)) (agetD d (first + child)) < 0 then d
      else siftDownCmp (aswap d (first + root) (first + child)) child hi first fuel

/-- Heap-building loop of `heapSortCmpFunc`: `siftDown` for roots
`(hi-1)/2` down to `0`; the argument counts remaining roots. -/
def heapBuild (first hi : Nat) (d : Array α) : Nat → Array α
  | 0 => d
  | n + 1 => heapBuild first hi (siftDownCmp cmp d n hi first (hi + 1)) n

/-- Pop loop of `heapSortCmpFunc`: for `i` from `hi-1` down to `0`, swap
the maximum to the end and restore the heap. -/
def heapPop (first : Nat) (d : Array α) : Nat → Array α
  | 0 => d
  | n + 1 => heapPop first (siftDownCmp cmp (aswap d first (first + n)) 0 n first (n + 2)) n

/-- Embedding of `heapSortCmpFunc(data, a, b, cmp)`. -/
def heapSortCmp (d : Array α) (a b : Nat) : Array α :=
  let hi := b - a
  heapPop cmp a (heapBuild cmp a hi d ((hi - 1) / 2 + 1)) hi

end GoSort

/-- Embedding of `math/bits.Len` on `uint`. -/
def bitsLen (n : Nat) : Nat := if n = 0 then 0 else Nat.log2 n + 1

/-- Embedding of the sort package's `nextPowerOfTwo`. -/
def nextPowerOfTwo (length : Nat) : Nat := 1 <<< bitsLen length

/-- Embedding of `xorshift.Next` on a `uint64` state (as `Nat` mod `2^64`). -/
def xorshiftNext (r : Nat) : Nat :=
  let r1 := Nat.xor r ((r <<< 13) % (2 ^ 64))
  let r2 := Nat.xor r1 (r1 >>> 7)
  Nat.xor r2 ((r2 <<< 17) % (2 ^ 64))

section GoSort2

variable {α : Type} [Inhabited α] (cmp : α → α → Int)

/-- Embedding of `breakPatternsCmpFunc(data, a, b, cmp)`: swap three
pseudo-randomly chosen elements around the midpoint (the `cmp` argument
is unused in the source as well). -/
def breakPatternsCmp (d : Array α) (a b : Nat) : Array α :=
  let length := b - a
  if length ≥ 8 then
    let modulus := nextPowerOfTwo length
    let idx := a + (length / 4) * 2 - 1
    let r1 := xorshiftNext length
    let o1 := Nat.land r1 (modulus - 1)
    let o1 := if o1 ≥ length then o1 - length else o1
    let d := aswap d (idx - 1 + 0) (a + o1)
    let r2 := xorshiftNext r1
    let o2 := Nat.land r2 (modulus - 1)
    let o2 := if o2 ≥ length then o2 - length else o2
    let d := aswap d (idx - 1 + 1) (a + o2)
    let r3 := xorshiftNext r2
    let o3 := Nat.land r3 (modulus - 1)
    let o3 := if o3 ≥ length then o3 - length else o3
    aswap d (idx - 1 + 2) (a + o3)
  else d

/-- Embedding of `order2CmpFunc`: orders two indices by their elements,
counting a swap. -/
def order2Cmp (d : Array α) (a b swaps : Nat) : Nat × Nat × Nat :=
  if cmp (agetD d b) (agetD d a) < 0 then (b, a, swaps + 1) else (a, b, swaps)

/-- Embedding of `medianCmpFunc`: index of the median of three elements,
accumulating the swap count. -/
def medianCmp (d : Array α) (a b c swaps : Nat) : Nat × Nat :=
  let r1 := order2Cmp cmp d a b swaps
  let r2 := order2Cmp cmp d r1.2.1 c r1.2.2
  let r3 := order2Cmp cmp d r1.1 r2.1 r2.2.2
  (r3.2.1, r3.2.2)

/-- Embedding of `medianAdjacentCmpFunc`: median of `data[a-1 .. a+1]`. -/
def medianAdjacentCmp (d : Array α) (a swaps : Nat) : Nat × Nat :=
  medianCmp cmp d (a - 1) a (a + 1) swaps

/-- The `sortedHint` type of the sort package. -/
inductive SortedHint where
  | decreasing
  | increasing
  | unknown
  deriving DecidableEq, Repr

/-- Embedding of `choosePivotCmpFunc(data, a, b, cmp)`. -/
def choosePivotCmp (d : Array α) (a b : Nat) : Nat × SortedHint :=
  let l := b - a
  let i0 := a + l / 4 * 1
  let j0 := a + l / 4 * 2
  let k0 := a + l / 4 * 3
  let res :=
    if l ≥ 8 then
      if l ≥ 50 then
        let ri := medianAdjacentCmp cmp d i0 0
        let rj := medianAdjacentCmp cmp d j0 ri.2
        let rk := medianAdjacentCmp cmp d k0 rj.2
        medianCmp cmp d ri.1 rj.1 rk.1 rk.2
      else
        medianCmp cmp d i0 j0 k0 0
    else (j0, 0)
  if res.2 = 0 then (res.1, SortedHint.increasing)
  else if res.2 = 12 then (res.1, SortedHint.decreasing)
  else (res.1, SortedHint.unknown)

/-- Loop of `reverseRangeCmpFunc`: swap inward from both ends. -/
def revLoop (d : Array α) (i j : Nat) : Nat → Array α
  | 0 => d
  | fuel + 1 => if i < j then revLoop (aswap d i j) (i + 1) (j - 1) fuel else d

/-- Embedding of `reverseRangeCmpFunc(data, a, b, cmp)`. -/
def reverseRangeCmp (d : Array α) (a b : Nat) : Array α := revLoop d a (b - 1) b

/-- First inner scan of `partialInsertionSortCmpFunc`: advance `i` over
adjacent pairs already in order. -/
def piScan (d : Array α) (b i : Nat) : Nat → Nat
  | 0 => i
  | fuel + 1 =>
    if i < b ∧ ¬ cmp (agetD d i) (agetD d (i - 1)) < 0 then piScan d b (i + 1) fuel
    else i

/-- Left shift loop of `partialInsertionSortCmpFunc`: bubble the smaller
element down while out of order, for `j` from `i-1` down to `1`. -/
def shiftDownLoop (d : Array α) (j : Nat) : Nat → Array α
  | 0 => d
  | fuel + 1 =>
    if 1 ≤ j ∧ cmp (agetD d j) (agetD d (j - 1)) < 0 then
      shiftDownLoop (aswap d j (j - 1)) (j - 1) fuel
    else d

/-- Right shift loop of `partialInsertionSortCmpFunc`: bubble the greater
element up while out of order, for `j` from `i+1` up to `b-1`. -/
def shiftUpLoop (d : Array α) (b j : Nat) : Nat → Array α
  | 0 => d
  | fuel + 1 =>
    if j < b ∧ cmp (agetD d j) (agetD d (j - 1)) < 0 then
      shiftUpLoop (aswap d j (j - 1)) b (j + 1) fuel
    else d

/-- Step loop of `partialInsertionSortCmpFunc` (`maxSteps = 5` adjacent
out-of-order pairs get corrected; `shortestShifting = 50`). -/
def piSteps (d : Array α) (a b i : Nat) : Nat → Array α × Bool
  | 0 => (d, false)
  | steps + 1 =>
    let i := piScan cmp d b i (b + 1)
    if i = b then (d, true)
    else if b - a < 50 then (d, false)
    else
      let d := aswap d i (i - 1)
      let d := if i - a ≥ 2 then shiftDownLoop cmp d (i - 1) i else d
      let d := if b - i ≥ 2 then shiftUpLoop cmp d b (i + 1) (b + 1) else d
      piSteps d a b i steps

/-- Embedding of `partialInsertionSortCmpFunc(data, a, b, cmp)`; returns
the updated data and whether the range ended up sorted. -/
def partInsertionSortCmp (d : Array α) (a b : Nat) : Array α × Bool :=
  piSteps cmp d a b (a + 1) 5

/-- Scan of `partitionCmpFunc` advancing `i` while `data[i] < data[a]`. -/
def scanLt (d : Array α) (aIdx j i : Nat) : Nat → Nat
  | 0 => i
  | fuel + 1 =>
    if i ≤ j ∧ cmp (agetD d i) (agetD d aIdx) < 0 then scanLt d aIdx j (i + 1) fuel
    else i

/-- Scan of `partitionCmpFunc` retreating `j` while `data[j] >= data[a]`
(fueled; call sites pass `j + 1`, enough for the bounded descent). -/
def scanGe (d : Array α) (aIdx i j fuel : Nat) : Nat :=
  match fuel with
  | 0 => j
  | fuel + 1 =>
    if i ≤ j ∧ ¬ cmp (agetD d j) (agetD d aIdx) < 0 then scanGe d aIdx i (j - 1) fuel else j

/-- Main loop of `partitionCmpFunc` after the first unrolled scans. -/
def partLoop (aIdx : Nat) (d : Array α) (i j : Nat) : Nat → Array α × Nat
  | 0 => (d, j)
  | fuel + 1 =>
    let i := scanLt cmp d aIdx j i (j + 2)
    let j := scanGe cmp d aIdx i j (j + 1)
    if i > j then (aswap d j aIdx, j)
    else partLoop aIdx (aswap d i j) (i + 1) (j - 1) fuel

/-- Embedding of `partitionCmpFunc(data, a, b, pivot, cmp)`: Hoare
partition around `data[pivot]` (moved to `data[a]` first); returns the
new pivot position and whether the range was already partitioned. -/
def partitionCmp (d0 : Array α) (a b pivot : Nat) : Array α × Nat × Bool :=
  let d := aswap d0 a pivot
  let i := scanLt cmp d a (b - 1) (a + 1) (b + 1)
  let j := scanGe cmp d a i (b - 1) b
  if i > j then (aswap d j a, j, true)
  else
    let r := partLoop cmp a (aswap d i j) (i + 1) (j - 1) b
    (r.1, r.2, false)

/-- Scan of `partitionEqualCmpFunc` advancing `i` while
`data[a] >= data[i]`. -/
def peScanI (d : Array α) (aIdx j i : Nat) : Nat → Nat
  | 0 => i
  | fuel + 1 =>
    if i ≤ j ∧ ¬ cmp (agetD d aIdx) (agetD d i) < 0 then peScanI d aIdx j (i + 1) fuel
    else i

/-- Scan of `partitionEqualCmpFunc` retreating `j` while
`data[a] < data[j]` (fueled; call sites pass `j + 1`). -/
def peScanJ (d : Array α) (aIdx i j fuel : Nat) : Nat :=
  match fuel with
  | 0 => j
  | fuel + 1 =>
    if i ≤ j ∧ cmp (agetD d aIdx) (agetD d j) < 0 then peScanJ d aIdx i (j - 1) fuel else j

/-- Loop of `partitionEqualCmpFunc`. -/
def peLoop (aIdx : Nat) (d : Array α) (i j : Nat) : Nat → Array α × Nat
  | 0 => (d, i)
  | fuel + 1 =>
    let i := peScanI cmp d aIdx j i (j + 2)
    let j := peScanJ cmp d aIdx i j (j + 1)
    if i > j then (d, i)
    else peLoop aIdx (aswap d i j) (i + 1) (j - 1) fuel

/-- Embedding of `partitionEqualCmpFunc(data, a, b, pivot, cmp)`: moves
elements equal to the pivot to the front, returning the first index of
the strictly-greater suffix. -/
def partitionEqualCmp (d0 : Array α) (a b pivot : Nat) : Array α × Nat :=
  let d := aswap d0 a pivot
  peLoop cmp a d (a + 1) (b - 1) b

/-- Embedding of `pdqsortCmpFunc(data, a, b, limit, cmp)` (the `for` loop
becomes fuel-indexed recursion; every continuation shrinks `b - a`, so
fuel `size + 2` at the root is ample).  `maxInsertion = 12`. -/
def pdqLoop (d : Array α) (a b limit : Nat) (wasBalanced wasPartitioned : Bool) :
    Nat → Array α
  | 0 => d
  | fuel + 1 =>
    let length := b - a
    if length ≤ 12 then insertionSortCmp cmp d a b
    else if limit = 0 then heapSortCmp cmp d a b
    else
      let bp := if ¬ wasBalanced = true then (breakPatternsCmp d a b, limit - 1) else (d, limit)
      let d := bp.1
      let limit := bp.2
      let pv := choosePivotCmp cmp d a b
      let rev :=
        if pv.2 = SortedHint.decreasing then
          (reverseRangeCmp d a b, (b - 1) - (pv.1 - a), SortedHint.increasing)
        else (d, pv.1, pv.2)
      let d := rev.1
      let pivot := rev.2.1
      let hint := rev.2.2
      let pis :=
        if wasBalanced = true ∧ wasPartitioned = true ∧ hint = SortedHint.increasing then
          partInsertionSortCmp cmp d a b
        else (d, false)
      if pis.2 = true then pis.1
      else
        let d := pis.1
        if 0 < a ∧ ¬ cmp (agetD d (a - 1)) (agetD d pivot) < 0 then
          let pe := partitionEqualCmp cmp d a b pivot
          pdqLoop pe.1 pe.2 b limit wasBalanced wasPartitioned fuel
        else
          let pr := partitionCmp cmp d a b pivot
          let d := pr.1
          let mid := pr.2.1
          let wasPartitioned := pr.2.2
          let leftLen := mid - a
          let rightLen := b - mid
          let balanceThreshold := length / 8
          let wasBalanced := decide (min leftLen rightLen ≥ balanceThreshold)
          if leftLen < rightLen then
            let d := pdqLoop d a mid limit true true fuel
            pdqLoop d (mid + 1) b limit wasBalanced wasPartitioned fuel
          else
            let d := pdqLoop d (mid + 1) b limit true true fuel
            pdqLoop d a mid limit wasBalanced wasPartitioned fuel

end GoSort2

/-- Embedding of `slices.SortFunc(all, func(a, b) int { return
a.Time.Compare(b.Time) })` as used by `refresh`. -/
def sortFunc (xs : List Data) : List Data :=
  let d := xs.toArray
  (pdqLoop dataCmp d 0 d.size (bitsLen d.size) true true (d.size + 2)).toList

/-- The Sample Validator of the spec as implemented by `refresh`: sort
the raw batch by timestamp with the (unstable) library sort, then keep
only readings passing `keepData`; the kept readings are exactly those the
reporting loop forwards downstream. -/
def refreshValidate (all : List Data) : List Data :=
  (sortFunc all).filter keepData

/-- The `attempts` histogram of the collector, by status label (only the
observation counts matter for the claims). -/
structure AttemptCounters where
  success : Nat
  errors : Nat
  deriving DecidableEq, Repr

/-- State of the `collector`: the embedded syncer, `lastSuccess`,
`lastReported`, and the refresh attempt counters. -/
structure CollectorState where
  syncer : SyncerState
  lastSuccess : Instant
  lastReported : Instant
  attempts : AttemptCounters
  deriving DecidableEq, Repr

/-- Outcome of `readData` as observed by `refresh`: a panic recovered by
the deferred handler, an ordinary error, or the latest reading plus the
on-device history. -/
inductive ReadResult where
  | panicked (msg : String)
  | failed (msg : String)
  | ok (latest : Data) (all : List Data)
  deriving Repr

/-- The environment of one refresh cycle: the acquisition outcome, the
wall clock during reporting (`now`) and at completion (`tEnd`), and the
backend's responses to queries and writes. -/
structure RefreshEnv where
  read : ReadResult
  now : Instant
  tEnd : Instant
  query : String → QueryResult
  writeOk : String → Instant → Bool

/-- One `ReportMetric` call as issued from the refresh cycle, with the
backend responses drawn from the environment. -/
def reportOne (s : SyncerState) (env : RefreshEnv) (name : String) (ts : Instant)
    (value : ℚ) : ReportOut :=
  ReportMetric s name ts value env.now (env.query name) (env.writeOk name ts)

/-- Embedding of `collector.reportData`: report the four measurements of
one reading in order, stopping at the first error. -/
def reportData (s : SyncerState) (env : RefreshEnv) (d : Data) :
    Option String × SyncerState :=
  let r1 := reportOne s env "co2_ppm" d.time (d.co2 : ℚ)
  match r1.result with
  | .failed _ => (some "reporting CO2", r1.state)
  | _ =>
    let r2 := reportOne r1.state env "humidity_percent" d.time d.h
    match r2.result with
    | .failed _ => (some "reporting humidity", r2.state)
    | _ =>
      let r3 := reportOne r2.state env "pressure_hpa" d.time d.p
      match r3.result with
      | .failed _ => (some "reporting pressure", r3.state)
      | _ =>
        let r4 := reportOne r3.state env "temperature_celsius" d.time d.t
        match r4.result with
        | .failed _ => (some "reporting temperature", r4.state)
        | _ => (none, r4.state)

/-- The reporting loop of `refresh` over the sorted history: skip
readings rejected by the validity checks, report the rest, remember the
timestamp of the last reported reading, abort on the first error. -/
def reportLoop (env : RefreshEnv) :
    SyncerState → Instant → List Data → Option String × SyncerState × Instant
  | s, lastRep, [] => (none, s, lastRep)
  | s, lastRep, d :: rest =>
    if keepData d then
      match reportData s env d with
      | (some e, s') => (some e, s', lastRep)
      | (none, s') => reportLoop env s' d.time rest
    else reportLoop env s lastRep rest

def incAttemptErr (c : CollectorState) : CollectorState :=
  { c with attempts := { c.attempts with errors := c.attempts.errors + 1 } }

def incAttemptOk (c : CollectorState) : CollectorState :=
  { c with attempts := { c.attempts with success := c.attempts.success + 1 } }

/-- Embedding of `collector.refresh`: recover a panic into an error,
report the battery level of the latest reading, return early (with a
success outcome but no `lastSuccess` update) on an empty history,
otherwise sort, filter and report the history, record `lastReported`,
and store `lastSuccess` at completion.  The deferred handler observes
every outcome in the `attempts` histogram. -/
def refresh (c : CollectorState) (env : RefreshEnv) :
    Option String × CollectorState :=
  match env.read with
  | .panicked m => (some ("panic in refresh: " ++ m), incAttemptErr c)
  | .failed m => (some ("reading data: " ++ m), incAttemptErr c)
  | .ok latest all =>
    let step1 :=
      if latest.battery > -1 then
        let r := reportOne c.syncer env "battery_level_percent" latest.time (latest.battery : ℚ)
        match r.result with
        | .failed _ => (some "reporting battery level", r.state)
        | _ => (none, r.state)
      else (none, c.syncer)
    match step1 with
    | (some e, s') => (some e, incAttemptErr { c with syncer := s' })
    | (none, s') =>
      if all = [] then (none, incAttemptOk { c with syncer := s' })
      else
        match reportLoop env s' 0 (sortFunc all) with
        | (some e, s'', _) => (some e, incAttemptErr { c with syncer := s'' })
        | (none, s'', lastRep) =>
          let c' := { c with syncer := s'' }
          let c' := if lastRep ≠ 0 then { c' with lastReported := lastRep } else c'
          (none, incAttemptOk { c' with lastSuccess := env.tEnd })

/-- One iteration of `collector.run`: compute the wait, sleep for it (or
the fixed 1-second backoff when behind schedule), run a refresh cycle and
log (not propagate) its error.  Returns the sleep duration, the cycle's
error, and the new state. -/
def runIteration (c : CollectorState) (now : Instant) (interval : Int)
    (env : RefreshEnv) : Int × Option String × CollectorState :=
  let waitFor := c.lastSuccess + interval - now
  let sleep := if waitFor > 0 then waitFor else 1
  let r := refresh c env
  (sleep, r.1, r.2)

/-- The body of the `for` loop of `collector.run` as a process step: it
contains no exit path, so it always yields a next state. -/
def runStepE (c : CollectorState) (now : Instant) (interval : Int)
    (env : RefreshEnv) : Except Nat (Int × CollectorState) :=
  let r := runIteration c now interval env
  .ok (r.1, r.2.2)

/-- Embedding of the startup path of `main`: exit code 1 when the
configuration validation (`promsync.New`) fails, exit code 1 when
`newCollector` fails — which happens exactly when its initial `refresh`
returns an error — and otherwise hand the constructed collector to the
run loop. -/
def mainStartup (configOk : Bool) (c0 : CollectorState) (env : RefreshEnv) :
    Except Nat CollectorState :=
  if ¬ configOk = true then .error 1
  else
    match refresh c0 env with
    | (some _, _) => .error 1
    | (none, c') => .ok c'

/-- Zeroed outcome counters. -/
def counters0 : Counters := ⟨0, 0, 0⟩

/-- A fresh syncer (empty cache, real writes). -/
def syncer0 : SyncerState := ⟨false, [], counters0⟩

/-- A fresh syncer in dry-run mode. -/
def syncerDry : SyncerState := ⟨true, [], counters0⟩

/-- A fresh collector around `syncer0`. -/
def cInit : CollectorState := ⟨syncer0, 0, 0, ⟨0, 0⟩⟩

/-- An environment whose acquisition fails with an ordinary error. -/
def envFail : RefreshEnv :=
  ⟨.failed "connecting to device", 0, 0, fun _ => .vector [], fun _ _ => true⟩

/-- An environment whose acquisition panics. -/
def envPanic : RefreshEnv :=
  ⟨.panicked "boom", 0, 0, fun _ => .vector [], fun _ _ => true⟩

/-- A sample reading at time `t` tagged through its CO2 field with marker
`m`; valid whenever `t ≠ 0` and `m > 0`. -/
def sample (t m : Int) : Data := ⟨t, m, 0, 1000, 0, 0⟩

/-- A 13-reading batch (long enough that `slices.SortFunc` leaves its
insertion-sort regime): three readings share timestamp 7, identified by
their CO2 markers 100, 101 and 103; every reading is valid. -/
def c5Batch : List Data :=
  [sample 7 100, sample 7 101, sample 1 102, sample 7 103, sample 2 104, sample 3 105,
   sample 4 106, sample 8 107, sample 9 108, sample 10 109, sample 11 110,
   sample 12 111, sample 13 112]

/-!
Specification-layer notions for the correctness development of the
embedded `slices.SortFunc`: range-restricted sortedness, in-place
permutation within a range, the binary-heap shape used by the heapsort
fallback, and the subtree relation delimiting what a sift-down touches.
-/

/-- The order the validator's output must satisfy: ascending timestamps. -/
def dle (x y : Data) : Prop := x.time ≤ y.time

/-- `d` is ascending by timestamp on the index range `[lo, hi)`. -/
def SortedRange (d : Array Data) (lo hi : Nat) : Prop :=
  ∀ i j, lo ≤ i → i < j → j < hi → dle (agetD d i) (agetD d j)

/-- `d'` arises from `d` by rearranging only the index range `[lo, hi)`:
the size is unchanged, entries outside the range are untouched, the
contents are a permutation of the original, and every property holding
pointwise on the range keeps holding on it. -/
def PermWithin (lo hi : Nat) (d d' : Array Data) : Prop :=
  d'.size = d.size ∧
  (∀ k, k < lo ∨ hi ≤ k → agetD d' k = agetD d k) ∧
  d'.toList.Perm d.toList ∧
  ∀ Q : Data → Prop, (∀ k, lo ≤ k → k < hi → Q (agetD d k)) →
    ∀ k, lo ≤ k → k < hi → Q (agetD d' k)

/-- The max-heap shape maintained by `heapSortCmpFunc` on the nodes
`root ≤ k < hi` of the implicit tree based at `first` (children of `k`
at `2k+1` and `2k+2`). -/
def HeapFrom (d : Array Data) (first hi root : Nat) : Prop :=
  ∀ k c, root ≤ k → (c = 2 * k + 1 ∨ c = 2 * k + 2) → c < hi →
    dle (agetD d (first + c)) (agetD d (first + k))

/-- Nodes of the binary-heap subtree rooted at `root`, delimiting the
positions `siftDownCmp` may modify. -/
inductive InSubtree (root : Nat) : Nat → Prop where
  | base : InSubtree root root
  | left {k : Nat} : InSubtree root k → InSubtree root (2 * k + 1)
  | right {k : Nat} : InSubtree root k → InSubtree root (2 * k + 2)

/-- The recursion invariant of `pdqsortCmpFunc`: either the range starts
at the slice origin, or the element just before it is a lower bound for
the whole range (this is what makes the `partitionEqual` fast path and
the `partialInsertionSort` left shift sound in the source). -/
def Flank (d : Array Data) (a b : Nat) : Prop :=
  a = 0 ∨ (0 < a ∧ ∀ k, a ≤ k → k < b → dle (agetD d (a - 1)) (agetD d k))

/-- Adjacent-pairs form of sortedness on `[lo, hi)`. -/
def AdjSorted (d : Array Data) (lo hi : Nat) : Prop :=
  ∀ k, lo < k → k < hi → dle (agetD d (k - 1)) (agetD d k)

/-! Helper lemmas about the `lastTimes` association list and `lastTime`. -/

theorem lookupTime_setTime_self (l : List (String × Instant)) (k : String) (v : Instant) :
    lookupTime (setTime l k v) k = some v := by
  induction l with
  | nil => simp [setTime, lookupTime]
  | cons p rest ih =>
    obtain ⟨k', w⟩ := p
    by_cases h : k' = k
    · simp [setTime, h, lookupTime]
    · simp [setTime, h, lookupTime, ih]

theorem lookupTime_setTime_ne (l : List (String × Instant)) (k m : String) (v : Instant)
    (h : k ≠ m) : lookupTime (setTime l k v) m = lookupTime l m := by
  induction l with
  | nil => simp [setTime, lookupTime, h]
  | cons p rest ih =>
    obtain ⟨k', w⟩ := p
    by_cases h' : k' = k
    · subst h'
      simp [setTime, lookupTime, h]
    · simp [setTime, h', lookupTime, ih]

/-- `lastTime` never touches the outcome counters. -/
theorem lastTime_writes (s : SyncerState) (metric : String) (now : Instant)
    (q : QueryResult) : ((lastTime s metric now q).2.1).writes = s.writes := by
  unfold lastTime
  rcases lookupTime s.lastTimes metric with _ | v
  · rcases q with _ | _ | _ | samples
    · rfl
    · rfl
    · rfl
    · rcases samples with _ | ⟨a, _ | ⟨b, rest⟩⟩ <;> rfl
  · rfl

/-- `lastTime` never touches the dry-run flag. -/
theorem lastTime_dryRun (s : SyncerState) (metric : String) (now : Instant)
    (q : QueryResult) : ((lastTime s metric now q).2.1).dryRun = s.dryRun := by
  unfold lastTime
  rcases lookupTime s.lastTimes metric with _ | v
  · rcases q with _ | _ | _ | samples
    · rfl
    · rfl
    · rfl
    · rcases samples with _ | ⟨a, _ | ⟨b, rest⟩⟩ <;> rfl
  · rfl

/-- On a cache hit, `lastTime` returns the entry, does not change the
state, and issues no query. -/
theorem lastTime_hit (s : SyncerState) (metric : String) (now : Instant)
    (q : QueryResult) (v : Instant) (h : lookupTime s.lastTimes metric = some v) :
    lastTime s metric now q = (.ok v, s, []) := by
  unfold lastTime
  rw [h]

/-- The `lastTimes` map after `lastTime`: unchanged, except that a cache
miss answered by a single-sample vector caches that sample. -/
theorem lastTime_state (s : SyncerState) (metric : String) (now : Instant)
    (q : QueryResult) :
    ((lastTime s metric now q).2.1).lastTimes = s.lastTimes ∨
    (lookupTime s.lastTimes metric = none ∧ ∃ v, q = .vector [v] ∧
      ((lastTime s metric now q).2.1).lastTimes = setTime s.lastTimes metric v) := by
  unfold lastTime
  rcases hl : lookupTime s.lastTimes metric with _ | v
  · rcases q with _ | _ | _ | samples
    · exact .inl rfl
    · exact .inl rfl
    · exact .inl rfl
    · rcases samples with _ | ⟨a, _ | ⟨b, rest⟩⟩
      · exact .inl rfl
      · exact .inr ⟨rfl, a, rfl, rfl⟩
      · exact .inl rfl
  · exact .inl rfl

/-- C8: for every call, `ReportMetric` with the zero timestamp fails with
the invalid-timestamp error, and with a timestamp more than one hour
ahead of `now` fails with the too-far-in-the-future error; in both cases
no backend query and no write request is issued. -/
theorem c8_timestamp_validation (s : SyncerState) (name : String) (ts : Instant)
    (value : ℚ) (now : Instant) (q : QueryResult) (writeOk : Bool) :
    (ts = 0 →
      (ReportMetric s name ts value now q writeOk).result = .failed .invalidTimestamp ∧
      (ReportMetric s name ts value now q writeOk).queries = [] ∧
      (ReportMetric s name ts value now q writeOk).writeAttempts = []) ∧
    (ts ≠ 0 → ts > now + hourSeconds →
      (ReportMetric s name ts value now q writeOk).result = .failed .timestampTooFarFuture ∧
      (ReportMetric s name ts value now q writeOk).queries = [] ∧
      (ReportMetric s name ts value now q writeOk).writeAttempts = []) := by
  constructor
  · intro h
    simp [ReportMetric, h]
  · intro h1 h2
    simp [ReportMetric, h1, h2]

/-- Witness for C8 at concrete inputs: the zero timestamp and a
timestamp two hours in the future both fail before any backend call. -/
theorem c8_timestamp_validation_witness :
    (ReportMetric syncer0 "co2_ppm" 0 450 1000 .failure true).result =
      .failed .invalidTimestamp ∧
    (ReportMetric syncer0 "co2_ppm" 8200 450 1000 .failure true).result =
      .failed .timestampTooFarFuture := by
  constructor
  · exact ((c8_timestamp_validation syncer0 "co2_ppm" 0 450 1000 .failure true).1 rfl).1
  · exact ((c8_timestamp_validation syncer0 "co2_ppm" 8200 450 1000 .failure true).2
      (by decide) (by decide)).1

/-- C3: resolution of the last-known-written time.  A cached entry is
used with no backend query; a cache miss issues the instant query at
`now` with the 30-day lookback; an empty vector resolves to the zero
instant without error and without touching the state; more than one
series fails with the ambiguous-series error; a transport or parse
failure (error, nil value, non-vector value) fails with the backend-query
error; and a resolution error makes the whole otherwise-valid
`ReportMetric` call fail with that error. -/
theorem c3_last_time_resolution (s : SyncerState) (metric : String) (now : Instant)
    (q : QueryResult) :
    (∀ v, lookupTime s.lastTimes metric = some v →
        lastTime s metric now q = (.ok v, s, [])) ∧
    (lookupTime s.lastTimes metric = none →
        (lastTime s metric now q).2.2 = [⟨metric, now, lookbackSeconds⟩] ∧
        (q = .vector [] →
          (lastTime s metric now q).1 = .ok 0 ∧ (lastTime s metric now q).2.1 = s) ∧
        (∀ v w rest, q = .vector (v :: w :: rest) →
          (lastTime s metric now q).1 = .err .ambiguousSeries) ∧
        (q = .failure ∨ q = .nilValue ∨ q = .nonVector →
          (lastTime s metric now q).1 = .err .backendQueryFailed)) ∧
    (∀ e ts value writeOk, (lastTime s metric now q).1 = .err e → ts ≠ 0 →
        ¬ ts > now + hourSeconds →
        (ReportMetric s metric ts value now q writeOk).result = .failed e) := by
  refine ⟨fun v h => lastTime_hit s metric now q v h, fun h => ?_, ?_⟩
  · refine ⟨?_, ?_, ?_, ?_⟩
    · unfold lastTime
      rw [h]
      rcases q with _ | _ | _ | samples
      · rfl
      · rfl
      · rfl
      · rcases samples with _ | ⟨a, _ | ⟨b, rest⟩⟩ <;> rfl
    · rintro rfl
      unfold lastTime
      rw [h]
      exact ⟨rfl, rfl⟩
    · rintro v w rest rfl
      unfold lastTime
      rw [h]
    · rintro (rfl | rfl | rfl) <;> (unfold lastTime; rw [h])
  · intro e ts value writeOk he h1 h2
    rcases hq : lastTime s metric now q with ⟨r, s1, qs⟩
    rw [hq] at he
    simp at he
    subst he
    simp [ReportMetric, h1, h2, hq]

/-- Witness for C3 at concrete inputs: a cache hit resolves from the
cache; on a miss, the query effect, the empty-vector, multi-series and
failure cases behave as stated; and a failing resolution fails the call. -/
theorem c3_last_time_resolution_witness :
    lastTime ⟨false, [("co2_ppm", 70)], counters0⟩ "co2_ppm" 1000 .failure =
      (.ok 70, ⟨false, [("co2_ppm", 70)], counters0⟩, []) ∧
    (lastTime syncer0 "co2_ppm" 1000 (.vector [])).1 = .ok 0 ∧
    (lastTime syncer0 "co2_ppm" 1000 (.vector [5, 6])).1 = .err .ambiguousSeries ∧
    (lastTime syncer0 "co2_ppm" 1000 .failure).1 = .err .backendQueryFailed ∧
    (ReportMetric syncer0 "co2_ppm" 50 450 1000 .failure true).result =
      .failed .backendQueryFailed := by
  refine ⟨?_, ?_, ?_, ?_, ?_⟩
  · exact (c3_last_time_resolution ⟨false, [("co2_ppm", 70)], counters0⟩ "co2_ppm" 1000
      .failure).1 70 rfl
  · exact (((c3_last_time_resolution syncer0 "co2_ppm" 1000 (.vector [])).2.1 rfl).2.1 rfl).1
  · exact ((c3_last_time_resolution syncer0 "co2_ppm" 1000 (.vector [5, 6])).2.1
      rfl).2.2.1 5 6 [] rfl
  · exact ((c3_last_time_resolution syncer0 "co2_ppm" 1000 .failure).2.1 rfl).2.2.2
      (.inl rfl)
  · exact (c3_last_time_resolution syncer0 "co2_ppm" 1000 .failure).2.2 .backendQueryFailed
      50 450 true (by decide) (by decide) (by decide)

/-- A successful `ReportMetric` call passed both timestamp validations
and left `lastTimes[name] = ts`. -/
theorem reportMetric_success_state (s : SyncerState) (name : String) (ts : Instant)
    (value : ℚ) (now : Instant) (q : QueryResult) (writeOk : Bool)
    (h : (ReportMetric s name ts value now q writeOk).result = .success) :
    ts ≠ 0 ∧ ¬ ts > now + hourSeconds ∧
    lookupTime (ReportMetric s name ts value now q writeOk).state.lastTimes name = some ts := by
  by_cases h0 : ts = 0
  · simp [ReportMetric, h0] at h
  by_cases hf : ts > now + hourSeconds
  · simp [ReportMetric, h0, hf] at h
  refine ⟨h0, hf, ?_⟩
  rcases hq : lastTime s name now q with ⟨r, s1, qs⟩
  rcases r with L | e
  · by_cases hskip : ts > L
    · rcases hd : s1.dryRun with _ | _
      · rcases hw : writeOk with _ | _
        · simp [ReportMetric, h0, hf, hq, hskip, hd, hw] at h
        · simp [ReportMetric, h0, hf, hq, hskip, hd, hw, lookupTime_setTime_self]
      · simp [ReportMetric, h0, hf, hq, hskip, hd, lookupTime_setTime_self]
    · simp [ReportMetric, h0, hf, hq, hskip] at h
  · simp [ReportMetric, h0, hf, hq] at h

/-- C1 counterexample: a cold-cache call whose timestamp is valid but not
after the backend-resolved last time returns `skipped` and issues no
write, yet `lastTimes[name]` does not stay unchanged — the resolution
step has populated it with the backend value. -/
theorem c1_counterexample :
    (ReportMetric syncer0 "co2_ppm" 50 450 1000 (.vector [80]) true).result = .skipped ∧
    (ReportMetric syncer0 "co2_ppm" 50 450 1000 (.vector [80]) true).writeAttempts = [] ∧
    (50 : Int) ≠ 0 ∧ ¬ (50 : Int) > 1000 + hourSeconds ∧
    lookupTime syncer0.lastTimes "co2_ppm" = none ∧
    lookupTime (ReportMetric syncer0 "co2_ppm" 50 450 1000
      (.vector [80]) true).state.lastTimes "co2_ppm" = some 80 ∧
    lookupTime (ReportMetric syncer0 "co2_ppm" 50 450 1000
        (.vector [80]) true).state.lastTimes "co2_ppm" ≠
      lookupTime syncer0.lastTimes "co2_ppm" := by
  decide

/-- C1 (amended): a valid-timestamp call whose `ts` is not strictly after
the resolved last-known time returns `skipped`, issues no write, and
never advances the cache to `ts` — the state is exactly the one left by
the resolution step, so on a cache hit `lastTimes` is unchanged (on a
cache miss the resolution itself may cache the backend value).  In
particular, after a successful write at `ts` a second call for the same
metric at the same `ts` is skipped and the cache still holds `ts` from
the first call. -/
theorem c1_skip_amended :
    (∀ (s : SyncerState) (name : String) (ts : Instant) (value : ℚ) (now : Instant)
        (q : QueryResult) (writeOk : Bool) (L : Instant),
      ts ≠ 0 → ¬ ts > now + hourSeconds →
      (lastTime s name now q).1 = .ok L → ¬ ts > L →
      (ReportMetric s name ts value now q writeOk).result = .skipped ∧
      (ReportMetric s name ts value now q writeOk).writeAttempts = [] ∧
      (ReportMetric s name ts value now q writeOk).state.lastTimes =
        ((lastTime s name now q).2.1).lastTimes ∧
      (lookupTime s.lastTimes name = some L →
        (ReportMetric s name ts value now q writeOk).state.lastTimes = s.lastTimes)) ∧
    (∀ (s : SyncerState) (name : String) (ts : Instant) (value value2 : ℚ)
        (now : Instant) (q q2 : QueryResult) (writeOk2 : Bool),
      (ReportMetric s name ts value now q true).result = .success →
      (ReportMetric (ReportMetric s name ts value now q true).state name ts value2 now q2
        writeOk2).result = .skipped ∧
      (ReportMetric (ReportMetric s name ts value now q true).state name ts value2 now q2
        writeOk2).writeAttempts = [] ∧
      lookupTime (ReportMetric (ReportMetric s name ts value now q true).state name ts
        value2 now q2 writeOk2).state.lastTimes name = some ts) := by
  constructor
  · intro s name ts value now q writeOk L h1 h2 h3 h4
    rcases hq : lastTime s name now q with ⟨r, s1, qs⟩
    rw [hq] at h3
    simp only at h3
    subst h3
    refine ⟨?_, ?_, ?_, ?_⟩
    · simp [ReportMetric, h1, h2, hq, h4]
    · simp [ReportMetric, h1, h2, hq, h4]
    · simp [ReportMetric, h1, h2, hq, h4]
    · intro hlk
      have hh := lastTime_hit s name now q L hlk
      rw [hq] at hh
      simp only [Prod.mk.injEq] at hh
      simp [ReportMetric, h1, h2, hq, h4, hh.2.1]
  · intro s name ts value value2 now q q2 writeOk2 hsucc
    obtain ⟨h1, h2, hlk⟩ :=
      reportMetric_success_state s name ts value now q true hsucc
    set S := (ReportMetric s name ts value now q true).state with hS
    have hh := lastTime_hit S name now q2 ts hlk
    refine ⟨?_, ?_, ?_⟩
    · simp [ReportMetric, h1, h2, hh]
    · simp [ReportMetric, h1, h2, hh]
    · simp [ReportMetric, h1, h2, hh, hlk]

/-- Witness for C1 (amended) at concrete inputs: a cache-hit duplicate is
skipped without touching the map, and a fresh successful write followed
by a same-timestamp call leaves the cache at the first write's time. -/
theorem c1_skip_amended_witness :
    (ReportMetric ⟨false, [("co2_ppm", 80)], counters0⟩ "co2_ppm" 50 450 1000
      .failure true).result = .skipped ∧
    (ReportMetric ⟨false, [("co2_ppm", 80)], counters0⟩ "co2_ppm" 50 450 1000
      .failure true).state.lastTimes = [("co2_ppm", 80)] ∧
    (ReportMetric (ReportMetric syncer0 "co2_ppm" 50 450 1000 (.vector []) true).state
      "co2_ppm" 50 999 1000 .failure true).result = .skipped ∧
    lookupTime (ReportMetric (ReportMetric syncer0 "co2_ppm" 50 450 1000 (.vector [])
      true).state "co2_ppm" 50 999 1000 .failure true).state.lastTimes "co2_ppm" =
      some 50 := by
  refine ⟨?_, ?_, ?_, ?_⟩
  · exact ((c1_skip_amended.1 ⟨false, [("co2_ppm", 80)], counters0⟩ "co2_ppm" 50 450 1000
      .failure true 80 (by decide) (by decide) (by decide) (by decide)).1)
  · exact ((c1_skip_amended.1 ⟨false, [("co2_ppm", 80)], counters0⟩ "co2_ppm" 50 450 1000
      .failure true 80 (by decide) (by decide) (by decide) (by decide)).2.2.2 (by decide))
  · exact (c1_skip_amended.2 syncer0 "co2_ppm" 50 450 999 1000 (.vector []) .failure
      true (by decide)).1
  · exact (c1_skip_amended.2 syncer0 "co2_ppm" 50 450 999 1000 (.vector []) .failure
      true (by decide)).2.2

/-- After a resolution returning `.ok L`, the resolved state's cache
entry for the metric is either `L` itself or (only in the never-written
case) still absent with `L = 0`. -/
theorem lastTime_ok_lookup (s : SyncerState) (name : String) (now : Instant)
    (q : QueryResult) (L : Instant) (h : (lastTime s name now q).1 = .ok L) :
    lookupTime ((lastTime s name now q).2.1).lastTimes name = some L ∨
    (lookupTime ((lastTime s name now q).2.1).lastTimes name = none ∧ L = 0 ∧
      q = .vector [] ∧ (lastTime s name now q).2.1 = s) := by
  rcases hl : lookupTime s.lastTimes name with _ | v
  · rcases q with _ | _ | _ | samples
    · rw [lastTime, hl] at h ⊢
      simp at h
    · rw [lastTime, hl] at h ⊢
      simp at h
    · rw [lastTime, hl] at h ⊢
      simp at h
    · rcases samples with _ | ⟨a, _ | ⟨b, rest⟩⟩
      · rw [lastTime, hl] at h ⊢
        simp only [TimeResult.ok.injEq] at h
        exact .inr ⟨hl, h.symm, rfl, rfl⟩
      · rw [lastTime, hl] at h ⊢
        simp only [TimeResult.ok.injEq] at h
        refine .inl ?_
        rw [lookupTime_setTime_self]
        exact congrArg some h
      · rw [lastTime, hl] at h ⊢
        simp at h
  · have hh := lastTime_hit s name now q v hl
    rw [hh] at h ⊢
    simp only [TimeResult.ok.injEq] at h
    refine .inl ?_
    rw [hl]
    exact congrArg some h

/-- A resolution returning `.ok L` keeps returning `.ok L`, without
changing the state, from any state whose cache agrees with the resolved
state's cache. -/
theorem lastTime_stable (s : SyncerState) (name : String) (now : Instant)
    (q : QueryResult) (L : Instant) (S : SyncerState)
    (h : (lastTime s name now q).1 = .ok L)
    (hS : S.lastTimes = ((lastTime s name now q).2.1).lastTimes) :
    (lastTime S name now q).1 = .ok L ∧ (lastTime S name now q).2.1 = S := by
  rcases lastTime_ok_lookup s name now q L h with hlk | ⟨hlk, rfl, rfl, _⟩
  · have := lastTime_hit S name now q L (by rw [hS]; exact hlk)
    rw [this]
    exact ⟨rfl, rfl⟩
  · have hSl : lookupTime S.lastTimes name = none := by rw [hS]; exact hlk
    rw [lastTime, hSl]
    exact ⟨rfl, rfl⟩

/-- The write branch of `ReportMetric`: with a valid timestamp strictly
after the resolved last time and dry-run off, the call issues exactly one
write request; on write success the call succeeds and advances the cache
to `ts`, on write failure it fails and leaves the cache as resolution
left it. -/
theorem reportMetric_write_branch (s : SyncerState) (name : String) (ts : Instant)
    (value : ℚ) (now : Instant) (q : QueryResult) (writeOk : Bool) (L : Instant)
    (hdry : s.dryRun = false) (h1 : ts ≠ 0) (h2 : ¬ ts > now + hourSeconds)
    (h3 : (lastTime s name now q).1 = .ok L) (h4 : ts > L) :
    (ReportMetric s name ts value now q writeOk).writeAttempts = [⟨name, ts, value⟩] ∧
    (ReportMetric s name ts value now q writeOk).result =
      (if writeOk then .success else .failed .writeFailed) ∧
    (ReportMetric s name ts value now q writeOk).state.lastTimes =
      (if writeOk then setTime ((lastTime s name now q).2.1).lastTimes name ts
        else ((lastTime s name now q).2.1).lastTimes) ∧
    (ReportMetric s name ts value now q writeOk).state.dryRun = false := by
  rcases hq : lastTime s name now q with ⟨r, s1, qs⟩
  rw [hq] at h3
  simp only at h3
  subst h3
  have hdry1 : s1.dryRun = false := by
    have hd := lastTime_dryRun s name now q
    rw [hq] at hd
    simp only at hd
    rw [hd, hdry]
  cases writeOk
  · refine ⟨?_, ?_, ?_, ?_⟩ <;> simp [ReportMetric, h1, h2, hq, h4, hdry1]
  · refine ⟨?_, ?_, ?_, ?_⟩ <;> simp [ReportMetric, h1, h2, hq, h4, hdry1]

/-- C2: when the write request fails, the call returns the write-failed
error, exactly one write was attempted, and the cache entry for the
metric was not advanced to `ts`; an immediately retried call with the
same name and timestamp (same backend query response) issues the write
request again rather than being skipped. -/
theorem c2_write_failure_retry (s : SyncerState) (name : String) (ts : Instant)
    (value value2 : ℚ) (now : Instant) (q : QueryResult) (L : Instant) (writeOk2 : Bool)
    (hdry : s.dryRun = false) (h1 : ts ≠ 0) (h2 : ¬ ts > now + hourSeconds)
    (h3 : (lastTime s name now q).1 = .ok L) (h4 : ts > L) :
    (ReportMetric s name ts value now q false).result = .failed .writeFailed ∧
    (ReportMetric s name ts value now q false).writeAttempts = [⟨name, ts, value⟩] ∧
    lookupTime (ReportMetric s name ts value now q false).state.lastTimes name ≠
      some ts ∧
    (ReportMetric (ReportMetric s name ts value now q false).state name ts value2 now q
      writeOk2).writeAttempts = [⟨name, ts, value2⟩] ∧
    (ReportMetric (ReportMetric s name ts value now q false).state name ts value2 now q
      writeOk2).result ≠ .skipped := by
  obtain ⟨hwa, hres, hlt, hdrs⟩ :=
    reportMetric_write_branch s name ts value now q false L hdry h1 h2 h3 h4
  simp only [if_neg Bool.false_ne_true, Bool.false_eq_true, if_false] at hres hlt
  obtain ⟨hst1, hst2⟩ := lastTime_stable s name now q L
    (ReportMetric s name ts value now q false).state h3 hlt
  obtain ⟨hwa2, hres2, _, _⟩ := reportMetric_write_branch
    (ReportMetric s name ts value now q false).state name ts value2 now q writeOk2 L
    hdrs h1 h2 hst1 h4
  refine ⟨hres, hwa, ?_, hwa2, ?_⟩
  · rw [hlt]
    rcases lastTime_ok_lookup s name now q L h3 with hlk | ⟨hlk, rfl, _, _⟩
    · rw [hlk]
      intro hc
      simp only [Option.some.injEq] at hc
      exact absurd hc (ne_of_lt h4)
    · rw [hlk]
      intro hc
      exact Option.noConfusion hc
  · rw [hres2]
    cases writeOk2 <;> simp

/-- Witness for C2 at concrete inputs: a failed write at time 100 over a
backend last time of 80 reports the write-failed error, leaves the cache
at 80, and the retry issues the write again. -/
theorem c2_write_failure_retry_witness :
    (ReportMetric syncer0 "co2_ppm" 100 450 1000 (.vector [80]) false).result =
      .failed .writeFailed ∧
    lookupTime (ReportMetric syncer0 "co2_ppm" 100 450 1000
        (.vector [80]) false).state.lastTimes "co2_ppm" ≠ some 100 ∧
    (ReportMetric (ReportMetric syncer0 "co2_ppm" 100 450 1000 (.vector [80])
        false).state "co2_ppm" 100 460 1000 (.vector [80]) true).writeAttempts =
      [⟨"co2_ppm", 100, 460⟩] := by
  obtain ⟨ha, hb, hc, hd, he⟩ := c2_write_failure_retry syncer0 "co2_ppm" 100 450 460
    1000 (.vector [80]) 80 true (by decide) (by decide) (by decide) (by decide)
    (by decide)
  exact ⟨ha, hc, hd⟩

/-- Exhaustive enumeration of how one `ReportMetric` call can leave the
`lastTimes` map: unchanged on every non-success outcome except that a
cache miss resolved by a single-sample vector caches that sample; on
success the entry for `name` is set to `ts` (on top of the resolution
cache when there was one). -/
theorem reportMetric_cases (s : SyncerState) (name : String) (ts : Instant)
    (value : ℚ) (now : Instant) (q : QueryResult) (writeOk : Bool) :
    ((ReportMetric s name ts value now q writeOk).state.lastTimes = s.lastTimes ∧
      (ReportMetric s name ts value now q writeOk).result ≠ .success) ∨
    (lookupTime s.lastTimes name = none ∧ (∃ v, q = .vector [v] ∧
      (ReportMetric s name ts value now q writeOk).state.lastTimes =
        setTime s.lastTimes name v) ∧
      (ReportMetric s name ts value now q writeOk).result ≠ .success) ∨
    ((∃ v, lookupTime s.lastTimes name = some v ∧ v < ts ∧
      (ReportMetric s name ts value now q writeOk).state.lastTimes =
        setTime s.lastTimes name ts) ∧
      (ReportMetric s name ts value now q writeOk).result = .success) ∨
    (lookupTime s.lastTimes name = none ∧ q = .vector [] ∧
      (ReportMetric s name ts value now q writeOk).state.lastTimes =
        setTime s.lastTimes name ts ∧
      (ReportMetric s name ts value now q writeOk).result = .success) ∨
    (lookupTime s.lastTimes name = none ∧ (∃ v, q = .vector [v] ∧ v < ts ∧
      (ReportMetric s name ts value now q writeOk).state.lastTimes =
        setTime (setTime s.lastTimes name v) name ts) ∧
      (ReportMetric s name ts value now q writeOk).result = .success) := by
  by_cases h0 : ts = 0
  · exact .inl ⟨by simp [ReportMetric, h0], by simp [ReportMetric, h0]⟩
  by_cases hf : ts > now + hourSeconds
  · exact .inl ⟨by simp [ReportMetric, h0, hf], by simp [ReportMetric, h0, hf]⟩
  rcases hl : lookupTime s.lastTimes name with _ | v
  · -- cache miss
    rcases q with _ | _ | _ | samples
    · have hq : lastTime s name now .failure =
          (.err .backendQueryFailed, s, [⟨name, now, lookbackSeconds⟩]) := by
        rw [lastTime, hl]
      exact .inl ⟨by simp [ReportMetric, h0, hf, hq], by simp [ReportMetric, h0, hf, hq]⟩
    · have hq : lastTime s name now .nilValue =
          (.err .backendQueryFailed, s, [⟨name, now, lookbackSeconds⟩]) := by
        rw [lastTime, hl]
      exact .inl ⟨by simp [ReportMetric, h0, hf, hq], by simp [ReportMetric, h0, hf, hq]⟩
    · have hq : lastTime s name now .nonVector =
          (.err .backendQueryFailed, s, [⟨name, now, lookbackSeconds⟩]) := by
        rw [lastTime, hl]
      exact .inl ⟨by simp [ReportMetric, h0, hf, hq], by simp [ReportMetric, h0, hf, hq]⟩
    · rcases samples with _ | ⟨a, _ | ⟨b, rest⟩⟩
      · -- empty vector: resolved to the zero instant, not cached
        have hq : lastTime s name now (.vector []) =
            (.ok 0, s, [⟨name, now, lookbackSeconds⟩]) := by
          rw [lastTime, hl]
        by_cases hskip : ts > 0
        · rcases hd : s.dryRun with _ | _
          · cases writeOk
            · exact .inl ⟨by simp [ReportMetric, h0, hf, hq, hskip, hd],
                by simp [ReportMetric, h0, hf, hq, hskip, hd]⟩
            · exact .inr (.inr (.inr (.inl ⟨rfl, rfl,
                by simp [ReportMetric, h0, hf, hq, hskip, hd],
                by simp [ReportMetric, h0, hf, hq, hskip, hd]⟩)))
          · exact .inr (.inr (.inr (.inl ⟨rfl, rfl,
              by simp [ReportMetric, h0, hf, hq, hskip, hd],
              by simp [ReportMetric, h0, hf, hq, hskip, hd]⟩)))
        · exact .inl ⟨by simp [ReportMetric, h0, hf, hq, hskip],
            by simp [ReportMetric, h0, hf, hq, hskip]⟩
      · -- one sample: cached by the resolution
        have hq : lastTime s name now (.vector [a]) =
            (.ok a, { s with lastTimes := setTime s.lastTimes name a },
              [⟨name, now, lookbackSeconds⟩]) := by
          rw [lastTime, hl]
        by_cases hskip : ts > a
        · rcases hd : s.dryRun with _ | _
          · cases writeOk
            · exact .inr (.inl ⟨rfl, ⟨a, rfl,
                by simp [ReportMetric, h0, hf, hq, hskip, hd]⟩,
                by simp [ReportMetric, h0, hf, hq, hskip, hd]⟩)
            · exact .inr (.inr (.inr (.inr ⟨rfl, ⟨a, rfl, hskip,
                by simp [ReportMetric, h0, hf, hq, hskip, hd]⟩,
                by simp [ReportMetric, h0, hf, hq, hskip, hd]⟩)))
          · exact .inr (.inr (.inr (.inr ⟨rfl, ⟨a, rfl, hskip,
              by simp [ReportMetric, h0, hf, hq, hskip, hd]⟩,
              by simp [ReportMetric, h0, hf, hq, hskip, hd]⟩)))
        · exact .inr (.inl ⟨rfl, ⟨a, rfl,
            by simp [ReportMetric, h0, hf, hq, hskip]⟩,
            by simp [ReportMetric, h0, hf, hq, hskip]⟩)
      · -- several samples: ambiguous
        have hq : lastTime s name now (.vector (a :: b :: rest)) =
            (.err .ambiguousSeries, s, [⟨name, now, lookbackSeconds⟩]) := by
          rw [lastTime, hl]
        exact .inl ⟨by simp [ReportMetric, h0, hf, hq], by simp [ReportMetric, h0, hf, hq]⟩
  · -- cache hit
    have hq : lastTime s name now q = (.ok v, s, []) := lastTime_hit s name now q v hl
    by_cases hskip : ts > v
    · rcases hd : s.dryRun with _ | _
      · cases writeOk
        · exact .inl ⟨by simp [ReportMetric, h0, hf, hq, hskip, hd],
            by simp [ReportMetric, h0, hf, hq, hskip, hd]⟩
        · exact .inr (.inr (.inl ⟨⟨v, rfl, hskip,
            by simp [ReportMetric, h0, hf, hq, hskip, hd]⟩,
            by simp [ReportMetric, h0, hf, hq, hskip, hd]⟩))
      · exact .inr (.inr (.inl ⟨⟨v, rfl, hskip,
          by simp [ReportMetric, h0, hf, hq, hskip, hd]⟩,
          by simp [ReportMetric, h0, hf, hq, hskip, hd]⟩))
    · exact .inl ⟨by simp [ReportMetric, h0, hf, hq, hskip],
        by simp [ReportMetric, h0, hf, hq, hskip]⟩

/-- C4 counterexample: a cold-cache call whose backend write fails ends
in an error outcome, yet it has mutated `lastTimes` — the resolution step
populated the entry with the backend value. -/
theorem c4_counterexample :
    (ReportMetric syncer0 "co2_ppm" 100 450 1000 (.vector [80]) false).result =
      .failed .writeFailed ∧
    lookupTime syncer0.lastTimes "co2_ppm" = none ∧
    lookupTime (ReportMetric syncer0 "co2_ppm" 100 450 1000
      (.vector [80]) false).state.lastTimes "co2_ppm" = some 80 := by
  decide

/-- C4 (amended): an entry of `lastTimes`, once set, is never removed and
never regresses; and a call mutates the map only at its own metric,
either by a successful write (setting the entry to `ts`) or by the
cache-miss resolution (caching the backend-resolved value) — the latter
also occurs in calls that subsequently end in an error outcome. -/
theorem c4_cache_mutation_amended (s : SyncerState) (name : String) (ts : Instant)
    (value : ℚ) (now : Instant) (q : QueryResult) (writeOk : Bool) :
    (∀ m v, lookupTime s.lastTimes m = some v →
      ∃ w, lookupTime (ReportMetric s name ts value now q writeOk).state.lastTimes m =
        some w ∧ v ≤ w) ∧
    (∀ m, lookupTime (ReportMetric s name ts value now q writeOk).state.lastTimes m ≠
        lookupTime s.lastTimes m →
      m = name ∧
      (((ReportMetric s name ts value now q writeOk).result = .success ∧
        lookupTime (ReportMetric s name ts value now q writeOk).state.lastTimes m =
          some ts) ∨
       (lookupTime s.lastTimes name = none ∧ ∃ v, q = .vector [v] ∧
        lookupTime (ReportMetric s name ts value now q writeOk).state.lastTimes m =
          some v))) := by
  rcases reportMetric_cases s name ts value now q writeOk with
    ⟨heq, _⟩ | ⟨hnone, ⟨v, hqv, heq⟩, _⟩ | ⟨⟨v, hv, hlt, heq⟩, hres⟩ |
    ⟨hnone, hqv, heq, hres⟩ | ⟨hnone, ⟨v, hqv, hlt, heq⟩, hres⟩
  · constructor
    · intro m w hw
      exact ⟨w, by rw [heq]; exact hw, le_refl w⟩
    · intro m hm
      exact absurd (by rw [heq]) hm
  · constructor
    · intro m w hw
      by_cases hmn : m = name
      · rw [hmn, hnone] at hw
        exact Option.noConfusion hw
      · refine ⟨w, ?_, le_refl w⟩
        rw [heq, lookupTime_setTime_ne _ _ _ _ (fun hc => hmn hc.symm)]
        exact hw
    · intro m hm
      by_cases hmn : m = name
      · subst hmn
        exact ⟨rfl, .inr ⟨hnone, v, hqv, by rw [heq, lookupTime_setTime_self]⟩⟩
      · rw [heq, lookupTime_setTime_ne _ _ _ _ (fun hc => hmn hc.symm)] at hm
        exact absurd rfl hm
  · constructor
    · intro m w hw
      by_cases hmn : m = name
      · subst hmn
        rw [hv] at hw
        simp only [Option.some.injEq] at hw
        refine ⟨ts, ?_, ?_⟩
        · rw [heq, lookupTime_setTime_self]
        · rw [hw] at hlt
          exact le_of_lt hlt
      · refine ⟨w, ?_, le_refl w⟩
        rw [heq, lookupTime_setTime_ne _ _ _ _ (fun hc => hmn hc.symm)]
        exact hw
    · intro m hm
      by_cases hmn : m = name
      · subst hmn
        exact ⟨rfl, .inl ⟨hres, by rw [heq, lookupTime_setTime_self]⟩⟩
      · rw [heq, lookupTime_setTime_ne _ _ _ _ (fun hc => hmn hc.symm)] at hm
        exact absurd rfl hm
  · constructor
    · intro m w hw
      by_cases hmn : m = name
      · rw [hmn, hnone] at hw
        exact Option.noConfusion hw
      · refine ⟨w, ?_, le_refl w⟩
        rw [heq, lookupTime_setTime_ne _ _ _ _ (fun hc => hmn hc.symm)]
        exact hw
    · intro m hm
      by_cases hmn : m = name
      · subst hmn
        exact ⟨rfl, .inl ⟨hres, by rw [heq, lookupTime_setTime_self]⟩⟩
      · rw [heq, lookupTime_setTime_ne _ _ _ _ (fun hc => hmn hc.symm)] at hm
        exact absurd rfl hm
  · constructor
    · intro m w hw
      by_cases hmn : m = name
      · rw [hmn, hnone] at hw
        exact Option.noConfusion hw
      · refine ⟨w, ?_, le_refl w⟩
        rw [heq, lookupTime_setTime_ne _ _ _ _ (fun hc => hmn hc.symm),
          lookupTime_setTime_ne _ _ _ _ (fun hc => hmn hc.symm)]
        exact hw
    · intro m hm
      by_cases hmn : m = name
      · subst hmn
        exact ⟨rfl, .inl ⟨hres, by rw [heq, lookupTime_setTime_self]⟩⟩
      · rw [heq, lookupTime_setTime_ne _ _ _ _ (fun hc => hmn hc.symm),
          lookupTime_setTime_ne _ _ _ _ (fun hc => hmn hc.symm)] at hm
        exact absurd rfl hm

/-- Witness for C4 (amended) at concrete inputs: a successful write over
an existing entry keeps the other metrics' entries and advances its own
entry to `ts`. -/
theorem c4_cache_mutation_amended_witness :
    (∃ w, lookupTime (ReportMetric ⟨false, [("humidity_percent", 90)], counters0⟩
      "co2_ppm" 100 450 1000 (.vector [80]) true).state.lastTimes "humidity_percent" =
        some w ∧ (90 : Int) ≤ w) ∧
    lookupTime (ReportMetric ⟨false, [("humidity_percent", 90)], counters0⟩
      "co2_ppm" 100 450 1000 (.vector [80]) true).state.lastTimes "co2_ppm" ≠
      lookupTime (⟨false, [("humidity_percent", 90)], counters0⟩ :
        SyncerState).lastTimes "co2_ppm" := by
  constructor
  · exact (c4_cache_mutation_amended ⟨false, [("humidity_percent", 90)], counters0⟩
      "co2_ppm" 100 450 1000 (.vector [80]) true).1 "humidity_percent" 90 (by decide)
  · decide

/-! Path lemmas: the full output record of `ReportMetric` on each of its
seven return paths. -/

theorem rm_invalid (s : SyncerState) (name : String) (ts : Instant) (value : ℚ)
    (now : Instant) (q : QueryResult) (writeOk : Bool) (h0 : ts = 0) :
    ReportMetric s name ts value now q writeOk =
      ⟨.failed .invalidTimestamp, { s with writes := incErrors s.writes }, [], []⟩ := by
  simp [ReportMetric, h0]

theorem rm_future (s : SyncerState) (name : String) (ts : Instant) (value : ℚ)
    (now : Instant) (q : QueryResult) (writeOk : Bool) (h0 : ts ≠ 0)
    (hf : ts > now + hourSeconds) :
    ReportMetric s name ts value now q writeOk =
      ⟨.failed .timestampTooFarFuture, { s with writes := incErrors s.writes }, [], []⟩ := by
  simp [ReportMetric, h0, hf]

theorem rm_qerr (s : SyncerState) (name : String) (ts : Instant) (value : ℚ)
    (now : Instant) (q : QueryResult) (writeOk : Bool) (e : SyncError)
    (s1 : SyncerState) (qs : List QueryEffect) (h0 : ts ≠ 0)
    (hf : ¬ ts > now + hourSeconds) (hq : lastTime s name now q = (.err e, s1, qs)) :
    ReportMetric s name ts value now q writeOk =
      ⟨.failed e, { s1 with writes := incErrors s1.writes }, qs, []⟩ := by
  simp [ReportMetric, h0, hf, hq]

theorem rm_skip (s : SyncerState) (name : String) (ts : Instant) (value : ℚ)
    (now : Instant) (q : QueryResult) (writeOk : Bool) (L : Instant)
    (s1 : SyncerState) (qs : List QueryEffect) (h0 : ts ≠ 0)
    (hf : ¬ ts > now + hourSeconds) (hq : lastTime s name now q = (.ok L, s1, qs))
    (hskip : ¬ ts > L) :
    ReportMetric s name ts value now q writeOk =
      ⟨.skipped, { s1 with writes := incSkipped s1.writes }, qs, []⟩ := by
  simp [ReportMetric, h0, hf, hq, hskip]

theorem rm_dry (s : SyncerState) (name : String) (ts : Instant) (value : ℚ)
    (now : Instant) (q : QueryResult) (writeOk : Bool) (L : Instant)
    (s1 : SyncerState) (qs : List QueryEffect) (h0 : ts ≠ 0)
    (hf : ¬ ts > now + hourSeconds) (hq : lastTime s name now q = (.ok L, s1, qs))
    (hskip : ts > L) (hd : s1.dryRun = true) :
    ReportMetric s name ts value now q writeOk =
      ⟨.success, { s1 with lastTimes := setTime s1.lastTimes name ts
                           writes := incSuccess (incSkipped s1.writes) }, qs, []⟩ := by
  simp [ReportMetric, h0, hf, hq, hskip, hd]

theorem rm_wok (s : SyncerState) (name : String) (ts : Instant) (value : ℚ)
    (now : Instant) (q : QueryResult) (L : Instant)
    (s1 : SyncerState) (qs : List QueryEffect) (h0 : ts ≠ 0)
    (hf : ¬ ts > now + hourSeconds) (hq : lastTime s name now q = (.ok L, s1, qs))
    (hskip : ts > L) (hd : s1.dryRun = false) :
    ReportMetric s name ts value now q true =
      ⟨.success, { s1 with lastTimes := setTime s1.lastTimes name ts
                           writes := incSuccess s1.writes }, qs, [⟨name, ts, value⟩]⟩ := by
  simp [ReportMetric, h0, hf, hq, hskip, hd]

theorem rm_wfail (s : SyncerState) (name : String) (ts : Instant) (value : ℚ)
    (now : Instant) (q : QueryResult) (L : Instant)
    (s1 : SyncerState) (qs : List QueryEffect) (h0 : ts ≠ 0)
    (hf : ¬ ts > now + hourSeconds) (hq : lastTime s name now q = (.ok L, s1, qs))
    (hskip : ts > L) (hd : s1.dryRun = false) :
    ReportMetric s name ts value now q false =
      ⟨.failed .writeFailed, { s1 with writes := incErrors s1.writes }, qs,
        [⟨name, ts, value⟩]⟩ := by
  simp [ReportMetric, h0, hf, hq, hskip, hd]

/-- C10 counterexample: in dry-run mode an accepted call returns success,
sends nothing, advances the cache — and increments **two** outcome
counters, `skipped` and `success`, not exactly one. -/
theorem c10_counterexample :
    (ReportMetric syncerDry "co2_ppm" 50 450 1000 (.vector []) true).result =
      .success ∧
    (ReportMetric syncerDry "co2_ppm" 50 450 1000
      (.vector []) true).state.writes.skipped = 1 ∧
    (ReportMetric syncerDry "co2_ppm" 50 450 1000
      (.vector []) true).state.writes.success = 1 ∧
    (ReportMetric syncerDry "co2_ppm" 50 450 1000
      (.vector []) true).state.writes.errors = 0 ∧
    (ReportMetric syncerDry "co2_ppm" 50 450 1000 (.vector []) true).writeAttempts =
      [] ∧
    lookupTime (ReportMetric syncerDry "co2_ppm" 50 450 1000
      (.vector []) true).state.lastTimes "co2_ppm" = some 50 := by
  decide

/-- C10 (amended): every call increments the outcome counter matching its
return path — `errors` on an error, `skipped` on a duplicate skip,
`success` on a non-dry-run success — except that a dry-run accepted call
increments both `skipped` and `success`; a dry-run accepted call still
sends no write and still advances the cache to `ts`. -/
theorem c10_counter_outcomes_amended (s : SyncerState) (name : String) (ts : Instant)
    (value : ℚ) (now : Instant) (q : QueryResult) (writeOk : Bool) :
    (∀ e, (ReportMetric s name ts value now q writeOk).result = .failed e →
      (ReportMetric s name ts value now q writeOk).state.writes = incErrors s.writes) ∧
    ((ReportMetric s name ts value now q writeOk).result = .skipped →
      (ReportMetric s name ts value now q writeOk).state.writes = incSkipped s.writes) ∧
    ((ReportMetric s name ts value now q writeOk).result = .success →
      (s.dryRun = true →
        (ReportMetric s name ts value now q writeOk).state.writes =
          incSuccess (incSkipped s.writes) ∧
        (ReportMetric s name ts value now q writeOk).writeAttempts = [] ∧
        lookupTime (ReportMetric s name ts value now q writeOk).state.lastTimes name =
          some ts) ∧
      (s.dryRun = false →
        (ReportMetric s name ts value now q writeOk).state.writes =
          incSuccess s.writes ∧
        (ReportMetric s name ts value now q writeOk).writeAttempts =
          [⟨name, ts, value⟩])) := by
  by_cases h0 : ts = 0
  · rw [rm_invalid s name ts value now q writeOk h0]
    exact ⟨fun e he => rfl, fun hs => by simp at hs, fun hs => by simp at hs⟩
  by_cases hf : ts > now + hourSeconds
  · rw [rm_future s name ts value now q writeOk h0 hf]
    exact ⟨fun e he => rfl, fun hs => by simp at hs, fun hs => by simp at hs⟩
  rcases hq : lastTime s name now q with ⟨r, s1, qs⟩
  have hws : s1.writes = s.writes := by
    have hh := lastTime_writes s name now q
    rw [hq] at hh
    exact hh
  have hds : s1.dryRun = s.dryRun := by
    have hh := lastTime_dryRun s name now q
    rw [hq] at hh
    exact hh
  rcases r with L | e
  · by_cases hskip : ts > L
    · rcases hd1 : s1.dryRun with _ | _
      · -- real write
        cases writeOk
        · rw [rm_wfail s name ts value now q L s1 qs h0 hf hq hskip hd1]
          refine ⟨fun e he => congrArg incErrors hws, fun hs => by simp at hs,
            fun hs => by simp at hs⟩
        · rw [rm_wok s name ts value now q L s1 qs h0 hf hq hskip hd1]
          refine ⟨fun e he => by simp at he, fun hs => by simp at hs, fun _ => ⟨?_, ?_⟩⟩
          · intro hdT
            rw [hds, hdT] at hd1
            exact Bool.noConfusion hd1
          · intro hdF
            exact ⟨congrArg incSuccess hws, rfl⟩
      · -- dry run
        rw [rm_dry s name ts value now q writeOk L s1 qs h0 hf hq hskip hd1]
        refine ⟨fun e he => by simp at he, fun hs => by simp at hs, fun _ => ⟨?_, ?_⟩⟩
        · intro hdT
          refine ⟨by rw [hws], rfl, ?_⟩
          exact lookupTime_setTime_self s1.lastTimes name ts
        · intro hdF
          rw [hds, hdF] at hd1
          exact Bool.noConfusion hd1
    · rw [rm_skip s name ts value now q writeOk L s1 qs h0 hf hq hskip]
      exact ⟨fun e he => by simp at he, fun hs => congrArg incSkipped hws,
        fun hs => by simp at hs⟩
  · rw [rm_qerr s name ts value now q writeOk e s1 qs h0 hf hq]
    exact ⟨fun e' he' => congrArg incErrors hws, fun hs => by simp at hs,
      fun hs => by simp at hs⟩

/-- Witness for C10 (amended) at concrete inputs: the dry-run accepted
call increments skipped and success; an invalid-timestamp call increments
errors. -/
theorem c10_counter_outcomes_amended_witness :
    (ReportMetric syncerDry "co2_ppm" 50 450 1000 (.vector []) true).state.writes =
      incSuccess (incSkipped counters0) ∧
    (ReportMetric syncer0 "co2_ppm" 0 450 1000 (.vector []) true).state.writes =
      incErrors counters0 := by
  constructor
  · exact (((c10_counter_outcomes_amended syncerDry "co2_ppm" 50 450 1000 (.vector [])
      true).2.2 (by decide)).1 (by decide)).1
  · exact (c10_counter_outcomes_amended syncer0 "co2_ppm" 0 450 1000 (.vector [])
      true).1 .invalidTimestamp (by decide)

/-- `lastSuccess` is stored only by a cycle that runs to completion
without error, and then holds the completion time. -/
theorem refresh_lastSuccess (c : CollectorState) (env : RefreshEnv) :
    ((refresh c env).1 ≠ none → (refresh c env).2.lastSuccess = c.lastSuccess) ∧
    ((refresh c env).2.lastSuccess ≠ c.lastSuccess →
      (refresh c env).1 = none ∧ (refresh c env).2.lastSuccess = env.tEnd) := by
  unfold refresh
  rcases env.read with m | m | ⟨latest, all⟩
  · exact ⟨fun _ => rfl, fun h => absurd rfl h⟩
  · exact ⟨fun _ => rfl, fun h => absurd rfl h⟩
  · simp only
    split
    · exact ⟨fun _ => rfl, fun h => absurd rfl h⟩
    · split
      · exact ⟨fun h => absurd rfl h, fun h => absurd rfl h⟩
      · split
        · exact ⟨fun _ => rfl, fun h => absurd rfl h⟩
        · exact ⟨fun h => absurd rfl h, fun _ => ⟨rfl, rfl⟩⟩

/-- Every cycle that returns an error is observed once in the
error-status attempts counter. -/
theorem refresh_error_counter (c : CollectorState) (env : RefreshEnv) :
    (refresh c env).1 ≠ none →
    (refresh c env).2.attempts.errors = c.attempts.errors + 1 := by
  unfold refresh
  rcases env.read with m | m | ⟨latest, all⟩
  · exact fun _ => rfl
  · exact fun _ => rfl
  · simp only
    split
    · exact fun _ => rfl
    · split
      · exact fun h => absurd rfl h
      · split
        · exact fun _ => rfl
        · exact fun h => absurd rfl h

/-- C6: each scheduler iteration sleeps exactly
`last_success + interval − now` when that is positive and the fixed
1-second backoff otherwise; a cycle that errors leaves `last_success`
unchanged, and any change of `last_success` comes from an error-free
cycle and sets it to the cycle's completion time. -/
theorem c6_scheduler_timing (c : CollectorState) (now : Instant) (interval : Int)
    (env : RefreshEnv) :
    (runIteration c now interval env).1 =
      (if c.lastSuccess + interval - now > 0 then c.lastSuccess + interval - now
        else 1) ∧
    ((runIteration c now interval env).2.1 ≠ none →
      (runIteration c now interval env).2.2.lastSuccess = c.lastSuccess) ∧
    ((runIteration c now interval env).2.2.lastSuccess ≠ c.lastSuccess →
      (runIteration c now interval env).2.1 = none ∧
      (runIteration c now interval env).2.2.lastSuccess = env.tEnd) := by
  exact ⟨rfl, (refresh_lastSuccess c env).1, (refresh_lastSuccess c env).2⟩

/-- Witness for C6 at concrete inputs: five seconds remain of a
ten-second interval, so the scheduler sleeps five seconds; the cycle
fails, so `lastSuccess` stays unchanged. -/
theorem c6_scheduler_timing_witness :
    (runIteration cInit 5 10 envFail).1 = 5 ∧
    (runIteration cInit 5 10 envFail).2.2.lastSuccess = cInit.lastSuccess := by
  constructor
  · rw [(c6_scheduler_timing cInit 5 10 envFail).1]
    decide
  · exact (c6_scheduler_timing cInit 5 10 envFail).2.1 (by decide)

/-- C7 counterexample: with the configuration validation passed, a
failure of the initial refresh cycle run during collector construction
makes the process exit with status 1 — a cycle failure after startup
validation is fatal on this one path. -/
theorem c7_counterexample :
    mainStartup true cInit envFail = .error 1 ∧
    (refresh cInit envFail).1 = some "reading data: connecting to device" := by
  exact ⟨rfl, rfl⟩

/-- C7 (amended): every failure in a refresh cycle, including a recovered
panic from the acquisition layer, is caught and converted into an error
outcome (observed in the error counter), and the run loop retries without
any exit path; however the initial refresh executed during collector
construction is fatal — `main` exits when it fails, so the no-exit
guarantee only holds once the collector has been constructed. -/
theorem c7_failure_isolation_amended :
    (∀ (c : CollectorState) (env : RefreshEnv) (m : String), env.read = .panicked m →
      refresh c env = (some ("panic in refresh: " ++ m), incAttemptErr c)) ∧
    (∀ (c : CollectorState) (env : RefreshEnv) (m : String), env.read = .failed m →
      refresh c env = (some ("reading data: " ++ m), incAttemptErr c)) ∧
    (∀ (c : CollectorState) (env : RefreshEnv), (refresh c env).1 ≠ none →
      (refresh c env).2.attempts.errors = c.attempts.errors + 1) ∧
    (∀ (c : CollectorState) (now : Instant) (interval : Int) (env : RefreshEnv),
      runStepE c now interval env =
        .ok ((runIteration c now interval env).1, (refresh c env).2)) ∧
    (∀ (c0 : CollectorState) (env : RefreshEnv), (refresh c0 env).1 ≠ none →
      mainStartup true c0 env = .error 1) := by
  refine ⟨?_, ?_, refresh_error_counter, fun _ _ _ _ => rfl, ?_⟩
  · intro c env m h
    unfold refresh
    rw [h]
  · intro c env m h
    unfold refresh
    rw [h]
  · intro c0 env h
    unfold mainStartup
    rcases hr : refresh c0 env with ⟨oe, c'⟩
    rcases oe with _ | e
    · rw [hr] at h
      exact absurd rfl h
    · simp [hr]

/-- Witness for C7 (amended) at concrete inputs: a panic is converted to
an error outcome, and the failing initial refresh exits the process. -/
theorem c7_failure_isolation_amended_witness :
    refresh cInit envPanic = (some "panic in refresh: boom", incAttemptErr cInit) ∧
    mainStartup true cInit envPanic = .error 1 := by
  constructor
  · exact c7_failure_isolation_amended.1 cInit envPanic "boom" rfl
  · exact c7_failure_isolation_amended.2.2.2.2 cInit envPanic (by decide)

theorem dle_refl (x : Data) : dle x x := le_refl _

theorem dle_trans {x y z : Data} (h1 : dle x y) (h2 : dle y z) : dle x z :=
  le_trans h1 h2

theorem dataCmp_lt_iff (x y : Data) : dataCmp x y < 0 ↔ x.time < y.time := by
  unfold dataCmp
  split
  · rename_i h
    exact iff_of_true (by decide) h
  · rename_i h1
    split
    · exact iff_of_false (by decide) h1
    · exact iff_of_false (by decide) h1

theorem dataCmp_lt {x y : Data} (h : dataCmp x y < 0) : x.time < y.time :=
  (dataCmp_lt_iff x y).1 h

theorem dataCmp_not_lt {x y : Data} (h : ¬ dataCmp x y < 0) : dle y x :=
  not_lt.1 (fun hc => h ((dataCmp_lt_iff x y).2 hc))

theorem dle_of_not_dataCmp_lt {x y : Data} (h : ¬ dataCmp x y < 0) :
    y.time ≤ x.time := dataCmp_not_lt h

theorem agetD_eq_getElem (d : Array Data) (k : Nat) (h : k < d.size) :
    agetD d k = d[k] := by
  simp [agetD, Array.getD_eq_get?, Array.getElem?_eq_getElem h]

theorem agetD_out (d : Array Data) (k : Nat) (h : d.size ≤ k) :
    agetD d k = default := by
  simp [agetD, Array.getD_eq_get?, Array.getElem?_eq_none_iff.2 h]

theorem aswap_size (d : Array Data) (i j : Nat) : (aswap d i j).size = d.size := by
  unfold aswap
  split
  · split
    · exact d.size_swap _ _
    · rfl
  · rfl

theorem agetD_aswap (d : Array Data) (i j k : Nat) (hi : i < d.size) (hj : j < d.size) :
    agetD (aswap d i j) k =
      if k = i then agetD d j else if k = j then agetD d i else agetD d k := by
  unfold aswap
  rw [dif_pos hi, dif_pos hj]
  by_cases hk : k < d.size
  · have hk2 : k < (d.swap ⟨i, hi⟩ ⟨j, hj⟩).size := by
      rw [Array.size_swap]; exact hk
    rw [agetD_eq_getElem _ _ hk2, Array.getElem_swap]
    by_cases hki : k = i
    · rw [if_pos hki, if_pos hki, agetD_eq_getElem _ _ hj]; rfl
    · rw [if_neg hki, if_neg hki]
      by_cases hkj : k = j
      · rw [if_pos hkj, if_pos hkj, agetD_eq_getElem _ _ hi]; rfl
      · rw [if_neg hkj, if_neg hkj, agetD_eq_getElem _ _ hk]
  · have hk' : d.size ≤ k := le_of_not_lt hk
    rw [agetD_out _ _ (by rw [Array.size_swap]; exact hk'),
      if_neg (by omega), if_neg (by omega), agetD_out _ _ hk']

theorem aswap_oob (d : Array Data) (i j : Nat) (h : ¬ (i < d.size ∧ j < d.size)) :
    aswap d i j = d := by
  unfold aswap
  by_cases h1 : i < d.size
  · rw [dif_pos h1, dif_neg (fun h2 => h ⟨h1, h2⟩)]
  · rw [dif_neg h1]

theorem set_cons_perm {α : Type} :
    ∀ (t : List α) (j : Nat) (hj : j < t.length) (x : α),
      (t[j] :: t.set j x).Perm (x :: t) := by
  intro t
  induction t with
  | nil => intro j hj x; exact absurd hj (by simp)
  | cons y t ih =>
    intro j hj x
    rcases j with _ | j
    · simpa using List.Perm.swap x y t
    · have hj' : j < t.length := by simpa using hj
      have step : (t[j] :: y :: t.set j x).Perm (x :: y :: t) :=
        ((List.Perm.swap y t[j] (t.set j x)).trans ((ih j hj' x).cons y)).trans
          (List.Perm.swap x y t)
      simpa using step

theorem set_set_swap_perm {α : Type} :
    ∀ (l : List α) (i j : Nat) (hi : i < l.length) (hj : j < l.length),
      ((l.set i l[j]).set j l[i]).Perm l := by
  intro l
  induction l with
  | nil => intro i j hi _; exact absurd hi (by simp)
  | cons y t ih =>
    intro i j hi hj
    rcases i with _ | i
    · rcases j with _ | j
      · simp
      · simpa using set_cons_perm t j (by simpa using hj) y
    · rcases j with _ | j
      · simpa using set_cons_perm t i (by simpa using hi) y
      · simpa using (ih i j (by simpa using hi) (by simpa using hj)).cons y

theorem aswap_perm (d : Array Data) (i j : Nat) :
    (aswap d i j).toList.Perm d.toList := by
  by_cases h : i < d.size ∧ j < d.size
  · unfold aswap
    rw [dif_pos h.1, dif_pos h.2, Array.toList_swap]
    have hi : i < d.toList.length := by simpa using h.1
    have hj : j < d.toList.length := by simpa using h.2
    have := set_set_swap_perm d.toList i j hi hj
    simpa using this
  · rw [aswap_oob d i j h]

theorem permWithin_refl (lo hi : Nat) (d : Array Data) : PermWithin lo hi d d :=
  ⟨rfl, fun _ _ => rfl, List.Perm.refl _, fun _ hQ => hQ⟩

theorem permWithin_trans {lo hi : Nat} {d1 d2 d3 : Array Data}
    (h1 : PermWithin lo hi d1 d2) (h2 : PermWithin lo hi d2 d3) :
    PermWithin lo hi d1 d3 :=
  ⟨h2.1.trans h1.1,
   fun k hk => (h2.2.1 k hk).trans (h1.2.1 k hk),
   h2.2.2.1.trans h1.2.2.1,
   fun Q hQ => h2.2.2.2 Q (h1.2.2.2 Q hQ)⟩

theorem permWithin_mono {lo hi lo' hi' : Nat} {d d' : Array Data}
    (h : PermWithin lo hi d d') (hlo : lo' ≤ lo) (hhi : hi ≤ hi') :
    PermWithin lo' hi' d d' := by
  refine ⟨h.1, fun k hk => h.2.1 k (by omega), h.2.2.1, ?_⟩
  intro Q hQ k hk1 hk2
  by_cases hk : lo ≤ k ∧ k < hi
  · exact h.2.2.2 Q (fun m hm1 hm2 => hQ m (by omega) (by omega)) k hk.1 hk.2
  · rw [h.2.1 k (by omega)]
    exact hQ k hk1 hk2

theorem permWithin_swap {lo hi : Nat} (d : Array Data) (i j : Nat)
    (hi1 : lo ≤ i) (hi2 : i < hi) (hj1 : lo ≤ j) (hj2 : j < hi) :
    PermWithin lo hi d (aswap d i j) := by
  by_cases hb : i < d.size ∧ j < d.size
  · refine ⟨aswap_size d i j, ?_, aswap_perm d i j, ?_⟩
    · intro k hk
      rw [agetD_aswap d i j k hb.1 hb.2, if_neg (by omega), if_neg (by omega)]
    · intro Q hQ k hk1 hk2
      rw [agetD_aswap d i j k hb.1 hb.2]
      by_cases hki : k = i
      · rw [if_pos hki]; exact hQ j hj1 hj2
      · rw [if_neg hki]
        by_cases hkj : k = j
        · rw [if_pos hkj]; exact hQ i hi1 hi2
        · rw [if_neg hkj]; exact hQ k hk1 hk2
  · rw [aswap_oob d i j hb]
    exact permWithin_refl lo hi d

theorem flank_preserved {a b : Nat} {d d' : Array Data}
    (hp : PermWithin a b d d') (hf : Flank d a b) : Flank d' a b := by
  rcases hf with hf | ⟨ha, hf⟩
  · exact Or.inl hf
  · refine Or.inr ⟨ha, ?_⟩
    intro k hk1 hk2
    rw [hp.2.1 (a - 1) (Or.inl (by omega))]
    exact hp.2.2.2 (fun v => dle (agetD d (a - 1)) v) hf k hk1 hk2

theorem sortedRange_vacuous {d : Array Data} {lo hi : Nat} (h : hi ≤ lo + 1) :
    SortedRange d lo hi := by
  intro i j h1 h2 h3
  exact absurd h3 (by omega)

theorem sortedRange_restrict {d : Array Data} {lo hi lo' hi' : Nat}
    (h : SortedRange d lo hi) (h1 : lo ≤ lo') (h2 : hi' ≤ hi) :
    SortedRange d lo' hi' :=
  fun i j hi1 hi2 hi3 => h i j (by omega) hi2 (by omega)

theorem sortedRange_congr {d d' : Array Data} {lo hi : Nat}
    (hout : ∀ k, lo ≤ k → k < hi → agetD d' k = agetD d k)
    (h : SortedRange d lo hi) : SortedRange d' lo hi := by
  intro i j h1 h2 h3
  rw [hout i (by omega) (by omega), hout j (by omega) h3]
  exact h i j h1 h2 h3

theorem adjSorted_sortedRange {d : Array Data} {lo hi : Nat}
    (h : AdjSorted d lo hi) : SortedRange d lo hi := by
  intro i j h1 h2 h3
  induction j with
  | zero => exact absurd h2 (by omega)
  | succ j ih =>
    by_cases hij : i = j
    · subst hij
      have := h (i + 1) (by omega) h3
      simpa using this
    · exact dle_trans (ih (by omega) (by omega)) (by simpa using h (j + 1) (by omega) h3)

theorem sortedRange_adjSorted {d : Array Data} {lo hi : Nat}
    (h : SortedRange d lo hi) : AdjSorted d lo hi :=
  fun k hk1 hk2 => h (k - 1) k (by omega) (by omega) hk2

theorem adjSorted_extend {d : Array Data} {lo i r : Nat}
    (h1 : AdjSorted d lo i)
    (h2 : ∀ k, i ≤ k → k < r → dle (agetD d (k - 1)) (agetD d k)) :
    AdjSorted d lo r := by
  intro k hk1 hk2
  by_cases hk : k < i
  · exact h1 k hk1 hk
  · exact h2 k (by omega) hk2

/-! Specifications of the scan loops (pure index computations). -/

theorem piScan_zero (d : Array Data) (b i : Nat) : piScan dataCmp d b i 0 = i := rfl

theorem piScan_succ (d : Array Data) (b i fuel : Nat) :
    piScan dataCmp d b i (fuel + 1) =
      if i < b ∧ ¬ dataCmp (agetD d i) (agetD d (i - 1)) < 0 then
        piScan dataCmp d b (i + 1) fuel
      else i := rfl

theorem piScan_spec : ∀ (fuel : Nat) (d : Array Data) (b i : Nat),
    b + 1 - i ≤ fuel →
    i ≤ piScan dataCmp d b i fuel ∧
    (i ≤ b → piScan dataCmp d b i fuel ≤ b) ∧
    (∀ k, i ≤ k → k < piScan dataCmp d b i fuel →
      dle (agetD d (k - 1)) (agetD d k)) ∧
    (piScan dataCmp d b i fuel < b →
      (agetD d (piScan dataCmp d b i fuel)).time <
        (agetD d (piScan dataCmp d b i fuel - 1)).time) := by
  intro fuel
  induction fuel with
  | zero =>
    intro d b i hf
    rw [piScan_zero]
    refine ⟨le_refl _, fun h => by omega, fun k hk1 hk2 => absurd hk2 (by omega),
      fun h => absurd h (by omega)⟩
  | succ fuel ih =>
    intro d b i hf
    rw [piScan_succ]
    by_cases hg : i < b ∧ ¬ dataCmp (agetD d i) (agetD d (i - 1)) < 0
    · rw [if_pos hg]
      obtain ⟨h1, h2, h3, h4⟩ := ih d b (i + 1) (by omega)
      refine ⟨by omega, fun _ => h2 (by omega), ?_, h4⟩
      intro k hk1 hk2
      by_cases hki : k = i
      · subst hki
        exact dataCmp_not_lt hg.2
      · exact h3 k (by omega) hk2
    · rw [if_neg hg]
      refine ⟨le_refl _, fun h => h, fun k hk1 hk2 => absurd hk2 (by omega), ?_⟩
      intro hib
      by_cases hc : dataCmp (agetD d i) (agetD d (i - 1)) < 0
      · exact dataCmp_lt hc
      · exact absurd ⟨hib, hc⟩ hg

theorem scanLt_zero (d : Array Data) (aIdx j i : Nat) :
    scanLt dataCmp d aIdx j i 0 = i := rfl

theorem scanLt_succ (d : Array Data) (aIdx j i fuel : Nat) :
    scanLt dataCmp d aIdx j i (fuel + 1) =
      if i ≤ j ∧ dataCmp (agetD d i) (agetD d aIdx) < 0 then
        scanLt dataCmp d aIdx j (i + 1) fuel
      else i := rfl

theorem scanLt_spec : ∀ (fuel : Nat) (d : Array Data) (aIdx j i : Nat),
    j + 1 - i ≤ fuel →
    i ≤ scanLt dataCmp d aIdx j i fuel ∧
    (i ≤ j + 1 → scanLt dataCmp d aIdx j i fuel ≤ j + 1) ∧
    (∀ k, i ≤ k → k < scanLt dataCmp d aIdx j i fuel →
      (agetD d k).time < (agetD d aIdx).time) ∧
    (scanLt dataCmp d aIdx j i fuel ≤ j →
      ¬ (agetD d (scanLt dataCmp d aIdx j i fuel)).time < (agetD d aIdx).time) := by
  intro fuel
  induction fuel with
  | zero =>
    intro d aIdx j i hf
    rw [scanLt_zero]
    refine ⟨le_refl _, fun h => h, fun k hk1 hk2 => absurd hk2 (by omega),
      fun h => absurd h (by omega)⟩
  | succ fuel ih =>
    intro d aIdx j i hf
    rw [scanLt_succ]
    by_cases hg : i ≤ j ∧ dataCmp (agetD d i) (agetD d aIdx) < 0
    · rw [if_pos hg]
      obtain ⟨h1, h2, h3, h4⟩ := ih d aIdx j (i + 1) (by omega)
      refine ⟨by omega, fun _ => h2 (by omega), ?_, h4⟩
      intro k hk1 hk2
      by_cases hki : k = i
      · subst hki
        exact dataCmp_lt hg.2
      · exact h3 k (by omega) hk2
    · rw [if_neg hg]
      refine ⟨le_refl _, fun h => h, fun k hk1 hk2 => absurd hk2 (by omega), ?_⟩
      intro hij hc
      exact hg ⟨hij, (dataCmp_lt_iff _ _).2 hc⟩

theorem scanGe_zero (d : Array Data) (aIdx i j : Nat) :
    scanGe dataCmp d aIdx i j 0 = j := rfl

theorem scanGe_succ (d : Array Data) (aIdx i j fuel : Nat) :
    scanGe dataCmp d aIdx i j (fuel + 1) =
      if i ≤ j ∧ ¬ dataCmp (agetD d j) (agetD d aIdx) < 0 then
        scanGe dataCmp d aIdx i (j - 1) fuel
      else j := rfl

theorem scanGe_spec : ∀ (fuel : Nat) (d : Array Data) (aIdx i j : Nat),
    1 ≤ i → j + 1 - i ≤ fuel →
    scanGe dataCmp d aIdx i j fuel ≤ j ∧
    (i ≤ j + 1 → i - 1 ≤ scanGe dataCmp d aIdx i j fuel) ∧
    (∀ k, scanGe dataCmp d aIdx i j fuel < k → k ≤ j →
      ¬ (agetD d k).time < (agetD d aIdx).time) ∧
    (i ≤ scanGe dataCmp d aIdx i j fuel →
      (agetD d (scanGe dataCmp d aIdx i j fuel)).time < (agetD d aIdx).time) := by
  intro fuel
  induction fuel with
  | zero =>
    intro d aIdx i j hi1 hf
    rw [scanGe_zero]
    refine ⟨le_refl _, fun h => by omega, fun k hk1 hk2 => absurd hk1 (by omega),
      fun h => absurd h (by omega)⟩
  | succ fuel ih =>
    intro d aIdx i j hi1 hf
    rw [scanGe_succ]
    by_cases hg : i ≤ j ∧ ¬ dataCmp (agetD d j) (agetD d aIdx) < 0
    · rw [if_pos hg]
      obtain ⟨h1, h2, h3, h4⟩ := ih d aIdx i (j - 1) hi1 (by omega)
      refine ⟨by omega, fun _ => h2 (by omega), ?_, h4⟩
      intro k hk1 hk2
      by_cases hkj : k = j
      · subst hkj
        intro hc
        exact hg.2 ((dataCmp_lt_iff _ _).2 hc)
      · exact h3 k hk1 (by omega)
    · rw [if_neg hg]
      refine ⟨le_refl _, fun h => by omega, fun k hk1 hk2 => absurd hk1 (by omega), ?_⟩
      intro hij
      by_cases hc : dataCmp (agetD d j) (agetD d aIdx) < 0
      · exact dataCmp_lt hc
      · exact absurd ⟨hij, hc⟩ hg

theorem peScanI_zero (d : Array Data) (aIdx j i : Nat) :
    peScanI dataCmp d aIdx j i 0 = i := rfl

theorem peScanI_succ (d : Array Data) (aIdx j i fuel : Nat) :
    peScanI dataCmp d aIdx j i (fuel + 1) =
      if i ≤ j ∧ ¬ dataCmp (agetD d aIdx) (agetD d i) < 0 then
        peScanI dataCmp d aIdx j (i + 1) fuel
      else i := rfl

theorem peScanI_spec : ∀ (fuel : Nat) (d : Array Data) (aIdx j i : Nat),
    j + 1 - i ≤ fuel →
    i ≤ peScanI dataCmp d aIdx j i fuel ∧
    (i ≤ j + 1 → peScanI dataCmp d aIdx j i fuel ≤ j + 1) ∧
    (∀ k, i ≤ k → k < peScanI dataCmp d aIdx j i fuel →
      (agetD d k).time ≤ (agetD d aIdx).time) ∧
    (peScanI dataCmp d aIdx j i fuel ≤ j →
      (agetD d aIdx).time < (agetD d (peScanI dataCmp d aIdx j i fuel)).time) := by
  intro fuel
  induction fuel with
  | zero =>
    intro d aIdx j i hf
    rw [peScanI_zero]
    refine ⟨le_refl _, fun h => h, fun k hk1 hk2 => absurd hk2 (by omega),
      fun h => absurd h (by omega)⟩
  | succ fuel ih =>
    intro d aIdx j i hf
    rw [peScanI_succ]
    by_cases hg : i ≤ j ∧ ¬ dataCmp (agetD d aIdx) (agetD d i) < 0
    · rw [if_pos hg]
      obtain ⟨h1, h2, h3, h4⟩ := ih d aIdx j (i + 1) (by omega)
      refine ⟨by omega, fun _ => h2 (by omega), ?_, h4⟩
      intro k hk1 hk2
      by_cases hki : k = i
      · subst hki
        exact dataCmp_not_lt hg.2
      · exact h3 k (by omega) hk2
    · rw [if_neg hg]
      refine ⟨le_refl _, fun h => h, fun k hk1 hk2 => absurd hk2 (by omega), ?_⟩
      intro hij
      by_cases hc : dataCmp (agetD d aIdx) (agetD d i) < 0
      · exact dataCmp_lt hc
      · exact absurd ⟨hij, hc⟩ hg

theorem peScanJ_zero (d : Array Data) (aIdx i j : Nat) :
    peScanJ dataCmp d aIdx i j 0 = j := rfl

theorem peScanJ_succ (d : Array Data) (aIdx i j fuel : Nat) :
    peScanJ dataCmp d aIdx i j (fuel + 1) =
      if i ≤ j ∧ dataCmp (agetD d aIdx) (agetD d j) < 0 then
        peScanJ dataCmp d aIdx i (j - 1) fuel
      else j := rfl

theorem peScanJ_spec : ∀ (fuel : Nat) (d : Array Data) (aIdx i j : Nat),
    1 ≤ i → j + 1 - i ≤ fuel →
    peScanJ dataCmp d aIdx i j fuel ≤ j ∧
    (i ≤ j + 1 → i - 1 ≤ peScanJ dataCmp d aIdx i j fuel) ∧
    (∀ k, peScanJ dataCmp d aIdx i j fuel < k → k ≤ j →
      (agetD d aIdx).time < (agetD d k).time) ∧
    (i ≤ peScanJ dataCmp d aIdx i j fuel →
      (agetD d (peScanJ dataCmp d aIdx i j fuel)).time ≤ (agetD d aIdx).time) := by
  intro fuel
  induction fuel with
  | zero =>
    intro d aIdx i j hi1 hf
    rw [peScanJ_zero]
    refine ⟨le_refl _, fun h => by omega, fun k hk1 hk2 => absurd hk1 (by omega),
      fun h => absurd h (by omega)⟩
  | succ fuel ih =>
    intro d aIdx i j hi1 hf
    rw [peScanJ_succ]
    by_cases hg : i ≤ j ∧ dataCmp (agetD d aIdx) (agetD d j) < 0
    · rw [if_pos hg]
      obtain ⟨h1, h2, h3, h4⟩ := ih d aIdx i (j - 1) hi1 (by omega)
      refine ⟨by omega, fun _ => h2 (by omega), ?_, h4⟩
      intro k hk1 hk2
      by_cases hkj : k = j
      · subst hkj
        exact dataCmp_lt hg.2
      · exact h3 k hk1 (by omega)
    · rw [if_neg hg]
      refine ⟨le_refl _, fun h => by omega, fun k hk1 hk2 => absurd hk1 (by omega), ?_⟩
      intro hij
      exact dataCmp_not_lt (fun hc => hg ⟨hij, hc⟩)

/-! Correctness of `insertionSortCmpFunc`. -/

theorem sorted_glue {d : Array Data} {a j i : Nat}
    (h1 : SortedRange d a j)
    (h2 : SortedRange d (j + 1) (i + 1))
    (h3 : ∀ q, j < q → q ≤ i → dle (agetD d j) (agetD d q))
    (h4 : ∀ p, a ≤ p → p < j → ∀ q, j < q → q ≤ i → dle (agetD d p) (agetD d q))
    (h5 : ∀ p, a ≤ p → p < j → dle (agetD d p) (agetD d j)) :
    SortedRange d a (i + 1) := by
  intro p q hp hpq hq
  by_cases hpj : p < j
  · by_cases hqj : q < j
    · exact h1 p q hp hpq hqj
    · by_cases hqe : q = j
      · subst hqe
        exact h5 p hp hpj
      · exact h4 p hp hpj q (by omega) (by omega)
  · by_cases hpe : p = j
    · subst hpe
      exact h3 q (by omega) (by omega)
    · exact h2 p q (by omega) hpq hq

theorem insInner_zero (d : Array Data) (a j : Nat) : insInner dataCmp d a j 0 = d := rfl

theorem insInner_succ (d : Array Data) (a j fuel : Nat) :
    insInner dataCmp d a j (fuel + 1) =
      if a < j ∧ dataCmp (agetD d j) (agetD d (j - 1)) < 0 then
        insInner dataCmp (aswap d j (j - 1)) a (j - 1) fuel
      else d := rfl

theorem insInner_spec : ∀ (fuel : Nat) (d : Array Data) (a j i : Nat),
    j ≤ i → i < d.size → a ≤ j → j - a ≤ fuel →
    SortedRange d a j →
    SortedRange d (j + 1) (i + 1) →
    (∀ q, j < q → q ≤ i → dle (agetD d j) (agetD d q)) →
    (∀ p, a ≤ p → p < j → ∀ q, j < q → q ≤ i → dle (agetD d p) (agetD d q)) →
    SortedRange (insInner dataCmp d a j fuel) a (i + 1) ∧
    PermWithin a (i + 1) d (insInner dataCmp d a j fuel) := by
  intro fuel
  induction fuel with
  | zero =>
    intro d a j i hji hi haj hfuel h1 h2 h3 h4
    rw [insInner_zero]
    have hja : j = a := by omega
    subst hja
    exact ⟨sorted_glue h1 h2 h3 h4 (fun p hp hpj => absurd hpj (by omega)),
      permWithin_refl _ _ _⟩
  | succ fuel ih =>
    intro d a j i hji hi haj hfuel h1 h2 h3 h4
    rw [insInner_succ]
    by_cases hg : a < j ∧ dataCmp (agetD d j) (agetD d (j - 1)) < 0
    · rw [if_pos hg]
      have hjs : j < d.size := by omega
      have hj1s : j - 1 < d.size := by omega
      have hsw : ∀ k, agetD (aswap d j (j - 1)) k =
          if k = j then agetD d (j - 1)
          else if k = j - 1 then agetD d j else agetD d k :=
        fun k => agetD_aswap d j (j - 1) k hjs hj1s
      have e1 : agetD (aswap d j (j - 1)) (j - 1) = agetD d j := by
        rw [hsw, if_neg (by omega), if_pos rfl]
      have e2 : agetD (aswap d j (j - 1)) j = agetD d (j - 1) := by
        rw [hsw, if_pos rfl]
      have e3 : ∀ k, k ≠ j → k ≠ j - 1 → agetD (aswap d j (j - 1)) k = agetD d k :=
        fun k hk1 hk2 => by rw [hsw, if_neg hk1, if_neg hk2]
      have ca : SortedRange (aswap d j (j - 1)) a (j - 1) :=
        sortedRange_congr (fun k hk1 hk2 => e3 k (by omega) (by omega))
          (sortedRange_restrict h1 (le_refl a) (by omega))
      have cb : SortedRange (aswap d j (j - 1)) ((j - 1) + 1) (i + 1) := by
        intro p q hp hpq hq
        by_cases hpj : p = j
        · rw [hpj, e2, e3 q (by omega) (by omega)]
          exact h4 (j - 1) (by omega) (by omega) q (by omega) (by omega)
        · rw [e3 p (by omega) (by omega), e3 q (by omega) (by omega)]
          exact h2 p q (by omega) hpq hq
      have cc : ∀ q, j - 1 < q → q ≤ i →
          dle (agetD (aswap d j (j - 1)) (j - 1)) (agetD (aswap d j (j - 1)) q) := by
        intro q hq1 hq2
        rw [e1]
        by_cases hqj : q = j
        · subst hqj
          rw [e2]
          exact le_of_lt (dataCmp_lt hg.2)
        · rw [e3 q (by omega) (by omega)]
          exact h3 q (by omega) hq2
      have cd : ∀ p, a ≤ p → p < j - 1 → ∀ q, j - 1 < q → q ≤ i →
          dle (agetD (aswap d j (j - 1)) p) (agetD (aswap d j (j - 1)) q) := by
        intro p hp1 hp2 q hq1 hq2
        rw [e3 p (by omega) (by omega)]
        by_cases hqj : q = j
        · rw [hqj, e2]
          exact h1 p (j - 1) hp1 (by omega) (by omega)
        · rw [e3 q (by omega) (by omega)]
          exact h4 p hp1 (by omega) q (by omega) hq2
      obtain ⟨hs, hperm⟩ := ih (aswap d j (j - 1)) a (j - 1) i (by omega)
        (by rw [aswap_size]; exact hi) (by omega) (by omega) ca cb cc cd
      exact ⟨hs, permWithin_trans
        (permWithin_swap d j (j - 1) (by omega) (by omega) (by omega) (by omega)) hperm⟩
    · rw [if_neg hg]
      refine ⟨sorted_glue h1 h2 h3 h4 ?_, permWithin_refl _ _ _⟩
      intro p hp1 hp2
      have hja : a < j := by omega
      have hnc : ¬ dataCmp (agetD d j) (agetD d (j - 1)) < 0 := fun hc => hg ⟨hja, hc⟩
      have hstep : dle (agetD d (j - 1)) (agetD d j) := dataCmp_not_lt hnc
      by_cases hpj : p = j - 1
      · subst hpj
        exact hstep
      · exact dle_trans (h1 p (j - 1) hp1 (by omega) (by omega)) hstep

theorem insOuter_zero (d : Array Data) (a b i : Nat) :
    insOuter dataCmp d a b i 0 = d := rfl

theorem insOuter_succ (d : Array Data) (a b i fuel : Nat) :
    insOuter dataCmp d a b i (fuel + 1) =
      if i < b then insOuter dataCmp (insInner dataCmp d a i (i + 1)) a b (i + 1) fuel
      else d := rfl

theorem insOuter_spec : ∀ (fuel : Nat) (d : Array Data) (a b i : Nat),
    b ≤ d.size → a < i → b - i ≤ fuel → SortedRange d a i →
    SortedRange (insOuter dataCmp d a b i fuel) a b ∧
    PermWithin a b d (insOuter dataCmp d a b i fuel) := by
  intro fuel
  induction fuel with
  | zero =>
    intro d a b i hb hai hfuel hsort
    rw [insOuter_zero]
    exact ⟨sortedRange_restrict hsort (le_refl a) (by omega), permWithin_refl _ _ _⟩
  | succ fuel ih =>
    intro d a b i hb hai hfuel hsort
    rw [insOuter_succ]
    by_cases hg : i < b
    · rw [if_pos hg]
      obtain ⟨hs1, hp1⟩ := insInner_spec (i + 1) d a i i (le_refl i) (by omega)
        (by omega) (by omega) hsort (sortedRange_vacuous (by omega))
        (fun q hq1 hq2 => absurd hq1 (by omega))
        (fun p hp1 hp2 q hq1 hq2 => absurd hq1 (by omega))
      obtain ⟨hs2, hp2⟩ := ih (insInner dataCmp d a i (i + 1)) a b (i + 1)
        (by rw [hp1.1]; exact hb) (by omega) (by omega) hs1
      exact ⟨hs2, permWithin_trans (permWithin_mono hp1 (le_refl a) (by omega)) hp2⟩
    · rw [if_neg hg]
      exact ⟨sortedRange_restrict hsort (le_refl a) (by omega), permWithin_refl _ _ _⟩

theorem insertionSortCmp_spec (d : Array Data) (a b : Nat) (hb : b ≤ d.size) :
    SortedRange (insertionSortCmp dataCmp d a b) a b ∧
    PermWithin a b d (insertionSortCmp dataCmp d a b) := by
  have h := insOuter_spec (b + 1) d a b (a + 1) hb (by omega) (by omega)
    (sortedRange_vacuous (by omega))
  exact h

/-! Correctness of `partitionCmpFunc` and `partitionEqualCmpFunc`. -/

theorem partExit {d : Array Data} {a b i0 j0 : Nat} {p : Data}
    (hb : b ≤ d.size) (hp : agetD d a = p)
    (hI2 : ∀ k, a < k → k < i0 → (agetD d k).time < p.time)
    (hI3 : ∀ k, j0 < k → k < b → ¬ (agetD d k).time < p.time)
    (ha : a ≤ j0) (hjb : j0 < b) (hij : j0 < i0) :
    PermWithin a b d (aswap d j0 a) ∧
    agetD (aswap d j0 a) j0 = p ∧
    (∀ k, a ≤ k → k < j0 → (agetD (aswap d j0 a) k).time < p.time) ∧
    (∀ k, j0 < k → k < b → ¬ (agetD (aswap d j0 a) k).time < p.time) := by
  have hj0s : j0 < d.size := by omega
  have has : a < d.size := by omega
  have e : ∀ k, agetD (aswap d j0 a) k =
      if k = j0 then agetD d a else if k = a then agetD d j0 else agetD d k :=
    fun k => agetD_aswap d j0 a k hj0s has
  refine ⟨permWithin_swap d j0 a ha hjb (le_refl a) (by omega), ?_, ?_, ?_⟩
  · rw [e, if_pos rfl, hp]
  · intro k hk1 hk2
    rw [e, if_neg (by omega)]
    by_cases hka : k = a
    · rw [if_pos hka]
      exact hI2 j0 (by omega) hij
    · rw [if_neg hka]
      exact hI2 k (by omega) (by omega)
  · intro k hk1 hk2
    rw [e, if_neg (by omega), if_neg (by omega)]
    exact hI3 k hk1 hk2

theorem partLoop_succ (a : Nat) (d : Array Data) (i j fuel : Nat) :
    partLoop dataCmp a d i j (fuel + 1) =
      if scanLt dataCmp d a j i (j + 2) >
          scanGe dataCmp d a (scanLt dataCmp d a j i (j + 2)) j (j + 1) then
        (aswap d (scanGe dataCmp d a (scanLt dataCmp d a j i (j + 2)) j (j + 1)) a,
         scanGe dataCmp d a (scanLt dataCmp d a j i (j + 2)) j (j + 1))
      else
        partLoop dataCmp a
          (aswap d (scanLt dataCmp d a j i (j + 2))
            (scanGe dataCmp d a (scanLt dataCmp d a j i (j + 2)) j (j + 1)))
          (scanLt dataCmp d a j i (j + 2) + 1)
          (scanGe dataCmp d a (scanLt dataCmp d a j i (j + 2)) j (j + 1) - 1)
          fuel := rfl

theorem partLoop_spec : ∀ (fuel : Nat) (d : Array Data) (a b i j : Nat) (p : Data),
    b ≤ d.size → agetD d a = p →
    (∀ k, a < k → k < i → (agetD d k).time < p.time) →
    (∀ k, j < k → k < b → ¬ (agetD d k).time < p.time) →
    a < i → j < b → i ≤ j + 1 → j + 2 - i ≤ fuel →
    PermWithin a b d (partLoop dataCmp a d i j fuel).1 ∧
    a ≤ (partLoop dataCmp a d i j fuel).2 ∧
    (partLoop dataCmp a d i j fuel).2 < b ∧
    agetD (partLoop dataCmp a d i j fuel).1 (partLoop dataCmp a d i j fuel).2 = p ∧
    (∀ k, a ≤ k → k < (partLoop dataCmp a d i j fuel).2 →
      (agetD (partLoop dataCmp a d i j fuel).1 k).time < p.time) ∧
    (∀ k, (partLoop dataCmp a d i j fuel).2 < k → k < b →
      ¬ (agetD (partLoop dataCmp a d i j fuel).1 k).time < p.time) := by
  intro fuel
  induction fuel with
  | zero =>
    intro d a b i j p hb hp hI2 hI3 hI4 hI5 hI6 hfuel
    exact absurd hfuel (by omega)
  | succ fuel ih =>
    intro d a b i j p hb hp hI2 hI3 hI4 hI5 hI6 hfuel
    obtain ⟨s1, s2, s3, s4⟩ := scanLt_spec (j + 2) d a j i (by omega)
    rw [hp] at s3 s4
    have hi'j1 : scanLt dataCmp d a j i (j + 2) ≤ j + 1 := s2 hI6
    obtain ⟨t1, t2, t3, t4⟩ :=
      scanGe_spec (j + 1) d a (scanLt dataCmp d a j i (j + 2)) j (by omega) (by omega)
    rw [hp] at t3 t4
    have hI2' : ∀ k, a < k → k < scanLt dataCmp d a j i (j + 2) →
        (agetD d k).time < p.time := by
      intro k hk1 hk2
      by_cases hki : k < i
      · exact hI2 k hk1 hki
      · exact s3 k (by omega) hk2
    have hI3' : ∀ k, scanGe dataCmp d a (scanLt dataCmp d a j i (j + 2)) j (j + 1) < k →
        k < b → ¬ (agetD d k).time < p.time := by
      intro k hk1 hk2
      by_cases hkj : k ≤ j
      · exact t3 k hk1 hkj
      · exact hI3 k (by omega) hk2
    rw [partLoop_succ]
    by_cases hij : scanLt dataCmp d a j i (j + 2) >
        scanGe dataCmp d a (scanLt dataCmp d a j i (j + 2)) j (j + 1)
    · rw [if_pos hij]
      dsimp only
      have haj' : a ≤ scanGe dataCmp d a (scanLt dataCmp d a j i (j + 2)) j (j + 1) := by
        have := t2 hi'j1
        omega
      obtain ⟨w1, w2, w3, w4⟩ := partExit hb hp hI2' hI3' haj' (by omega) hij
      exact ⟨w1, haj', by omega, w2, w3, w4⟩
    · rw [if_neg hij]
      have hlt : scanLt dataCmp d a j i (j + 2) <
          scanGe dataCmp d a (scanLt dataCmp d a j i (j + 2)) j (j + 1) := by
        rcases Nat.lt_or_ge (scanLt dataCmp d a j i (j + 2))
          (scanGe dataCmp d a (scanLt dataCmp d a j i (j + 2)) j (j + 1)) with h | h
        · exact h
        · have heq : scanLt dataCmp d a j i (j + 2) =
              scanGe dataCmp d a (scanLt dataCmp d a j i (j + 2)) j (j + 1) := by omega
          have h4 := t4 (by omega)
          rw [← heq] at h4
          exact absurd h4 (s4 (by omega))
      have hi's : scanLt dataCmp d a j i (j + 2) < d.size := by omega
      have hj's : scanGe dataCmp d a (scanLt dataCmp d a j i (j + 2)) j (j + 1) < d.size := by
        omega
      have e : ∀ k, agetD (aswap d (scanLt dataCmp d a j i (j + 2))
          (scanGe dataCmp d a (scanLt dataCmp d a j i (j + 2)) j (j + 1))) k =
          if k = scanLt dataCmp d a j i (j + 2) then
            agetD d (scanGe dataCmp d a (scanLt dataCmp d a j i (j + 2)) j (j + 1))
          else if k = scanGe dataCmp d a (scanLt dataCmp d a j i (j + 2)) j (j + 1) then
            agetD d (scanLt dataCmp d a j i (j + 2))
          else agetD d k :=
        fun k => agetD_aswap d _ _ k hi's hj's
      obtain ⟨w1, w2, w3, w4, w5, w6⟩ := ih
        (aswap d (scanLt dataCmp d a j i (j + 2))
          (scanGe dataCmp d a (scanLt dataCmp d a j i (j + 2)) j (j + 1)))
        a b (scanLt dataCmp d a j i (j + 2) + 1)
        (scanGe dataCmp d a (scanLt dataCmp d a j i (j + 2)) j (j + 1) - 1) p
        (by rw [aswap_size]; exact hb)
        (by rw [e, if_neg (by omega), if_neg (by omega), hp])
        (by
          intro k hk1 hk2
          rw [e]
          by_cases hki : k = scanLt dataCmp d a j i (j + 2)
          · rw [if_pos hki]
            exact t4 (by omega)
          · rw [if_neg hki, if_neg (by omega)]
            exact hI2' k hk1 (by omega))
        (by
          intro k hk1 hk2
          rw [e, if_neg (by omega)]
          by_cases hkj : k = scanGe dataCmp d a (scanLt dataCmp d a j i (j + 2)) j (j + 1)
          · rw [if_pos hkj]
            exact s4 (by omega)
          · rw [if_neg hkj]
            exact hI3' k (by omega) hk2)
        (by omega) (by omega) (by omega) (by omega)
      refine ⟨permWithin_trans (permWithin_swap d _ _ (by omega) (by omega) (by omega)
        (by omega)) w1, w2, w3, w4, w5, w6⟩

theorem partitionCmp_spec (d0 : Array Data) (a b pivot : Nat)
    (hab : a < b) (hb : b ≤ d0.size) (hpiv1 : a ≤ pivot) (hpiv2 : pivot < b) :
    PermWithin a b d0 (partitionCmp dataCmp d0 a b pivot).1 ∧
    a ≤ (partitionCmp dataCmp d0 a b pivot).2.1 ∧
    (partitionCmp dataCmp d0 a b pivot).2.1 < b ∧
    agetD (partitionCmp dataCmp d0 a b pivot).1 (partitionCmp dataCmp d0 a b pivot).2.1 =
      agetD d0 pivot ∧
    (∀ k, a ≤ k → k < (partitionCmp dataCmp d0 a b pivot).2.1 →
      (agetD (partitionCmp dataCmp d0 a b pivot).1 k).time < (agetD d0 pivot).time) ∧
    (∀ k, (partitionCmp dataCmp d0 a b pivot).2.1 < k → k < b →
      ¬ (agetD (partitionCmp dataCmp d0 a b pivot).1 k).time < (agetD d0 pivot).time) := by
  have hpivs : pivot < d0.size := by omega
  have has : a < d0.size := by omega
  have hp : agetD (aswap d0 a pivot) a = agetD d0 pivot := by
    rw [agetD_aswap d0 a pivot a has hpivs, if_pos rfl]
  have hperm0 : PermWithin a b d0 (aswap d0 a pivot) :=
    permWithin_swap d0 a pivot (le_refl a) hab hpiv1 hpiv2
  have hbs : b ≤ (aswap d0 a pivot).size := by rw [aswap_size]; exact hb
  obtain ⟨s1, s2, s3, s4⟩ := scanLt_spec (b + 1) (aswap d0 a pivot) a (b - 1) (a + 1)
    (by omega)
  rw [hp] at s3 s4
  have hi0b : scanLt dataCmp (aswap d0 a pivot) a (b - 1) (a + 1) (b + 1) ≤ b :=
    by have := s2 (by omega); omega
  obtain ⟨t1, t2, t3, t4⟩ := scanGe_spec b (aswap d0 a pivot) a
    (scanLt dataCmp (aswap d0 a pivot) a (b - 1) (a + 1) (b + 1)) (b - 1)
    (by omega) (by omega)
  rw [hp] at t3 t4
  have hI2 : ∀ k, a < k → k < scanLt dataCmp (aswap d0 a pivot) a (b - 1) (a + 1) (b + 1) →
      (agetD (aswap d0 a pivot) k).time < (agetD d0 pivot).time :=
    fun k hk1 hk2 => s3 k (by omega) hk2
  have hI3 : ∀ k, scanGe dataCmp (aswap d0 a pivot) a
        (scanLt dataCmp (aswap d0 a pivot) a (b - 1) (a + 1) (b + 1)) (b - 1) b < k →
      k < b → ¬ (agetD (aswap d0 a pivot) k).time < (agetD d0 pivot).time :=
    fun k hk1 hk2 => t3 k hk1 (by omega)
  unfold partitionCmp
  by_cases hij : scanLt dataCmp (aswap d0 a pivot) a (b - 1) (a + 1) (b + 1) >
      scanGe dataCmp (aswap d0 a pivot) a
        (scanLt dataCmp (aswap d0 a pivot) a (b - 1) (a + 1) (b + 1)) (b - 1) b
  · rw [if_pos hij]
    dsimp only
    have haj0 : a ≤ scanGe dataCmp (aswap d0 a pivot) a
        (scanLt dataCmp (aswap d0 a pivot) a (b - 1) (a + 1) (b + 1)) (b - 1) b := by
      have := t2 (by omega)
      omega
    obtain ⟨w1, w2, w3, w4⟩ := partExit hbs hp hI2 hI3 haj0 (by omega) hij
    exact ⟨permWithin_trans hperm0 w1, haj0, by omega, w2, w3, w4⟩
  · rw [if_neg hij]
    dsimp only
    have hlt : scanLt dataCmp (aswap d0 a pivot) a (b - 1) (a + 1) (b + 1) <
        scanGe dataCmp (aswap d0 a pivot) a
          (scanLt dataCmp (aswap d0 a pivot) a (b - 1) (a + 1) (b + 1)) (b - 1) b := by
      rcases Nat.lt_or_ge (scanLt dataCmp (aswap d0 a pivot) a (b - 1) (a + 1) (b + 1))
        (scanGe dataCmp (aswap d0 a pivot) a
          (scanLt dataCmp (aswap d0 a pivot) a (b - 1) (a + 1) (b + 1)) (b - 1) b)
        with h | h
      · exact h
      · have heq : scanLt dataCmp (aswap d0 a pivot) a (b - 1) (a + 1) (b + 1) =
            scanGe dataCmp (aswap d0 a pivot) a
              (scanLt dataCmp (aswap d0 a pivot) a (b - 1) (a + 1) (b + 1)) (b - 1) b := by
          omega
        have h4 := t4 (by omega)
        rw [← heq] at h4
        exact absurd h4 (s4 (by omega))
    have hi's : scanLt dataCmp (aswap d0 a pivot) a (b - 1) (a + 1) (b + 1) <
        (aswap d0 a pivot).size := by omega
    have hj's : scanGe dataCmp (aswap d0 a pivot) a
        (scanLt dataCmp (aswap d0 a pivot) a (b - 1) (a + 1) (b + 1)) (b - 1) b <
        (aswap d0 a pivot).size := by omega
    have e : ∀ k, agetD (aswap (aswap d0 a pivot)
        (scanLt dataCmp (aswap d0 a pivot) a (b - 1) (a + 1) (b + 1))
        (scanGe dataCmp (aswap d0 a pivot) a
          (scanLt dataCmp (aswap d0 a pivot) a (b - 1) (a + 1) (b + 1)) (b - 1) b)) k =
        if k = scanLt dataCmp (aswap d0 a pivot) a (b - 1) (a + 1) (b + 1) then
          agetD (aswap d0 a pivot) (scanGe dataCmp (aswap d0 a pivot) a
            (scanLt dataCmp (aswap d0 a pivot) a (b - 1) (a + 1) (b + 1)) (b - 1) b)
        else if k = scanGe dataCmp (aswap d0 a pivot) a
            (scanLt dataCmp (aswap d0 a pivot) a (b - 1) (a + 1) (b + 1)) (b - 1) b then
          agetD (aswap d0 a pivot)
            (scanLt dataCmp (aswap d0 a pivot) a (b - 1) (a + 1) (b + 1))
        else agetD (aswap d0 a pivot) k :=
      fun k => agetD_aswap (aswap d0 a pivot) _ _ k hi's hj's
    obtain ⟨w1, w2, w3, w4, w5, w6⟩ := partLoop_spec b
      (aswap (aswap d0 a pivot)
        (scanLt dataCmp (aswap d0 a pivot) a (b - 1) (a + 1) (b + 1))
        (scanGe dataCmp (aswap d0 a pivot) a
          (scanLt dataCmp (aswap d0 a pivot) a (b - 1) (a + 1) (b + 1)) (b - 1) b))
      a b (scanLt dataCmp (aswap d0 a pivot) a (b - 1) (a + 1) (b + 1) + 1)
      (scanGe dataCmp (aswap d0 a pivot) a
        (scanLt dataCmp (aswap d0 a pivot) a (b - 1) (a + 1) (b + 1)) (b - 1) b - 1)
      (agetD d0 pivot)
      (by rw [aswap_size]; exact hbs)
      (by rw [e, if_neg (by omega), if_neg (by omega), hp])
      (by
        intro k hk1 hk2
        rw [e]
        by_cases hki : k = scanLt dataCmp (aswap d0 a pivot) a (b - 1) (a + 1) (b + 1)
        · rw [if_pos hki]
          exact t4 (by omega)
        · rw [if_neg hki, if_neg (by omega)]
          exact hI2 k hk1 (by omega))
      (by
        intro k hk1 hk2
        rw [e, if_neg (by omega)]
        by_cases hkj : k = scanGe dataCmp (aswap d0 a pivot) a
            (scanLt dataCmp (aswap d0 a pivot) a (b - 1) (a + 1) (b + 1)) (b - 1) b
        · rw [if_pos hkj]
          exact s4 (by omega)
        · rw [if_neg hkj]
          exact hI3 k (by omega) hk2)
      (by omega) (by omega) (by omega) (by omega)
    exact ⟨permWithin_trans hperm0 (permWithin_trans
      (permWithin_swap (aswap d0 a pivot) _ _ (by omega) (by omega) (by omega) (by omega))
      w1), w2, w3, w4, w5, w6⟩

theorem peLoop_succ (a : Nat) (d : Array Data) (i j fuel : Nat) :
    peLoop dataCmp a d i j (fuel + 1) =
      if peScanI dataCmp d a j i (j + 2) >
          peScanJ dataCmp d a (peScanI dataCmp d a j i (j + 2)) j (j + 1) then
        (d, peScanI dataCmp d a j i (j + 2))
      else
        peLoop dataCmp a
          (aswap d (peScanI dataCmp d a j i (j + 2))
            (peScanJ dataCmp d a (peScanI dataCmp d a j i (j + 2)) j (j + 1)))
          (peScanI dataCmp d a j i (j + 2) + 1)
          (peScanJ dataCmp d a (peScanI dataCmp d a j i (j + 2)) j (j + 1) - 1)
          fuel := rfl

theorem peLoop_spec : ∀ (fuel : Nat) (d : Array Data) (a b i j : Nat) (p : Data),
    b ≤ d.size → agetD d a = p →
    (∀ k, a ≤ k → k < i → (agetD d k).time ≤ p.time) →
    (∀ k, j < k → k < b → p.time < (agetD d k).time) →
    a < i → j < b → i ≤ j + 1 → j + 2 - i ≤ fuel →
    PermWithin a b d (peLoop dataCmp a d i j fuel).1 ∧
    a < (peLoop dataCmp a d i j fuel).2 ∧
    (peLoop dataCmp a d i j fuel).2 ≤ b ∧
    (∀ k, a ≤ k → k < (peLoop dataCmp a d i j fuel).2 →
      (agetD (peLoop dataCmp a d i j fuel).1 k).time ≤ p.time) ∧
    (∀ k, (peLoop dataCmp a d i j fuel).2 ≤ k → k < b →
      p.time < (agetD (peLoop dataCmp a d i j fuel).1 k).time) := by
  intro fuel
  induction fuel with
  | zero =>
    intro d a b i j p hb hp hI2 hI3 hI4 hI5 hI6 hfuel
    exact absurd hfuel (by omega)
  | succ fuel ih =>
    intro d a b i j p hb hp hI2 hI3 hI4 hI5 hI6 hfuel
    obtain ⟨u1, u2, u3, u4⟩ := peScanI_spec (j + 2) d a j i (by omega)
    rw [hp] at u3 u4
    have hi'j1 : peScanI dataCmp d a j i (j + 2) ≤ j + 1 := u2 hI6
    obtain ⟨v1, v2, v3, v4⟩ :=
      peScanJ_spec (j + 1) d a (peScanI dataCmp d a j i (j + 2)) j (by omega) (by omega)
    rw [hp] at v3 v4
    have hI2' : ∀ k, a ≤ k → k < peScanI dataCmp d a j i (j + 2) →
        (agetD d k).time ≤ p.time := by
      intro k hk1 hk2
      by_cases hki : k < i
      · exact hI2 k hk1 hki
      · exact u3 k (by omega) hk2
    have hI3' : ∀ k, peScanJ dataCmp d a (peScanI dataCmp d a j i (j + 2)) j (j + 1) < k →
        k < b → p.time < (agetD d k).time := by
      intro k hk1 hk2
      by_cases hkj : k ≤ j
      · exact v3 k hk1 hkj
      · exact hI3 k (by omega) hk2
    rw [peLoop_succ]
    by_cases hij : peScanI dataCmp d a j i (j + 2) >
        peScanJ dataCmp d a (peScanI dataCmp d a j i (j + 2)) j (j + 1)
    · rw [if_pos hij]
      dsimp only
      refine ⟨permWithin_refl _ _ _, by omega, by omega, hI2', ?_⟩
      intro k hk1 hk2
      exact hI3' k (by omega) hk2
    · rw [if_neg hij]
      have hlt : peScanI dataCmp d a j i (j + 2) <
          peScanJ dataCmp d a (peScanI dataCmp d a j i (j + 2)) j (j + 1) := by
        rcases Nat.lt_or_ge (peScanI dataCmp d a j i (j + 2))
          (peScanJ dataCmp d a (peScanI dataCmp d a j i (j + 2)) j (j + 1)) with h | h
        · exact h
        · have heq : peScanI dataCmp d a j i (j + 2) =
              peScanJ dataCmp d a (peScanI dataCmp d a j i (j + 2)) j (j + 1) := by omega
          have h4 := v4 (by omega)
          rw [← heq] at h4
          exact absurd (u4 (by omega)) (not_lt.2 h4)
      have hi's : peScanI dataCmp d a j i (j + 2) < d.size := by omega
      have hj's : peScanJ dataCmp d a (peScanI dataCmp d a j i (j + 2)) j (j + 1) <
          d.size := by omega
      have e : ∀ k, agetD (aswap d (peScanI dataCmp d a j i (j + 2))
          (peScanJ dataCmp d a (peScanI dataCmp d a j i (j + 2)) j (j + 1))) k =
          if k = peScanI dataCmp d a j i (j + 2) then
            agetD d (peScanJ dataCmp d a (peScanI dataCmp d a j i (j + 2)) j (j + 1))
          else if k = peScanJ dataCmp d a (peScanI dataCmp d a j i (j + 2)) j (j + 1) then
            agetD d (peScanI dataCmp d a j i (j + 2))
          else agetD d k :=
        fun k => agetD_aswap d _ _ k hi's hj's
      obtain ⟨w1, w2, w3, w4, w5⟩ := ih
        (aswap d (peScanI dataCmp d a j i (j + 2))
          (peScanJ dataCmp d a (peScanI dataCmp d a j i (j + 2)) j (j + 1)))
        a b (peScanI dataCmp d a j i (j + 2) + 1)
        (peScanJ dataCmp d a (peScanI dataCmp d a j i (j + 2)) j (j + 1) - 1) p
        (by rw [aswap_size]; exact hb)
        (by rw [e, if_neg (by omega), if_neg (by omega), hp])
        (by
          intro k hk1 hk2
          rw [e]
          by_cases hki : k = peScanI dataCmp d a j i (j + 2)
          · rw [if_pos hki]
            exact v4 (by omega)
          · rw [if_neg hki, if_neg (by omega)]
            exact hI2' k hk1 (by omega))
        (by
          intro k hk1 hk2
          rw [e, if_neg (by omega)]
          by_cases hkj : k = peScanJ dataCmp d a (peScanI dataCmp d a j i (j + 2)) j (j + 1)
          · rw [if_pos hkj]
            exact u4 (by omega)
          · rw [if_neg hkj]
            exact hI3' k (by omega) hk2)
        (by omega) (by omega) (by omega) (by omega)
      exact ⟨permWithin_trans (permWithin_swap d _ _ (by omega) (by omega) (by omega)
        (by omega)) w1, w2, w3, w4, w5⟩

theorem partitionEqualCmp_spec (d0 : Array Data) (a b pivot : Nat)
    (hab : a < b) (hb : b ≤ d0.size) (hpiv1 : a ≤ pivot) (hpiv2 : pivot < b) :
    PermWithin a b d0 (partitionEqualCmp dataCmp d0 a b pivot).1 ∧
    a < (partitionEqualCmp dataCmp d0 a b pivot).2 ∧
    (partitionEqualCmp dataCmp d0 a b pivot).2 ≤ b ∧
    (∀ k, a ≤ k → k < (partitionEqualCmp dataCmp d0 a b pivot).2 →
      (agetD (partitionEqualCmp dataCmp d0 a b pivot).1 k).time ≤
        (agetD d0 pivot).time) ∧
    (∀ k, (partitionEqualCmp dataCmp d0 a b pivot).2 ≤ k → k < b →
      (agetD d0 pivot).time <
        (agetD (partitionEqualCmp dataCmp d0 a b pivot).1 k).time) := by
  have hpivs : pivot < d0.size := by omega
  have has : a < d0.size := by omega
  have hp : agetD (aswap d0 a pivot) a = agetD d0 pivot := by
    rw [agetD_aswap d0 a pivot a has hpivs, if_pos rfl]
  have hperm0 : PermWithin a b d0 (aswap d0 a pivot) :=
    permWithin_swap d0 a pivot (le_refl a) hab hpiv1 hpiv2
  obtain ⟨w1, w2, w3, w4, w5⟩ := peLoop_spec b (aswap d0 a pivot) a b (a + 1) (b - 1)
    (agetD d0 pivot) (by rw [aswap_size]; exact hb) hp
    (by
      intro k hk1 hk2
      have hka : k = a := by omega
      rw [hka, hp])
    (fun k hk1 hk2 => absurd hk2 (by omega))
    (by omega) (by omega) (by omega) (by omega)
  exact ⟨permWithin_trans hperm0 w1, w2, w3, w4, w5⟩

/-! Correctness of `partialInsertionSortCmpFunc`. -/

theorem shiftUpLoop_succ (d : Array Data) (b j fuel : Nat) :
    shiftUpLoop dataCmp d b j (fuel + 1) =
      if j < b ∧ dataCmp (agetD d j) (agetD d (j - 1)) < 0 then
        shiftUpLoop dataCmp (aswap d j (j - 1)) b (j + 1) fuel
      else d := rfl

theorem shiftUpLoop_permWithin : ∀ (fuel : Nat) (d : Array Data) (b j : Nat),
    1 ≤ j → PermWithin (j - 1) b d (shiftUpLoop dataCmp d b j fuel) := by
  intro fuel
  induction fuel with
  | zero =>
    intro d b j hj
    exact permWithin_refl _ _ _
  | succ fuel ih =>
    intro d b j hj
    rw [shiftUpLoop_succ]
    by_cases hg : j < b ∧ dataCmp (agetD d j) (agetD d (j - 1)) < 0
    · rw [if_pos hg]
      refine permWithin_trans
        (permWithin_swap d j (j - 1) (by omega) hg.1 (le_refl _) (by omega)) ?_
      exact permWithin_mono (ih (aswap d j (j - 1)) b (j + 1) (by omega)) (by omega)
        (le_refl b)
    · rw [if_neg hg]
      exact permWithin_refl _ _ _

theorem shiftDownLoop_zero (d : Array Data) (j : Nat) :
    shiftDownLoop dataCmp d j 0 = d := rfl

theorem shiftDownLoop_succ (d : Array Data) (j fuel : Nat) :
    shiftDownLoop dataCmp d j (fuel + 1) =
      if 1 ≤ j ∧ dataCmp (agetD d j) (agetD d (j - 1)) < 0 then
        shiftDownLoop dataCmp (aswap d j (j - 1)) (j - 1) fuel
      else d := rfl

/-- Under the flank invariant the left shift of
`partialInsertionSortCmpFunc` (whose Go loop bound is `j >= 1`, not
`j >= a+1`) never crosses below `a`, so it coincides with the inner
insertion-sort loop. -/
theorem shiftDownLoop_eq_insInner : ∀ (fuel : Nat) (d : Array Data) (a b j : Nat),
    Flank d a b → a ≤ j → j < b → b ≤ d.size →
    shiftDownLoop dataCmp d j fuel = insInner dataCmp d a j fuel := by
  intro fuel
  induction fuel with
  | zero =>
    intro d a b j hflank haj hjb hb
    rfl
  | succ fuel ih =>
    intro d a b j hflank haj hjb hb
    rw [shiftDownLoop_succ, insInner_succ]
    by_cases haj' : a < j
    · by_cases hc : dataCmp (agetD d j) (agetD d (j - 1)) < 0
      · rw [if_pos ⟨by omega, hc⟩, if_pos ⟨haj', hc⟩]
        refine ih (aswap d j (j - 1)) a b (j - 1) ?_ (by omega) (by omega)
          (by rw [aswap_size]; exact hb)
        exact flank_preserved
          (permWithin_swap d j (j - 1) (by omega) hjb (by omega) (by omega)) hflank
      · rw [if_neg (fun h => hc h.2), if_neg (fun h => hc h.2)]
    · have hje : j = a := by omega
      have hnc : ¬ (1 ≤ j ∧ dataCmp (agetD d j) (agetD d (j - 1)) < 0) := by
        rcases hflank with h0 | ⟨ha, hf⟩
        · intro h
          omega
        · intro h
          have hle := hf j haj hjb
          rw [hje] at h hle
          exact absurd (dataCmp_lt h.2) (not_lt.2 hle)
      rw [if_neg hnc, if_neg (fun h => haj' h.1)]

theorem piSteps_zero (d : Array Data) (a b i : Nat) :
    piSteps dataCmp d a b i 0 = (d, false) := rfl

theorem piSteps_succ (d : Array Data) (a b i steps : Nat) (i' : Nat)
    (h : i' = piScan dataCmp d b i (b + 1)) :
    piSteps dataCmp d a b i (steps + 1) =
      if i' = b then (d, true)
      else if b - a < 50 then (d, false)
      else
        piSteps dataCmp
          (if b - i' ≥ 2 then
            shiftUpLoop dataCmp
              (if i' - a ≥ 2 then
                shiftDownLoop dataCmp (aswap d i' (i' - 1)) (i' - 1) i'
              else aswap d i' (i' - 1)) b (i' + 1) (b + 1)
          else
            (if i' - a ≥ 2 then
              shiftDownLoop dataCmp (aswap d i' (i' - 1)) (i' - 1) i'
            else aswap d i' (i' - 1))) a b i' steps := by
  subst h
  rfl

theorem piSteps_spec : ∀ (steps : Nat) (d : Array Data) (a b i : Nat),
    b ≤ d.size → a < i → i ≤ b → Flank d a b → AdjSorted d a i →
    PermWithin a b d (piSteps dataCmp d a b i steps).1 ∧
    ((piSteps dataCmp d a b i steps).2 = true →
      SortedRange (piSteps dataCmp d a b i steps).1 a b) := by
  intro steps
  induction steps with
  | zero =>
    intro d a b i hb hai hib hflank hadj
    rw [piSteps_zero]
    exact ⟨permWithin_refl _ _ _, fun h => absurd h (by simp)⟩
  | succ steps ih =>
    intro d a b i hb hai hib hflank hadj
    obtain ⟨p1, p2, p3, p4⟩ := piScan_spec (b + 1) d b i (by omega)
    set i' := piScan dataCmp d b i (b + 1) with hdef
    have hadj' : AdjSorted d a i' := adjSorted_extend hadj p3
    rw [piSteps_succ d a b i steps i' hdef]
    by_cases h1 : i' = b
    · rw [if_pos h1]
      refine ⟨permWithin_refl _ _ _, fun _ => ?_⟩
      rw [← h1]
      exact adjSorted_sortedRange hadj'
    · rw [if_neg h1]
      by_cases h2 : b - a < 50
      · rw [if_pos h2]
        exact ⟨permWithin_refl _ _ _, fun h => absurd h (by simp)⟩
      · rw [if_neg h2]
        have hi'b : i' < b := by
          have := p2 hib
          omega
        have hi'a : a < i' := by omega
        have hi's : i' < d.size := by omega
        have hi1s : i' - 1 < d.size := by omega
        have perm1 : PermWithin a b d (aswap d i' (i' - 1)) :=
          permWithin_swap d i' (i' - 1) (by omega) hi'b (by omega) (by omega)
        have flank1 : Flank (aswap d i' (i' - 1)) a b := flank_preserved perm1 hflank
        have e3 : ∀ k, k ≠ i' → k ≠ i' - 1 →
            agetD (aswap d i' (i' - 1)) k = agetD d k := by
          intro k hk1 hk2
          rw [agetD_aswap d i' (i' - 1) k hi's hi1s, if_neg hk1, if_neg hk2]
        have hmid : ∀ d2 : Array Data,
            (if i' - a ≥ 2 then
              shiftDownLoop dataCmp (aswap d i' (i' - 1)) (i' - 1) i'
            else aswap d i' (i' - 1)) = d2 →
            PermWithin a b d d2 ∧ AdjSorted d2 a i' ∧ Flank d2 a b ∧ d2.size = d.size := by
          intro d2 hd2
          by_cases h3 : i' - a ≥ 2
          · rw [if_pos h3] at hd2
            rw [shiftDownLoop_eq_insInner i' (aswap d i' (i' - 1)) a b (i' - 1) flank1
              (by omega) (by omega) (by rw [aswap_size]; exact hb)] at hd2
            have hs1 : SortedRange (aswap d i' (i' - 1)) a (i' - 1) := by
              refine sortedRange_congr (fun k hk1 hk2 => e3 k (by omega) (by omega)) ?_
              exact sortedRange_restrict (adjSorted_sortedRange hadj') (le_refl a)
                (by omega)
            obtain ⟨hs2, hp2⟩ := insInner_spec i' (aswap d i' (i' - 1)) a (i' - 1) (i' - 1)
              (le_refl _) (by rw [aswap_size]; omega) (by omega) (by omega) hs1
              (sortedRange_vacuous (by omega))
              (fun q hq1 hq2 => absurd hq1 (by omega))
              (fun p hp1 hp2 q hq1 hq2 => absurd hq1 (by omega))
            have hi1 : (i' - 1) + 1 = i' := by omega
            rw [hi1] at hs2 hp2
            rw [hd2] at hs2 hp2
            have hperm : PermWithin a b d d2 :=
              permWithin_trans perm1 (permWithin_mono hp2 (le_refl a) (by omega))
            exact ⟨hperm, sortedRange_adjSorted hs2, flank_preserved hperm hflank,
              hperm.1⟩
          · rw [if_neg h3] at hd2
            rw [← hd2]
            have hia : i' = a + 1 := by omega
            refine ⟨perm1, ?_, flank1, by rw [aswap_size]⟩
            intro k hk1 hk2
            exact absurd hk2 (by omega)
        obtain ⟨q1, q2, q3, q4⟩ := hmid _ rfl
        have hlast : ∀ d3 : Array Data,
            (if b - i' ≥ 2 then
              shiftUpLoop dataCmp
                (if i' - a ≥ 2 then
                  shiftDownLoop dataCmp (aswap d i' (i' - 1)) (i' - 1) i'
                else aswap d i' (i' - 1)) b (i' + 1) (b + 1)
            else
              (if i' - a ≥ 2 then
                shiftDownLoop dataCmp (aswap d i' (i' - 1)) (i' - 1) i'
              else aswap d i' (i' - 1))) = d3 →
            PermWithin a b d d3 ∧ AdjSorted d3 a i' ∧ Flank d3 a b ∧ d3.size = d.size := by
          intro d3 hd3
          by_cases h4 : b - i' ≥ 2
          · rw [if_pos h4] at hd3
            have hup := shiftUpLoop_permWithin (b + 1)
              (if i' - a ≥ 2 then
                shiftDownLoop dataCmp (aswap d i' (i' - 1)) (i' - 1) i'
              else aswap d i' (i' - 1)) b (i' + 1) (by omega)
            rw [hd3] at hup
            have hup' : PermWithin i' b
                (if i' - a ≥ 2 then
                  shiftDownLoop dataCmp (aswap d i' (i' - 1)) (i' - 1) i'
                else aswap d i' (i' - 1)) d3 := by
              have h5 : (i' + 1) - 1 = i' := by omega
              rw [h5] at hup
              exact hup
            refine ⟨permWithin_trans q1 (permWithin_mono hup' (by omega) (le_refl b)), ?_,
              ?_, ?_⟩
            · intro k hk1 hk2
              rw [hup'.2.1 k (Or.inl hk2), hup'.2.1 (k - 1) (Or.inl (by omega))]
              exact q2 k hk1 hk2
            · exact flank_preserved (permWithin_trans q1
                (permWithin_mono hup' (by omega) (le_refl b))) hflank
            · rw [hup'.1, q4]
          · rw [if_neg h4] at hd3
            rw [← hd3]
            exact ⟨q1, q2, q3, q4⟩
        obtain ⟨r1, r2, r3, r4⟩ := hlast _ rfl
        obtain ⟨w1, w2⟩ := ih _ a b i' (by rw [r4]; exact hb) hi'a (by omega) r3 r2
        exact ⟨permWithin_trans r1 w1, w2⟩

theorem partInsertionSortCmp_spec (d : Array Data) (a b : Nat) (hb : b ≤ d.size)
    (hab : a < b) (hflank : Flank d a b) :
    PermWithin a b d (partInsertionSortCmp dataCmp d a b).1 ∧
    ((partInsertionSortCmp dataCmp d a b).2 = true →
      SortedRange (partInsertionSortCmp dataCmp d a b).1 a b) :=
  piSteps_spec 5 d a b (a + 1) hb (by omega) (by omega) hflank
    (fun k hk1 hk2 => absurd hk2 (by omega))

/-! Range facts for `reverseRangeCmpFunc`, `breakPatternsCmpFunc` and
`choosePivotCmpFunc`. -/

theorem revLoop_permWithin : ∀ (fuel : Nat) (d : Array Data) (a b i j : Nat),
    a ≤ i → j < b → PermWithin a b d (revLoop d i j fuel) := by
  intro fuel
  induction fuel with
  | zero =>
    intro d a b i j hi hj
    exact permWithin_refl _ _ _
  | succ fuel ih =>
    intro d a b i j hi hj
    show PermWithin a b d (if i < j then revLoop (aswap d i j) (i + 1) (j - 1) fuel else d)
    by_cases hg : i < j
    · rw [if_pos hg]
      exact permWithin_trans (permWithin_swap d i j hi (by omega) (by omega) hj)
        (ih (aswap d i j) a b (i + 1) (j - 1) (by omega) (by omega))
    · rw [if_neg hg]
      exact permWithin_refl _ _ _

theorem reverseRangeCmp_permWithin (d : Array Data) (a b : Nat) (hb : 0 < b) :
    PermWithin a b d (reverseRangeCmp d a b) :=
  revLoop_permWithin b d a b a (b - 1) (le_refl a) (by omega)

theorem permWithin_aswap3 {a b : Nat} (d : Array Data) (i1 j1 i2 j2 i3 j3 : Nat)
    (h1 : a ≤ i1) (h2 : i1 < b) (h3 : a ≤ j1) (h4 : j1 < b)
    (h5 : a ≤ i2) (h6 : i2 < b) (h7 : a ≤ j2) (h8 : j2 < b)
    (h9 : a ≤ i3) (h10 : i3 < b) (h11 : a ≤ j3) (h12 : j3 < b) :
    PermWithin a b d (aswap (aswap (aswap d i1 j1) i2 j2) i3 j3) :=
  permWithin_trans (permWithin_swap d i1 j1 h1 h2 h3 h4)
    (permWithin_trans (permWithin_swap _ i2 j2 h5 h6 h7 h8)
      (permWithin_swap _ i3 j3 h9 h10 h11 h12))

theorem nextPowerOfTwo_le (l : Nat) (hl : 1 ≤ l) : nextPowerOfTwo l ≤ 2 * l := by
  unfold nextPowerOfTwo bitsLen
  rw [if_neg (by omega), Nat.shiftLeft_eq, pow_succ]
  have h := Nat.log2_self_le (n := l) (by omega)
  omega

theorem bp_off_lt (l o : Nat) (hl : 8 ≤ l) (ho : o ≤ nextPowerOfTwo l - 1) :
    (if o ≥ l then o - l else o) < l := by
  have hmod := nextPowerOfTwo_le l (by omega)
  by_cases h : o ≥ l
  · rw [if_pos h]
    omega
  · rw [if_neg h]
    omega

theorem breakPatternsCmp_permWithin (d : Array Data) (a b : Nat) :
    PermWithin a b d (breakPatternsCmp d a b) := by
  unfold breakPatternsCmp
  by_cases h8 : b - a ≥ 8
  · rw [if_pos h8]
    have hq : (b - a) / 4 ≥ 2 := by omega
    have ho1 : Nat.land (xorshiftNext (b - a)) (nextPowerOfTwo (b - a) - 1) ≤
        nextPowerOfTwo (b - a) - 1 := Nat.and_le_right
    have ho2 : Nat.land (xorshiftNext (xorshiftNext (b - a)))
        (nextPowerOfTwo (b - a) - 1) ≤ nextPowerOfTwo (b - a) - 1 := Nat.and_le_right
    have ho3 : Nat.land (xorshiftNext (xorshiftNext (xorshiftNext (b - a))))
        (nextPowerOfTwo (b - a) - 1) ≤ nextPowerOfTwo (b - a) - 1 := Nat.and_le_right
    have hw1 := bp_off_lt (b - a) _ h8 ho1
    have hw2 := bp_off_lt (b - a) _ h8 ho2
    have hw3 := bp_off_lt (b - a) _ h8 ho3
    exact permWithin_aswap3 d _ _ _ _ _ _ (by omega) (by omega) (by omega) (by omega)
      (by omega) (by omega) (by omega) (by omega) (by omega) (by omega) (by omega)
      (by omega)
  · rw [if_neg h8]
    exact permWithin_refl _ _ _

theorem order2Cmp_fst_mem (d : Array Data) (x y s : Nat) :
    (order2Cmp dataCmp d x y s).1 = x ∨ (order2Cmp dataCmp d x y s).1 = y := by
  unfold order2Cmp
  by_cases h : dataCmp (agetD d y) (agetD d x) < 0
  · rw [if_pos h]
    exact Or.inr rfl
  · rw [if_neg h]
    exact Or.inl rfl

theorem order2Cmp_snd_mem (d : Array Data) (x y s : Nat) :
    (order2Cmp dataCmp d x y s).2.1 = x ∨ (order2Cmp dataCmp d x y s).2.1 = y := by
  unfold order2Cmp
  by_cases h : dataCmp (agetD d y) (agetD d x) < 0
  · rw [if_pos h]
    exact Or.inl rfl
  · rw [if_neg h]
    exact Or.inr rfl

theorem medianCmp_mem (d : Array Data) (x y z s : Nat) :
    (medianCmp dataCmp d x y z s).1 = x ∨ (medianCmp dataCmp d x y z s).1 = y ∨
      (medianCmp dataCmp d x y z s).1 = z := by
  unfold medianCmp
  dsimp only
  obtain h4 | h4 := order2Cmp_snd_mem d (order2Cmp dataCmp d x y s).1
    (order2Cmp dataCmp d (order2Cmp dataCmp d x y s).2.1 z
      (order2Cmp dataCmp d x y s).2.2).1
    (order2Cmp dataCmp d (order2Cmp dataCmp d x y s).2.1 z
      (order2Cmp dataCmp d x y s).2.2).2.2
  · rw [h4]
    obtain h1 | h1 := order2Cmp_fst_mem d x y s
    · exact Or.inl h1
    · exact Or.inr (Or.inl h1)
  · rw [h4]
    obtain h3 | h3 := order2Cmp_fst_mem d (order2Cmp dataCmp d x y s).2.1 z
      (order2Cmp dataCmp d x y s).2.2
    · rw [h3]
      obtain h2 | h2 := order2Cmp_snd_mem d x y s
      · exact Or.inl h2
      · exact Or.inr (Or.inl h2)
    · exact Or.inr (Or.inr h3)

theorem medianAdjacentCmp_mem (d : Array Data) (c s : Nat) :
    (medianAdjacentCmp dataCmp d c s).1 = c - 1 ∨
      (medianAdjacentCmp dataCmp d c s).1 = c ∨
      (medianAdjacentCmp dataCmp d c s).1 = c + 1 :=
  medianCmp_mem d (c - 1) c (c + 1) s

theorem pivotHint_fst (r : Nat × Nat) :
    (if r.2 = 0 then (r.1, SortedHint.increasing)
     else if r.2 = 12 then (r.1, SortedHint.decreasing)
     else (r.1, SortedHint.unknown)).1 = r.1 := by
  by_cases h1 : r.2 = 0
  · rw [if_pos h1]
  · rw [if_neg h1]
    by_cases h2 : r.2 = 12
    · rw [if_pos h2]
    · rw [if_neg h2]

theorem choosePivotCmp_mem (d : Array Data) (a b : Nat) (h8 : 8 ≤ b - a) :
    a ≤ (choosePivotCmp dataCmp d a b).1 ∧ (choosePivotCmp dataCmp d a b).1 < b := by
  unfold choosePivotCmp
  rw [pivotHint_fst, if_pos (show b - a ≥ 8 from h8)]
  by_cases h50 : b - a ≥ 50
  · rw [if_pos h50]
    have hq : (b - a) / 4 ≥ 12 := by omega
    obtain hri := medianAdjacentCmp_mem d (a + (b - a) / 4 * 1) 0
    obtain hrj := medianAdjacentCmp_mem d (a + (b - a) / 4 * 2)
      (medianAdjacentCmp dataCmp d (a + (b - a) / 4 * 1) 0).2
    obtain hrk := medianAdjacentCmp_mem d (a + (b - a) / 4 * 3)
      (medianAdjacentCmp dataCmp d (a + (b - a) / 4 * 2)
        (medianAdjacentCmp dataCmp d (a + (b - a) / 4 * 1) 0).2).2
    obtain hm | hm | hm := medianCmp_mem d
      (medianAdjacentCmp dataCmp d (a + (b - a) / 4 * 1) 0).1
      (medianAdjacentCmp dataCmp d (a + (b - a) / 4 * 2)
        (medianAdjacentCmp dataCmp d (a + (b - a) / 4 * 1) 0).2).1
      (medianAdjacentCmp dataCmp d (a + (b - a) / 4 * 3)
        (medianAdjacentCmp dataCmp d (a + (b - a) / 4 * 2)
          (medianAdjacentCmp dataCmp d (a + (b - a) / 4 * 1) 0).2).2).1
      (medianAdjacentCmp dataCmp d (a + (b - a) / 4 * 3)
        (medianAdjacentCmp dataCmp d (a + (b - a) / 4 * 2)
          (medianAdjacentCmp dataCmp d (a + (b - a) / 4 * 1) 0).2).2).2 <;>
      rw [hm] <;> rcases hri with h | h | h <;> rcases hrj with h' | h' | h' <;>
      rcases hrk with h'' | h'' | h'' <;> omega
  · rw [if_neg h50]
    obtain hm | hm | hm := medianCmp_mem d (a + (b - a) / 4 * 1) (a + (b - a) / 4 * 2)
      (a + (b - a) / 4 * 3) 0 <;> rw [hm] <;> omega

/-! Correctness of `siftDownCmpFunc` and the heap shape. -/

theorem inSubtree_le {root k : Nat} (h : InSubtree root k) : root ≤ k := by
  induction h with
  | base => exact le_refl _
  | left h ih => omega
  | right h ih => omega

theorem inSubtree_trans {x y z : Nat} (h1 : InSubtree x y) (h2 : InSubtree y z) :
    InSubtree x z := by
  induction h2 with
  | base => exact h1
  | left h ih => exact InSubtree.left ih
  | right h ih => exact InSubtree.right ih

theorem inSubtree_parent {x c : Nat} (h : InSubtree x c) (hne : c ≠ x) :
    ∃ k, InSubtree x k ∧ (c = 2 * k + 1 ∨ c = 2 * k + 2) := by
  cases h with
  | base => exact absurd rfl hne
  | left h => exact ⟨_, h, Or.inl rfl⟩
  | right h => exact ⟨_, h, Or.inr rfl⟩

theorem siftDownCmp_zero (d : Array Data) (root hi first : Nat) :
    siftDownCmp dataCmp d root hi first 0 = d := rfl

theorem siftDownCmp_succ (d : Array Data) (root hi first fuel : Nat) (ch : Nat)
    (hch : ch = if 2 * root + 1 + 1 < hi ∧
        dataCmp (agetD d (first + (2 * root + 1))) (agetD d (first + (2 * root + 1) + 1)) < 0
      then 2 * root + 1 + 1 else 2 * root + 1) :
    siftDownCmp dataCmp d root hi first (fuel + 1) =
      if 2 * root + 1 ≥ hi then d
      else if ¬ dataCmp (agetD d (first + root)) (agetD d (first + ch)) < 0 then d
      else siftDownCmp dataCmp (aswap d (first + root) (first + ch)) ch hi first fuel := by
  subst hch
  rfl

theorem siftDownCmp_spec : ∀ (fuel : Nat) (d : Array Data) (root hi first : Nat),
    hi - root ≤ fuel → first + hi ≤ d.size →
    HeapFrom d first hi (root + 1) →
    (siftDownCmp dataCmp d root hi first fuel).size = d.size ∧
    HeapFrom (siftDownCmp dataCmp d root hi first fuel) first hi root ∧
    (∀ pos : Nat, (∀ k, InSubtree root k → k < hi → pos ≠ first + k) →
      agetD (siftDownCmp dataCmp d root hi first fuel) pos = agetD d pos) ∧
    (siftDownCmp dataCmp d root hi first fuel).toList.Perm d.toList ∧
    (agetD (siftDownCmp dataCmp d root hi first fuel) (first + root) =
        agetD d (first + root) ∨
      (2 * root + 1 < hi ∧ agetD (siftDownCmp dataCmp d root hi first fuel) (first + root) =
        agetD d (first + (2 * root + 1))) ∨
      (2 * root + 2 < hi ∧ agetD (siftDownCmp dataCmp d root hi first fuel) (first + root) =
        agetD d (first + (2 * root + 2)))) ∧
    (∀ Q : Data → Prop, (∀ k, root ≤ k → k < hi → Q (agetD d (first + k))) →
      ∀ k, root ≤ k → k < hi →
        Q (agetD (siftDownCmp dataCmp d root hi first fuel) (first + k))) := by
  intro fuel
  induction fuel with
  | zero =>
    intro d root hi first hfuel hb hpre
    rw [siftDownCmp_zero]
    refine ⟨rfl, ?_, fun pos h => rfl, List.Perm.refl _, Or.inl rfl, fun Q hQ => hQ⟩
    intro k c hk hc hchi
    exact absurd hchi (by omega)
  | succ fuel ih =>
    intro d root hi first hfuel hb hpre
    set ch := if 2 * root + 1 + 1 < hi ∧
        dataCmp (agetD d (first + (2 * root + 1))) (agetD d (first + (2 * root + 1) + 1)) < 0
      then 2 * root + 1 + 1 else 2 * root + 1 with hch
    rw [siftDownCmp_succ d root hi first fuel ch hch]
    by_cases hA : 2 * root + 1 ≥ hi
    · rw [if_pos hA]
      refine ⟨rfl, ?_, fun pos h => rfl, List.Perm.refl _, Or.inl rfl, fun Q hQ => hQ⟩
      intro k c hk hc hchi
      by_cases hkr : k = root
      · subst hkr
        exact absurd hchi (by omega)
      · exact hpre k c (by omega) hc hchi
    · rw [if_neg hA]
      have hch_facts : (ch = 2 * root + 1 ∨ ch = 2 * root + 2) ∧ ch < hi := by
        by_cases hc2 : 2 * root + 1 + 1 < hi ∧
            dataCmp (agetD d (first + (2 * root + 1)))
              (agetD d (first + (2 * root + 1) + 1)) < 0
        · rw [if_pos hc2] at hch
          exact ⟨Or.inr (by omega), by omega⟩
        · rw [if_neg hc2] at hch
          exact ⟨Or.inl (by omega), by omega⟩
      have hchgt : root < ch := by
        rcases hch_facts.1 with h | h <;> omega
      have hch_lt : ch < hi := hch_facts.2
      have hother : ∀ c, (c = 2 * root + 1 ∨ c = 2 * root + 2) → c < hi →
          dle (agetD d (first + c)) (agetD d (first + ch)) := by
        intro c hc hchi
        by_cases hc2 : 2 * root + 1 + 1 < hi ∧
            dataCmp (agetD d (first + (2 * root + 1)))
              (agetD d (first + (2 * root + 1) + 1)) < 0
        · rw [if_pos hc2] at hch
          rcases hc with hc | hc
          · rw [hc, hch]
            have hlt := dataCmp_lt hc2.2
            have hidx : first + (2 * root + 1) + 1 = first + (2 * root + 1 + 1) := by omega
            rw [← hidx]
            exact le_of_lt hlt
          · rw [hc, hch]
            have hidx : first + (2 * root + 2) = first + (2 * root + 1 + 1) := by omega
            rw [hidx]
            exact dle_refl _
        · rw [if_neg hc2] at hch
          rcases hc with hc | hc
          · rw [hc, hch]
            exact dle_refl _
          · rw [hc, hch]
            have hcc : ¬ dataCmp (agetD d (first + (2 * root + 1)))
                (agetD d (first + (2 * root + 1) + 1)) < 0 := by
              intro hx
              exact hc2 ⟨by omega, hx⟩
            have hle := dataCmp_not_lt hcc
            have hidx : first + (2 * root + 2) = first + (2 * root + 1) + 1 := by omega
            rw [hidx]
            exact hle
      by_cases hgo : dataCmp (agetD d (first + root)) (agetD d (first + ch)) < 0
      · rw [if_neg (not_not_intro hgo)]
        have h1s : first + root < d.size := by omega
        have h2s : first + ch < d.size := by omega
        have e_root : agetD (aswap d (first + root) (first + ch)) (first + root) =
            agetD d (first + ch) := by
          rw [agetD_aswap d (first + root) (first + ch) (first + root) h1s h2s, if_pos rfl]
        have e_ch : agetD (aswap d (first + root) (first + ch)) (first + ch) =
            agetD d (first + root) := by
          rw [agetD_aswap d (first + root) (first + ch) (first + ch) h1s h2s,
            if_neg (by omega), if_pos rfl]
        have e_other : ∀ m : Nat, m ≠ root → m ≠ ch →
            agetD (aswap d (first + root) (first + ch)) (first + m) = agetD d (first + m) := by
          intro m hm1 hm2
          rw [agetD_aswap d (first + root) (first + ch) (first + m) h1s h2s,
            if_neg (by omega), if_neg (by omega)]
        have hpre1 : HeapFrom (aswap d (first + root) (first + ch)) first hi (ch + 1) := by
          intro k c hk hc hchi
          rw [e_other k (by omega) (by omega), e_other c (by omega) (by omega)]
          exact hpre k c (by omega) hc hchi
        obtain ⟨rsize, rheap, runch, rperm, rprov, rQ⟩ :=
          ih (aswap d (first + root) (first + ch)) ch hi first (by omega)
            (by rw [aswap_size]; exact hb) hpre1
        have vroot : agetD (siftDownCmp dataCmp (aswap d (first + root) (first + ch))
            ch hi first fuel) (first + root) = agetD d (first + ch) := by
          rw [runch (first + root)
            (fun m hm hmhi => by have := inSubtree_le hm; omega), e_root]
        refine ⟨by rw [rsize, aswap_size], ?_, ?_, rperm.trans (aswap_perm _ _ _), ?_, ?_⟩
        · -- the heap property at every node from `root`
          intro k c hk hc hchi
          by_cases hlck : ch ≤ k
          · exact rheap k c hlck hc hchi
          · by_cases hkr : k = root
            · rw [hkr] at hc
              by_cases hcch : c = ch
              · rw [hkr, hcch, vroot]
                rcases rprov with hv | ⟨hb1, hv⟩ | ⟨hb2, hv⟩
                · rw [hv, e_ch]
                  exact le_of_lt (dataCmp_lt hgo)
                · rw [hv, e_other (2 * ch + 1) (by omega) (by omega)]
                  exact hpre ch (2 * ch + 1) (by omega) (Or.inl rfl) hb1
                · rw [hv, e_other (2 * ch + 2) (by omega) (by omega)]
                  exact hpre ch (2 * ch + 2) (by omega) (Or.inr rfl) hb2
              · have hval : agetD (siftDownCmp dataCmp (aswap d (first + root) (first + ch))
                    ch hi first fuel) (first + c) = agetD d (first + c) := by
                  rw [runch (first + c) ?_, e_other c (by omega) (by omega)]
                  intro m hm hmhi
                  rcases eq_or_ne m ch with he | hne
                  · omega
                  · obtain ⟨k', hk', hpar⟩ := inSubtree_parent hm hne
                    have := inSubtree_le hk'
                    rcases hc with h | h <;> rcases hpar with h' | h' <;> omega
                rw [hkr, hval, vroot]
                exact hother c hc hchi
            · have hvk : agetD (siftDownCmp dataCmp (aswap d (first + root) (first + ch))
                  ch hi first fuel) (first + k) = agetD d (first + k) := by
                rw [runch (first + k)
                  (fun m hm hmhi => by have := inSubtree_le hm; omega),
                  e_other k (by omega) (by omega)]
              have hvc : agetD (siftDownCmp dataCmp (aswap d (first + root) (first + ch))
                  ch hi first fuel) (first + c) = agetD d (first + c) := by
                rw [runch (first + c) ?_, e_other c (by omega) (by omega)]
                intro m hm hmhi
                rcases eq_or_ne m ch with he | hne
                · omega
                · obtain ⟨k', hk', hpar⟩ := inSubtree_parent hm hne
                  have := inSubtree_le hk'
                  rcases hc with h | h <;> rcases hpar with h' | h' <;> omega
              rw [hvk, hvc]
              exact hpre k c (by omega) hc hchi
        · -- positions outside the subtree are untouched
          intro pos hpos
          have hstep : InSubtree root ch := by
            rcases hch_facts.1 with h | h
            · rw [h]
              exact InSubtree.left InSubtree.base
            · rw [h]
              exact InSubtree.right InSubtree.base
          rw [runch pos (fun m hm hmhi =>
            hpos m (inSubtree_trans hstep hm) hmhi)]
          have hpr : pos ≠ first + root := hpos root InSubtree.base (by omega)
          have hpc : pos ≠ first + ch := hpos ch hstep hch_lt
          by_cases hps : pos < d.size
          · rw [agetD_aswap d (first + root) (first + ch) pos h1s h2s,
              if_neg hpr, if_neg hpc]
          · rw [agetD_out _ _ (by rw [aswap_size]; omega), agetD_out _ _ (by omega)]
        · -- provenance of the root value
          rcases hch_facts.1 with he | he
          · refine Or.inr (Or.inl ⟨by omega, ?_⟩)
            rw [vroot, he]
          · refine Or.inr (Or.inr ⟨by omega, ?_⟩)
            rw [vroot, he]
        · -- pointwise preservation on `[root, hi)`
          intro Q hQ k hk hkhi
          by_cases hkc : ch ≤ k
          · refine rQ Q ?_ k hkc hkhi
            intro m hm hmhi
            by_cases hmc : m = ch
            · rw [hmc, e_ch]
              exact hQ root (le_refl _) (by omega)
            · rw [e_other m (by omega) hmc]
              exact hQ m (by omega) hmhi
          · have hval : agetD (siftDownCmp dataCmp (aswap d (first + root) (first + ch))
                ch hi first fuel) (first + k) = agetD (aswap d (first + root) (first + ch))
                (first + k) :=
              runch (first + k) (fun m hm hmhi => by have := inSubtree_le hm; omega)
            rw [hval]
            by_cases hkr : k = root
            · rw [hkr, e_root]
              exact hQ ch (by omega) hch_lt
            · rw [e_other k hkr (by omega)]
              exact hQ k hk hkhi
      · rw [if_pos hgo]
        have hd0 : dle (agetD d (first + ch)) (agetD d (first + root)) := dataCmp_not_lt hgo
        refine ⟨rfl, ?_, fun pos h => rfl, List.Perm.refl _, Or.inl rfl, fun Q hQ => hQ⟩
        intro k c hk hc hchi
        by_cases hkr : k = root
        · subst hkr
          exact dle_trans (hother c hc hchi) hd0
        · exact hpre k c (by omega) hc hchi

/-- `siftDownCmp` only rearranges `[first, first + hi)`. -/
theorem siftDownCmp_permWithin (fuel : Nat) (d : Array Data) (root hi first : Nat)
    (hfuel : hi - root ≤ fuel) (hb : first + hi ≤ d.size)
    (hpre : HeapFrom d first hi (root + 1)) :
    PermWithin first (first + hi) d (siftDownCmp dataCmp d root hi first fuel) := by
  obtain ⟨hsize, hheap, hunch, hperm, hprov, hQ⟩ :=
    siftDownCmp_spec fuel d root hi first hfuel hb hpre
  refine ⟨hsize, ?_, hperm, ?_⟩
  · intro k hk
    refine hunch k ?_
    intro m hm hmhi
    have := inSubtree_le hm
    omega
  · intro Q hQ' k hk1 hk2
    by_cases hkr : first + root ≤ k
    · have hk' : k = first + (k - first) := by omega
      rw [hk']
      refine hQ Q ?_ (k - first) (by omega) (by omega)
      intro m hm hmhi
      exact hQ' (first + m) (by omega) (by omega)
    · rw [hunch k (fun m hm hmhi => by have := inSubtree_le hm; omega)]
      exact hQ' k hk1 hk2

theorem heapFrom_root_max (d : Array Data) (first n : Nat) (h : HeapFrom d first n 0) :
    ∀ k, k < n → dle (agetD d (first + k)) (agetD d first) := by
  intro k
  induction k using Nat.strong_induction_on with
  | _ k ih =>
    intro hk
    rcases Nat.eq_zero_or_pos k with h0 | h0
    · rw [h0, Nat.add_zero]
      exact dle_refl _
    · have hp : k = 2 * ((k - 1) / 2) + 1 ∨ k = 2 * ((k - 1) / 2) + 2 := by omega
      have hd := h ((k - 1) / 2) k (by omega) hp hk
      exact dle_trans hd (ih ((k - 1) / 2) (by omega) (by omega))

theorem heapBuild_succ (d : Array Data) (first hi m : Nat) :
    heapBuild dataCmp first hi d (m + 1) =
      heapBuild dataCmp first hi (siftDownCmp dataCmp d m hi first (hi + 1)) m := rfl

theorem heapBuild_spec : ∀ (m : Nat) (d : Array Data) (first hi : Nat),
    first + hi ≤ d.size → HeapFrom d first hi m →
    (heapBuild dataCmp first hi d m).size = d.size ∧
    HeapFrom (heapBuild dataCmp first hi d m) first hi 0 ∧
    PermWithin first (first + hi) d (heapBuild dataCmp first hi d m) := by
  intro m
  induction m with
  | zero =>
    intro d first hi hb hpre
    exact ⟨rfl, hpre, permWithin_refl _ _ _⟩
  | succ m ih =>
    intro d first hi hb hpre
    rw [heapBuild_succ]
    obtain ⟨ssize, sheap, sunch, sperm, sprov, sQ⟩ :=
      siftDownCmp_spec (hi + 1) d m hi first (by omega) hb hpre
    have hpw := siftDownCmp_permWithin (hi + 1) d m hi first (by omega) hb hpre
    obtain ⟨rsize, rheap, rperm⟩ := ih (siftDownCmp dataCmp d m hi first (hi + 1)) first hi
      (by rw [ssize]; exact hb) sheap
    exact ⟨by rw [rsize, ssize], rheap, permWithin_trans hpw rperm⟩

theorem heapPop_succ (d : Array Data) (first n : Nat) :
    heapPop dataCmp first d (n + 1) =
      heapPop dataCmp first
        (siftDownCmp dataCmp (aswap d first (first + n)) 0 n first (n + 2)) n := rfl

theorem heapPop_spec : ∀ (n : Nat) (d : Array Data) (first hi0 : Nat),
    n ≤ hi0 → first + hi0 ≤ d.size →
    HeapFrom d first n 0 →
    SortedRange d (first + n) (first + hi0) →
    (∀ p q, p < n → n ≤ q → q < hi0 → dle (agetD d (first + p)) (agetD d (first + q))) →
    (heapPop dataCmp first d n).size = d.size ∧
    SortedRange (heapPop dataCmp first d n) first (first + hi0) ∧
    PermWithin first (first + hi0) d (heapPop dataCmp first d n) := by
  intro n
  induction n with
  | zero =>
    intro d first hi0 hn hb hheap hsorted hcross
    refine ⟨rfl, ?_, permWithin_refl _ _ _⟩
    have h0 : first + 0 = first := by omega
    rw [h0] at hsorted
    exact hsorted
  | succ n ih =>
    intro d first hi0 hn hb hheap hsorted hcross
    rw [heapPop_succ]
    have h1s : first < d.size := by omega
    have h2s : first + n < d.size := by omega
    have e_first : agetD (aswap d first (first + n)) first = agetD d (first + n) := by
      rw [agetD_aswap d first (first + n) first h1s h2s, if_pos rfl]
    have e_n : agetD (aswap d first (first + n)) (first + n) = agetD d first := by
      rw [agetD_aswap d first (first + n) (first + n) h1s h2s]
      by_cases hn0 : first + n = first
      · rw [if_pos hn0, hn0]
      · rw [if_neg hn0, if_pos rfl]
    have e_other : ∀ m, m ≠ 0 → m ≠ n →
        agetD (aswap d first (first + n)) (first + m) = agetD d (first + m) := by
      intro m hm0 hmn
      rw [agetD_aswap d first (first + n) (first + m) h1s h2s, if_neg (by omega),
        if_neg (by omega)]
    have hmax := heapFrom_root_max d first (n + 1) hheap
    have hpre1 : HeapFrom (aswap d first (first + n)) first n 1 := by
      intro k c hk hc hchi
      rw [e_other k (by omega) (by omega), e_other c (by omega) (by omega)]
      exact hheap k c (by omega) hc (by omega)
    obtain ⟨ssize, sheap, sunch, sperm, sprov, sQ⟩ :=
      siftDownCmp_spec (n + 2) (aswap d first (first + n)) 0 n first (by omega)
        (by rw [aswap_size]; omega) hpre1
    have hpw : PermWithin first (first + n) (aswap d first (first + n))
        (siftDownCmp dataCmp (aswap d first (first + n)) 0 n first (n + 2)) :=
      siftDownCmp_permWithin (n + 2) _ 0 n first (by omega)
        (by rw [aswap_size]; omega) hpre1
    have vtop : agetD (siftDownCmp dataCmp (aswap d first (first + n)) 0 n first (n + 2))
        (first + n) = agetD d first := by
      rw [sunch (first + n) (fun m hm hmhi => by omega), e_n]
    have vhigh : ∀ q, n < q →
        agetD (siftDownCmp dataCmp (aswap d first (first + n)) 0 n first (n + 2))
          (first + q) = agetD d (first + q) := by
      intro q hq
      rw [sunch (first + q) (fun m hm hmhi => by omega), e_other q (by omega) (by omega)]
    have hsorted1 : SortedRange
        (siftDownCmp dataCmp (aswap d first (first + n)) 0 n first (n + 2))
        (first + n) (first + hi0) := by
      intro i j hi1 hij hj
      by_cases hin : i = first + n
      · rw [hin, vtop]
        have hjq : j = first + (j - first) := by omega
        rw [hjq, vhigh (j - first) (by omega)]
        exact hcross 0 (j - first) (by omega) (by omega) (by omega)
      · have hiq : i = first + (i - first) := by omega
        have hjq : j = first + (j - first) := by omega
        rw [hiq, vhigh (i - first) (by omega), hjq, vhigh (j - first) (by omega)]
        exact hsorted (first + (i - first)) (first + (j - first)) (by omega) (by omega)
          (by omega)
    have hcross1 : ∀ p q, p < n → n ≤ q → q < hi0 →
        dle (agetD (siftDownCmp dataCmp (aswap d first (first + n)) 0 n first (n + 2))
            (first + p))
          (agetD (siftDownCmp dataCmp (aswap d first (first + n)) 0 n first (n + 2))
            (first + q)) := by
      intro p q hp hq1 hq2
      by_cases hqn : q = n
      · rw [hqn, vtop]
        refine sQ (fun v => dle v (agetD d first)) ?_ p (by omega) hp
        intro m hm0 hmn
        by_cases hm0' : m = 0
        · rw [hm0', Nat.add_zero, e_first]
          exact hmax n (by omega)
        · rw [e_other m hm0' (by omega)]
          exact hmax m (by omega)
      · rw [vhigh q (by omega)]
        refine sQ (fun v => dle v (agetD d (first + q))) ?_ p (by omega) hp
        intro m hm0 hmn
        by_cases hm0' : m = 0
        · rw [hm0', Nat.add_zero, e_first]
          exact hcross n q (by omega) (by omega) hq2
        · rw [e_other m hm0' (by omega)]
          exact hcross m q (by omega) (by omega) hq2
    obtain ⟨rsize, rsorted, rperm⟩ := ih
      (siftDownCmp dataCmp (aswap d first (first + n)) 0 n first (n + 2)) first hi0
      (by omega) (by rw [ssize, aswap_size]; exact hb) sheap hsorted1 hcross1
    refine ⟨by rw [rsize, ssize, aswap_size], rsorted, ?_⟩
    have hsw : PermWithin first (first + hi0) d (aswap d first (first + n)) :=
      permWithin_swap d first (first + n) (le_refl _) (by omega) (by omega) (by omega)
    exact permWithin_trans hsw (permWithin_trans
      (permWithin_mono hpw (le_refl first) (by omega)) rperm)

theorem heapSortCmp_spec (d : Array Data) (a b : Nat) (hab : a ≤ b) (hb : b ≤ d.size) :
    SortedRange (heapSortCmp dataCmp d a b) a b ∧
    PermWithin a b d (heapSortCmp dataCmp d a b) := by
  have hstep : heapSortCmp dataCmp d a b =
      heapPop dataCmp a (heapBuild dataCmp a (b - a) d ((b - a - 1) / 2 + 1)) (b - a) := rfl
  rw [hstep]
  have hpre : HeapFrom d a (b - a) ((b - a - 1) / 2 + 1) := by
    intro k c hk hc hchi
    exact absurd hchi (by omega)
  obtain ⟨bsize, bheap, bperm⟩ := heapBuild_spec ((b - a - 1) / 2 + 1) d a (b - a)
    (by omega) hpre
  obtain ⟨psize, psorted, pperm⟩ := heapPop_spec (b - a)
    (heapBuild dataCmp a (b - a) d ((b - a - 1) / 2 + 1)) a (b - a) (le_refl _)
    (by rw [bsize]; omega) bheap
    (sortedRange_vacuous (by omega))
    (fun p q hp hq1 hq2 => absurd hq2 (by omega))
  have hab' : a + (b - a) = b := by omega
  rw [hab'] at psorted pperm bperm
  exact ⟨psorted, permWithin_trans bperm pperm⟩

/-! Correctness of the main `pdqsortCmpFunc` loop. -/

theorem flank_restrict {d : Array Data} {a b b' : Nat} (h : Flank d a b) (hb : b' ≤ b) :
    Flank d a b' := by
  rcases h with h0 | ⟨ha, hf⟩
  · exact Or.inl h0
  · exact Or.inr ⟨ha, fun k hk1 hk2 => hf k hk1 (by omega)⟩

theorem partition_glue {dfin : Array Data} {a b mid : Nat} {p : Data}
    (_hmid1 : a ≤ mid) (_hmid2 : mid < b)
    (hvmid : agetD dfin mid = p)
    (hlow : ∀ k, a ≤ k → k < mid → (agetD dfin k).time < p.time)
    (hhigh : ∀ k, mid < k → k < b → p.time ≤ (agetD dfin k).time)
    (hsl : SortedRange dfin a mid) (hsr : SortedRange dfin (mid + 1) b) :
    SortedRange dfin a b := by
  intro i j hi1 hij hj
  by_cases hjm : j < mid
  · exact hsl i j hi1 hij hjm
  · by_cases hjm' : j = mid
    · rw [hjm', hvmid]
      exact le_of_lt (hlow i hi1 (by omega))
    · by_cases him : i < mid
      · exact le_trans (le_of_lt (hlow i hi1 him)) (hhigh j (by omega) hj)
      · by_cases him' : i = mid
        · rw [him', hvmid]
          exact hhigh j (by omega) hj
        · exact hsr i j (by omega) hij hj

theorem pdqLoop_zero (d : Array Data) (a b limit : Nat) (wb wp : Bool) :
    pdqLoop dataCmp d a b limit wb wp 0 = d := rfl

theorem pdqLoop_succ (d : Array Data) (a b limit : Nat) (wb wp : Bool) (fuel : Nat)
    (bp : Array Data × Nat) (rev : Array Data × Nat × SortedHint)
    (pis : Array Data × Bool)
    (hbp : bp = (if ¬ wb = true then (breakPatternsCmp d a b, limit - 1) else (d, limit)))
    (hrev : rev = (if (choosePivotCmp dataCmp bp.1 a b).2 = SortedHint.decreasing then
        (reverseRangeCmp bp.1 a b, (b - 1) - ((choosePivotCmp dataCmp bp.1 a b).1 - a),
          SortedHint.increasing)
      else (bp.1, (choosePivotCmp dataCmp bp.1 a b).1, (choosePivotCmp dataCmp bp.1 a b).2)))
    (hpis : pis = (if wb = true ∧ wp = true ∧ rev.2.2 = SortedHint.increasing then
        partInsertionSortCmp dataCmp rev.1 a b
      else (rev.1, false))) :
    pdqLoop dataCmp d a b limit wb wp (fuel + 1) =
      if b - a ≤ 12 then insertionSortCmp dataCmp d a b
      else if limit = 0 then heapSortCmp dataCmp d a b
      else if pis.2 = true then pis.1
      else if 0 < a ∧ ¬ dataCmp (agetD pis.1 (a - 1)) (agetD pis.1 rev.2.1) < 0 then
        pdqLoop dataCmp (partitionEqualCmp dataCmp pis.1 a b rev.2.1).1
          (partitionEqualCmp dataCmp pis.1 a b rev.2.1).2 b bp.2 wb wp fuel
      else
        if (partitionCmp dataCmp pis.1 a b rev.2.1).2.1 - a <
            b - (partitionCmp dataCmp pis.1 a b rev.2.1).2.1 then
          pdqLoop dataCmp
            (pdqLoop dataCmp (partitionCmp dataCmp pis.1 a b rev.2.1).1 a
              (partitionCmp dataCmp pis.1 a b rev.2.1).2.1 bp.2 true true fuel)
            ((partitionCmp dataCmp pis.1 a b rev.2.1).2.1 + 1) b bp.2
            (decide (min ((partitionCmp dataCmp pis.1 a b rev.2.1).2.1 - a)
              (b - (partitionCmp dataCmp pis.1 a b rev.2.1).2.1) ≥ (b - a) / 8))
            (partitionCmp dataCmp pis.1 a b rev.2.1).2.2 fuel
        else
          pdqLoop dataCmp
            (pdqLoop dataCmp (partitionCmp dataCmp pis.1 a b rev.2.1).1
              ((partitionCmp dataCmp pis.1 a b rev.2.1).2.1 + 1) b bp.2 true true fuel)
            a (partitionCmp dataCmp pis.1 a b rev.2.1).2.1 bp.2
            (decide (min ((partitionCmp dataCmp pis.1 a b rev.2.1).2.1 - a)
              (b - (partitionCmp dataCmp pis.1 a b rev.2.1).2.1) ≥ (b - a) / 8))
            (partitionCmp dataCmp pis.1 a b rev.2.1).2.2 fuel := by
  subst hbp
  subst hrev
  subst hpis
  rfl

theorem pdqLoop_spec : ∀ (fuel : Nat) (d : Array Data) (a b limit : Nat) (wb wp : Bool),
    b ≤ d.size → b - a ≤ fuel → Flank d a b →
    PermWithin a b d (pdqLoop dataCmp d a b limit wb wp fuel) ∧
    SortedRange (pdqLoop dataCmp d a b limit wb wp fuel) a b := by
  intro fuel
  induction fuel with
  | zero =>
    intro d a b limit wb wp hb hfuel hflank
    rw [pdqLoop_zero]
    exact ⟨permWithin_refl _ _ _, sortedRange_vacuous (by omega)⟩
  | succ fuel ih =>
    intro d a b limit wb wp hb hfuel hflank
    rw [pdqLoop_succ d a b limit wb wp fuel _ _ _ rfl rfl rfl]
    by_cases h12 : b - a ≤ 12
    · rw [if_pos h12]
      obtain ⟨hs, hp⟩ := insertionSortCmp_spec d a b hb
      exact ⟨hp, hs⟩
    · rw [if_neg h12]
      by_cases hlim : limit = 0
      · rw [if_pos hlim]
        obtain ⟨hs, hp⟩ := heapSortCmp_spec d a b (by omega) hb
        exact ⟨hp, hs⟩
      · rw [if_neg hlim]
        set d1 := (if ¬ wb = true then (breakPatternsCmp d a b, limit - 1)
          else (d, limit)).1 with hd1def
        set lim1 := (if ¬ wb = true then (breakPatternsCmp d a b, limit - 1)
          else (d, limit)).2 with hlim1def
        have hp1 : PermWithin a b d d1 := by
          rw [hd1def]
          by_cases hwb : ¬ wb = true
          · rw [if_pos hwb]
            exact breakPatternsCmp_permWithin d a b
          · rw [if_neg hwb]
            exact permWithin_refl _ _ _
        have hsz1 : d1.size = d.size := hp1.1
        set pv := choosePivotCmp dataCmp d1 a b with hpvdef
        have hpv : a ≤ pv.1 ∧ pv.1 < b := by
          rw [hpvdef]
          exact choosePivotCmp_mem d1 a b (by omega)
        set rev := (if pv.2 = SortedHint.decreasing then
            (reverseRangeCmp d1 a b, (b - 1) - (pv.1 - a), SortedHint.increasing)
          else (d1, pv.1, pv.2)) with hrevdef
        have hrev : PermWithin a b d1 rev.1 ∧ a ≤ rev.2.1 ∧ rev.2.1 < b := by
          rw [hrevdef]
          by_cases hdec : pv.2 = SortedHint.decreasing
          · rw [if_pos hdec]
            refine ⟨reverseRangeCmp_permWithin d1 a b (by omega), ?_, ?_⟩ <;>
              dsimp only <;> omega
          · rw [if_neg hdec]
            exact ⟨permWithin_refl _ _ _, hpv.1, hpv.2⟩
        have hperm2 : PermWithin a b d rev.1 := permWithin_trans hp1 hrev.1
        have hsz2 : rev.1.size = d.size := hperm2.1
        have hfl2 : Flank rev.1 a b := flank_preserved hperm2 hflank
        set pis := (if wb = true ∧ wp = true ∧ rev.2.2 = SortedHint.increasing then
            partInsertionSortCmp dataCmp rev.1 a b
          else (rev.1, false)) with hpisdef
        have hpis : PermWithin a b rev.1 pis.1 ∧
            (pis.2 = true → SortedRange pis.1 a b) := by
          rw [hpisdef]
          by_cases hc : wb = true ∧ wp = true ∧ rev.2.2 = SortedHint.increasing
          · rw [if_pos hc]
            exact partInsertionSortCmp_spec rev.1 a b (by rw [hsz2]; exact hb)
              (by omega) hfl2
          · rw [if_neg hc]
            exact ⟨permWithin_refl _ _ _, fun h => absurd h (by simp)⟩
        have hperm3 : PermWithin a b d pis.1 := permWithin_trans hperm2 hpis.1
        have hsz3 : pis.1.size = d.size := hperm3.1
        have hfl3 : Flank pis.1 a b := flank_preserved hperm3 hflank
        by_cases hsortd : pis.2 = true
        · rw [if_pos hsortd]
          exact ⟨hperm3, hpis.2 hsortd⟩
        · rw [if_neg hsortd]
          by_cases hpe : 0 < a ∧ ¬ dataCmp (agetD pis.1 (a - 1)) (agetD pis.1 rev.2.1) < 0
          · rw [if_pos hpe]
            have hflank' : ∀ k, a ≤ k → k < b →
                dle (agetD pis.1 (a - 1)) (agetD pis.1 k) := by
              rcases hfl3 with h0 | ⟨ha, hf⟩
              · exact absurd h0 (by omega)
              · exact hf
            have hgep : ∀ k, a ≤ k → k < b →
                (agetD pis.1 rev.2.1).time ≤ (agetD pis.1 k).time := by
              intro k hk1 hk2
              exact le_trans (dataCmp_not_lt hpe.2) (hflank' k hk1 hk2)
            obtain ⟨w1, w2, w3, w4, w5⟩ := partitionEqualCmp_spec pis.1 a b rev.2.1
              (by omega) (by rw [hsz3]; exact hb) hrev.2.1 hrev.2.2
            set pe := partitionEqualCmp dataCmp pis.1 a b rev.2.1 with hpedef
            have hgep' : ∀ k, a ≤ k → k < b →
                (agetD pis.1 rev.2.1).time ≤ (agetD pe.1 k).time :=
              w1.2.2.2 (fun v => (agetD pis.1 rev.2.1).time ≤ v.time) hgep
            have heq : ∀ k, a ≤ k → k < pe.2 →
                (agetD pe.1 k).time = (agetD pis.1 rev.2.1).time :=
              fun k hk1 hk2 => le_antisymm (w4 k hk1 hk2) (hgep' k hk1 (by omega))
            have hfR : Flank pe.1 pe.2 b := by
              refine Or.inr ⟨by omega, ?_⟩
              intro k hk1 hk2
              exact le_trans (w4 (pe.2 - 1) (by omega) (by omega))
                (le_of_lt (w5 k (by omega) hk2))
            obtain ⟨r1, r2⟩ := ih pe.1 pe.2 b lim1 wb wp
              (by rw [w1.1, hsz3]; exact hb) (by omega) hfR
            refine ⟨permWithin_trans hperm3 (permWithin_trans w1
              (permWithin_mono r1 (by omega) (le_refl b))), ?_⟩
            intro i j hi1 hij hj
            by_cases hjm : j < pe.2
            · rw [r1.2.1 i (Or.inl (by omega)), r1.2.1 j (Or.inl hjm)]
              exact le_of_eq ((heq i (by omega) (by omega)).trans
                (heq j (by omega) hjm).symm)
            · by_cases him : i < pe.2
              · rw [r1.2.1 i (Or.inl him)]
                have hjv : (agetD pis.1 rev.2.1).time <
                    (agetD (pdqLoop dataCmp pe.1 pe.2 b lim1 wb wp fuel) j).time :=
                  r1.2.2.2 (fun v => (agetD pis.1 rev.2.1).time < v.time)
                    (fun m hm1 hm2 => w5 m hm1 hm2) j (by omega) hj
                exact le_trans (w4 i (by omega) him) (le_of_lt hjv)
              · exact r2 i j (by omega) hij hj
          · rw [if_neg hpe]
            obtain ⟨w1, w2, w3, w4, w5, w6⟩ := partitionCmp_spec pis.1 a b rev.2.1
              (by omega) (by rw [hsz3]; exact hb) hrev.2.1 hrev.2.2
            set pr := partitionCmp dataCmp pis.1 a b rev.2.1 with hprdef
            set mid := pr.2.1 with hmiddef
            have hpr : PermWithin a b d pr.1 := permWithin_trans hperm3 w1
            by_cases hlr : mid - a < b - mid
            · rw [if_pos hlr]
              have hfl4 : Flank pr.1 a b := flank_preserved hpr hflank
              obtain ⟨l1, l2⟩ := ih pr.1 a mid lim1 true true
                (by rw [w1.1, hsz3]; omega) (by omega) (flank_restrict hfl4 (by omega))
              have hfR : Flank (pdqLoop dataCmp pr.1 a mid lim1 true true fuel)
                  (mid + 1) b := by
                refine Or.inr ⟨by omega, ?_⟩
                intro k hk1 hk2
                have hm1 : mid + 1 - 1 = mid := by omega
                rw [hm1, l1.2.1 mid (Or.inr (le_refl _)), l1.2.1 k (Or.inr (by omega)), w4]
                exact not_lt.1 (w6 k (by omega) hk2)
              obtain ⟨r1, r2⟩ := ih (pdqLoop dataCmp pr.1 a mid lim1 true true fuel)
                (mid + 1) b lim1
                (decide (min (mid - a) (b - mid) ≥ (b - a) / 8)) pr.2.2
                (by rw [l1.1, w1.1, hsz3]; exact hb) (by omega) hfR
              have hvmid : agetD (pdqLoop dataCmp
                  (pdqLoop dataCmp pr.1 a mid lim1 true true fuel) (mid + 1) b lim1
                  (decide (min (mid - a) (b - mid) ≥ (b - a) / 8)) pr.2.2 fuel) mid =
                  agetD pis.1 rev.2.1 := by
                rw [r1.2.1 mid (Or.inl (by omega)), l1.2.1 mid (Or.inr (le_refl _)), w4]
              have hlow : ∀ k, a ≤ k → k < mid →
                  (agetD (pdqLoop dataCmp
                    (pdqLoop dataCmp pr.1 a mid lim1 true true fuel) (mid + 1) b lim1
                    (decide (min (mid - a) (b - mid) ≥ (b - a) / 8)) pr.2.2 fuel) k).time <
                  (agetD pis.1 rev.2.1).time := by
                intro k hk1 hk2
                rw [r1.2.1 k (Or.inl (by omega))]
                exact l1.2.2.2 (fun v => v.time < (agetD pis.1 rev.2.1).time)
                  (fun m hm1 hm2 => w5 m hm1 hm2) k hk1 hk2
              have hhigh : ∀ k, mid < k → k < b →
                  (agetD pis.1 rev.2.1).time ≤
                  (agetD (pdqLoop dataCmp
                    (pdqLoop dataCmp pr.1 a mid lim1 true true fuel) (mid + 1) b lim1
                    (decide (min (mid - a) (b - mid) ≥ (b - a) / 8)) pr.2.2 fuel) k).time := by
                intro k hk1 hk2
                refine r1.2.2.2 (fun v => (agetD pis.1 rev.2.1).time ≤ v.time) ?_ k
                  (by omega) hk2
                intro m hm1 hm2
                rw [l1.2.1 m (Or.inr (by omega))]
                exact not_lt.1 (w6 m (by omega) hm2)
              have hsl : SortedRange (pdqLoop dataCmp
                  (pdqLoop dataCmp pr.1 a mid lim1 true true fuel) (mid + 1) b lim1
                  (decide (min (mid - a) (b - mid) ≥ (b - a) / 8)) pr.2.2 fuel) a mid :=
                sortedRange_congr (fun k hk1 hk2 => r1.2.1 k (Or.inl (by omega))) l2
              refine ⟨?_, partition_glue w2 w3 hvmid hlow hhigh hsl r2⟩
              exact permWithin_trans hpr (permWithin_trans
                (permWithin_mono l1 (le_refl a) (by omega))
                (permWithin_mono r1 (by omega) (le_refl b)))
            · rw [if_neg hlr]
              have hfR : Flank pr.1 (mid + 1) b := by
                refine Or.inr ⟨by omega, ?_⟩
                intro k hk1 hk2
                have hm1 : mid + 1 - 1 = mid := by omega
                rw [hm1, w4]
                exact not_lt.1 (w6 k (by omega) hk2)
              obtain ⟨r1, r2⟩ := ih pr.1 (mid + 1) b lim1 true true
                (by rw [w1.1, hsz3]; exact hb) (by omega) hfR
              have hfl4 : Flank (pdqLoop dataCmp pr.1 (mid + 1) b lim1 true true fuel)
                  a b := flank_preserved (permWithin_trans hpr
                    (permWithin_mono r1 (by omega) (le_refl b))) hflank
              obtain ⟨l1, l2⟩ := ih (pdqLoop dataCmp pr.1 (mid + 1) b lim1 true true fuel)
                a mid lim1
                (decide (min (mid - a) (b - mid) ≥ (b - a) / 8)) pr.2.2
                (by rw [r1.1, w1.1, hsz3]; omega) (by omega)
                (flank_restrict hfl4 (by omega))
              have hvmid : agetD (pdqLoop dataCmp
                  (pdqLoop dataCmp pr.1 (mid + 1) b lim1 true true fuel) a mid lim1
                  (decide (min (mid - a) (b - mid) ≥ (b - a) / 8)) pr.2.2 fuel) mid =
                  agetD pis.1 rev.2.1 := by
                rw [l1.2.1 mid (Or.inr (le_refl _)), r1.2.1 mid (Or.inl (by omega)), w4]
              have hlow : ∀ k, a ≤ k → k < mid →
                  (agetD (pdqLoop dataCmp
                    (pdqLoop dataCmp pr.1 (mid + 1) b lim1 true true fuel) a mid lim1
                    (decide (min (mid - a) (b - mid) ≥ (b - a) / 8)) pr.2.2 fuel) k).time <
                  (agetD pis.1 rev.2.1).time := by
                intro k hk1 hk2
                refine l1.2.2.2 (fun v => v.time < (agetD pis.1 rev.2.1).time) ?_ k hk1 hk2
                intro m hm1 hm2
                rw [r1.2.1 m (Or.inl (by omega))]
                exact w5 m hm1 hm2
              have hhigh : ∀ k, mid < k → k < b →
                  (agetD pis.1 rev.2.1).time ≤
                  (agetD (pdqLoop dataCmp
                    (pdqLoop dataCmp pr.1 (mid + 1) b lim1 true true fuel) a mid lim1
                    (decide (min (mid - a) (b - mid) ≥ (b - a) / 8)) pr.2.2 fuel) k).time := by
                intro k hk1 hk2
                rw [l1.2.1 k (Or.inr (by omega))]
                refine r1.2.2.2 (fun v => (agetD pis.1 rev.2.1).time ≤ v.time) ?_ k
                  (by omega) hk2
                intro m hm1 hm2
                exact not_lt.1 (w6 m (by omega) hm2)
              have hsr : SortedRange (pdqLoop dataCmp
                  (pdqLoop dataCmp pr.1 (mid + 1) b lim1 true true fuel) a mid lim1
                  (decide (min (mid - a) (b - mid) ≥ (b - a) / 8)) pr.2.2 fuel)
                  (mid + 1) b :=
                sortedRange_congr (fun k hk1 hk2 => l1.2.1 k (Or.inr (by omega))) r2
              refine ⟨?_, partition_glue w2 w3 hvmid hlow hhigh l2 hsr⟩
              exact permWithin_trans hpr (permWithin_trans
                (permWithin_mono r1 (by omega) (le_refl b))
                (permWithin_mono l1 (le_refl a) (by omega)))

/-- `sortFunc` returns a permutation of its input. -/
theorem sortFunc_perm (xs : List Data) : (sortFunc xs).Perm xs := by
  obtain ⟨hp, hs⟩ := pdqLoop_spec (xs.toArray.size + 2) xs.toArray 0 xs.toArray.size
    (bitsLen xs.toArray.size) true true (le_refl _) (by omega) (Or.inl rfl)
  have h := hp.2.2.1
  rw [Array.toList_toArray] at h
  exact h

/-- `sortFunc` returns a list that is ascending by timestamp. -/
theorem sortFunc_sorted (xs : List Data) :
    (sortFunc xs).Pairwise (fun x y => x.time ≤ y.time) := by
  obtain ⟨hp, hs⟩ := pdqLoop_spec (xs.toArray.size + 2) xs.toArray 0 xs.toArray.size
    (bitsLen xs.toArray.size) true true (le_refl _) (by omega) (Or.inl rfl)
  rw [show sortFunc xs = (pdqLoop dataCmp xs.toArray 0 xs.toArray.size
    (bitsLen xs.toArray.size) true true (xs.toArray.size + 2)).toList from rfl]
  rw [List.pairwise_iff_getElem]
  intro i j hi hj hij
  have hsz : (pdqLoop dataCmp xs.toArray 0 xs.toArray.size (bitsLen xs.toArray.size)
      true true (xs.toArray.size + 2)).size = xs.toArray.size := hp.1
  have hi2 : i < (pdqLoop dataCmp xs.toArray 0 xs.toArray.size (bitsLen xs.toArray.size)
      true true (xs.toArray.size + 2)).size := by simpa using hi
  have hj2 : j < (pdqLoop dataCmp xs.toArray 0 xs.toArray.size (bitsLen xs.toArray.size)
      true true (xs.toArray.size + 2)).size := by simpa using hj
  have hd := hs i j (by omega) hij (by omega)
  rw [agetD_eq_getElem _ _ hi2, agetD_eq_getElem _ _ hj2] at hd
  exact hd

set_option maxRecDepth 10000 in
/-- C5 counterexample: on `c5Batch` the validator's output is sorted by
timestamp but the relative order of the timestamp-7 readings is *not* the
input order — the reading with marker 103 overtakes the one with marker
100 (and 101), because the pattern-defeating quicksort behind
`slices.SortFunc` is not stable. -/
theorem c5_counterexample :
    refreshValidate c5Batch =
      [sample 1 102, sample 2 104, sample 3 105, sample 4 106, sample 7 103,
       sample 7 100, sample 7 101, sample 8 107, sample 9 108, sample 10 109,
       sample 11 110, sample 12 111, sample 13 112] ∧
    (sample 7 100).time = (sample 7 103).time ∧
    List.indexOf (sample 7 100) c5Batch < List.indexOf (sample 7 103) c5Batch ∧
    List.indexOf (sample 7 103) (refreshValidate c5Batch) <
      List.indexOf (sample 7 100) (refreshValidate c5Batch) := by
  decide

/-- C5 (amended): for every input batch the validator's output contains
exactly those readings with a non-zero timestamp, CO2 > 0 and pressure
> 0 (with multiplicity), in ascending timestamp order; the original
relative order among readings with equal timestamps is *not* guaranteed
(`slices.SortFunc` is unstable).  In particular the batch
`[{t:0}, {t:T1,co2:-5}, {t:T1,co2:400,p:0}, {t:T2,co2:410,p:1000}]`
yields only the `T2` reading. -/
theorem c5_validator_amended :
    (∀ batch : List Data,
      (refreshValidate batch).Pairwise (fun x y => x.time ≤ y.time) ∧
      ∀ d : Data, (refreshValidate batch).count d =
        (if keepData d then batch.count d else 0)) ∧
    refreshValidate
      [⟨0, 400, 50, 1000, 20, 0⟩, ⟨10, -5, 50, 1000, 20, 0⟩, ⟨10, 400, 50, 0, 20, 0⟩,
        ⟨20, 410, 50, 1000, 20, 0⟩] = [⟨20, 410, 50, 1000, 20, 0⟩] := by
  constructor
  · intro batch
    constructor
    · exact (sortFunc_sorted batch).filter keepData
    · intro d
      by_cases hk : keepData d
      · rw [if_pos hk]
        unfold refreshValidate
        rw [List.count_filter hk]
        exact (sortFunc_perm batch).count_eq d
      · rw [if_neg hk]
        unfold refreshValidate
        refine List.count_eq_zero.2 ?_
        intro hmem
        rw [List.mem_filter] at hmem
        exact hk hmem.2
  · decide

/-- Witness for C5 (amended) at a concrete batch: the two-reading batch
is emitted sorted with each valid reading appearing exactly once. -/
theorem c5_validator_amended_witness :
    (refreshValidate [sample 7 100, sample 1 101]).Pairwise
      (fun x y => x.time ≤ y.time) ∧
    (refreshValidate [sample 7 100, sample 1 101]).count (sample 7 100) = 1 := by
  have h := c5_validator_amended.1 [sample 7 100, sample 1 101]
  refine ⟨h.1, ?_⟩
  have h2 := h.2 (sample 7 100)
  rw [if_pos (by decide)] at h2
  rw [h2]
  decide

end Aranet4
